import Mathlib

/-! # LuaConsole: a shallow embedding of `LuaConsoleModel`

The definitions below follow `src/LuaConsole/LuaConsoleModel.cpp` function by
function.  Conventions of the embedding:

* a `std::string` is a `List Char`; a C++ `char` is identified with the `Char`
  of the same byte value (bytes 128..255 are the negative values of a signed
  `char`), a `ColorString` (`std::basic_string<unsigned>`) is a `List Nat`;
* `int` members are `Int`; an addition whose operand is an arbitrary caller
  argument is reduced to 32 bits two's complement (`wrapInt32`), `unsigned`
  members are `Nat` reduced modulo `2 ^ 32`; container sizes are assumed to fit
  an `int`;
* an operation that can throw (`substr`/`erase` out of range) or that has no
  defined behaviour (iterator out of range) returns `Option`, with `none` for
  that case;
* the header `LuaConsoleModel.hpp` is not part of the sources: the numeric
  constants it declares are the fields of `Consts`, and every result holds for
  all of their values;
* the interpreter, the history file and the error classifier are collaborators:
  what they answer is passed to the operation that asks them.
-/

namespace blua

/-! ## Constants of the translation unit -/

/-- Width of the console, `kInnerWidth`. -/
def kInnerWidth : Nat := 78

/-- How many history items are kept by default, `kDefaultHistorySize`. -/
def kDefaultHistorySize : Nat := 100

/-- How many logical messages are kept, `kMessagesKeptCount`. -/
def kMessagesKeptCount : Nat := 3000

/-- Default skip characters, `kDefaultSkipChars`. -/
def kDefaultSkipChars : List Char :=
  [' ', ',', '.', ';', '(', ')', '[', ']', '{', '}', ':', Char.ofNat 39, Char.ofNat 34]

def kVerticalBarChar : Nat := 0x2550
def kHorizontalBarChar : Nat := 0x2551
def kULFrameChar : Nat := 0x2554
def kBLFrameChar : Nat := 0x255a
def kBRFrameChar : Nat := 0x255d
def kURFrameChar : Nat := 0x2557

/-- Constants declared in `LuaConsoleModel.hpp`, whose values the sources under
study do not fix. -/
structure Consts where
  kCursorHome : Int
  kCursorEnd : Int
  kScrollLinesEnd : Int
  ECO_HISTORY : Nat
  ECO_INIT : Nat
  ECO_START_VISIBLE : Nat

/-- Sample values of the header constants, used to run the model on concrete inputs. -/
def sampleConsts : Consts :=
  { kCursorHome := -100000, kCursorEnd := 100000, kScrollLinesEnd := 100000,
    ECO_HISTORY := 1, ECO_INIT := 2, ECO_START_VISIBLE := 4 }

inductive EMOVE_DIRECTION where
  | EMD_LEFT
  | EMD_RIGHT
deriving DecidableEq, Repr

inductive ECONSOLE_COLOR where
  | ECC_ERROR
  | ECC_HINT
  | ECC_CODE
  | ECC_ECHO
  | ECC_PROMPT
  | ECC_TITLE
  | ECC_FRAME
  | ECC_BACKGROUND
  | ECC_CURSOR
  | ECC_EVAL
  | ECC_HISTORY
  | ECONSOLE_COLOR_COUNT
deriving DecidableEq, Repr

inductive ELINE_PARSE_RESULT where
  | ELPR_OK
  | ELPR_MORE
  | ELPR_PARSE_ERROR
  | ELPR_RUNTIME_ERROR
  | ELPR_NO_LUA
deriving DecidableEq, Repr

/-! ## Machine integers -/

/-- Two's complement reduction of an integer to the range of a 32 bit `int`. -/
def wrapInt32 (x : Int) : Int :=
  (x + 2147483648) % 4294967296 - 2147483648

/-- Conversion of an `int` to `unsigned`. -/
def toUnsigned (x : Int) : Nat :=
  (x % 4294967296).toNat

/-- Increment of an `unsigned` counter. -/
def incUnsigned (x : Nat) : Nat :=
  (x + 1) % 4294967296

/-! ## Strings -/

/-- The C++ `basic_string::substr(pos, n)`: throws when `pos` is past the end. -/
def substr {α : Type} (s : List α) (pos n : Nat) : Option (List α) :=
  if pos ≤ s.length then some ((s.drop pos).take n) else none

/-- The C++ `string::erase(pos, 1)` with an `int` position: throws when `pos` is
past the end (a negative `int` converts to a huge `size_t`). -/
def eraseOne (s : List Char) (pos : Int) : Option (List Char) :=
  if 0 ≤ pos ∧ pos ≤ s.length then some (s.eraseIdx pos.toNat) else none

/-- The C++ `string::insert(begin() + pos, c)`: defined only for an iterator in range. -/
def insertAt (s : List Char) (pos : Int) (c : Char) : Option (List Char) :=
  if 0 ≤ pos ∧ pos ≤ s.length then some (s.take pos.toNat ++ c :: s.drop pos.toNat) else none

/-- The character `'\n'`. -/
def newline : Char := '\n'

/-- The terminator of a C string. -/
def nul : Char := Char.ofNat 0

/-- The function `isSkipChar`: `strchr(skipchars, c) != 0`.  The set is read as a
C string, so it ends at its first NUL, and the terminator itself is found
when `c` is NUL. -/
def isSkipChar (c : Char) (skipchars : List Char) : Bool :=
  c == nul || (skipchars.takeWhile (fun x => x != nul)).contains c

/-- The loop of `findFirstSkipCharAfterNonskip`; `fuel` bounds the number of iterations. -/
def findLoop (line skips : List Char) (iter : Int) : Nat → Int → Bool → Int
  | 0, _, _ => -1
  | fuel + 1, i, gotnonskip =>
    if 0 ≤ i ∧ i < line.length then
      if gotnonskip then
        if isSkipChar (line.getD i.toNat nul) skips then i
        else findLoop line skips iter fuel (i + iter) gotnonskip
      else
        if !isSkipChar (line.getD i.toNat nul) skips then
          findLoop line skips iter fuel (i + iter) true
        else findLoop line skips iter fuel (i + iter) gotnonskip
    else -1

/-- The function `findFirstSkipCharAfterNonskip`.  With `iter` equal to `1` or `-1`
(the only values its caller passes) the index leaves the line after at most
`line.length` iterations. -/
def findFirstSkipCharAfterNonskip (line skips : List Char) (iter start : Int) : Int :=
  findLoop line skips iter line.length (start + iter) false

/-! ## Coloured lines and wrapping -/

/-- The structure `priv::ColoredLine`. -/
structure ColoredLine where
  Text : List Char
  Color : List Nat
deriving DecidableEq, Repr

/-- Modelled from the spec: `ColoredLine::resizeColorToFitText` is declared in the
header; whenever the text is longer than the colour sequence, the colour sequence is
padded with the fallback colour up to the length of the text. -/
def ColoredLine.resizeColorToFitText (line : ColoredLine) (fill : Nat) : ColoredLine :=
  if line.Color.length < line.Text.length then
    { line with Color := line.Color ++ List.replicate (line.Text.length - line.Color.length) fill }
  else line

/-- Local variables of `pushWideMessages`; `widemsgs` is `none` for a null pointer. -/
structure WideScan where
  ret : Nat
  charcount : Nat
  start : Nat
  widemsgs : Option (List ColoredLine)
deriving DecidableEq, Repr

/-- The block that pushes one piece of `str`: nothing is built when `widemsgs` is null. -/
def pushPiece (str : ColoredLine) (widemsgs : Option (List ColoredLine)) (start charcount : Nat) :
    Option (Option (List ColoredLine)) :=
  match widemsgs with
  | none => some none
  | some out =>
    match substr str.Text start charcount, substr str.Color start charcount with
    | some t, some c => some (some (out ++ [{ Text := t, Color := c }]))
    | _, _ => none

/-- The `for` loop of `pushWideMessages`: `rest` holds the characters `str.Text[i..]`. -/
def pushWideLoop (str : ColoredLine) (width : Nat) : List Char → Nat → WideScan → Option WideScan
  | [], _, st => some st
  | c :: rest, i, st =>
    let charcount := st.charcount + 1
    if c = newline ∨ charcount ≥ width then
      let charcount := if c = newline then charcount - 1 else charcount
      match pushPiece str st.widemsgs st.start charcount with
      | none => none
      | some w =>
        pushWideLoop str width rest (i + 1)
          { ret := st.ret + 1, charcount := 0, start := i + 1, widemsgs := w }
    else
      pushWideLoop str width rest (i + 1) { st with charcount := charcount }

/-- The function `pushWideMessages`: splits `str` on newlines and to fit `width`,
pushes the pieces to `widemsgs` when it is not null, and returns how many pieces there
are (together with the vector behind `widemsgs`). -/
def pushWideMessages (str : ColoredLine) (widemsgs : Option (List ColoredLine)) (width : Nat) :
    Option (Nat × Option (List ColoredLine)) :=
  match pushWideLoop str width str.Text 0
      { ret := 0, charcount := 0, start := 0, widemsgs := widemsgs } with
  | none => none
  | some st =>
    if st.charcount ≠ 0 then
      match pushPiece str st.widemsgs st.start st.charcount with
      | none => none
      | some w => some (st.ret + 1, w)
    else some (st.ret, st.widemsgs)

/-! ## The model -/

/-- One cell of the screen grid. -/
structure ScreenCell where
  Char : Nat
  Color : Nat
deriving DecidableEq, Repr

/-- The state of a `LuaConsoleModel`.  `L` only records whether an interpreter is
attached.  The callback table is left out: no callback is registered by the constructor
or by any operation below, and host callbacks are outside this model. -/
structure LuaConsoleModel where
  m_dirtyness : Nat
  m_lastupdate : Nat
  m_cur : Int
  L : Option Unit
  m_w : Nat
  m_empty : ColoredLine
  m_options : Nat
  m_visible : Bool
  m_emptyenterrepeat : Bool
  m_skipchars : List Char
  m_firstmsg : Int
  m_printeval : Bool
  m_addreturn : Bool
  m_commentcommands : Bool
  m_lastlineoffset : Nat
  m_screen : Nat → ScreenCell
  m_colors : ECONSOLE_COLOR → Nat
  m_history : List (List Char)
  m_hindex : Int
  m_lastline : List Char
  m_savedlastline : List Char
  m_buffcmd : List Char
  m_msg : List ColoredLine
  m_widemsg : List ColoredLine
  m_title : List Char

namespace LuaConsoleModel

/-- The `while` loop of `ensureCurInView`; `fuel` bounds the number of iterations. -/
def ensureLoop (cur : Nat) : Nat → Nat → Nat
  | 0, off => off
  | fuel + 1, off =>
    if cur > (off + kInnerWidth) % 4294967296 then ensureLoop cur fuel (incUnsigned off)
    else off

/-- The method `ensureCurInView`.  The loop condition fails after at most
`static_cast<unsigned>(m_cur)` increments. -/
def ensureCurInView (m : LuaConsoleModel) : LuaConsoleModel :=
  let m :=
    if toUnsigned m.m_cur ≤ m.m_lastlineoffset then
      { m with m_lastlineoffset := toUnsigned (m.m_cur - 1) }
    else m
  { m with m_lastlineoffset :=
      ensureLoop (toUnsigned m.m_cur) (toUnsigned m.m_cur) m.m_lastlineoffset }

/-- The method `moveCursor`. -/
def moveCursor (move : Int) (m : LuaConsoleModel) : LuaConsoleModel :=
  let m := { m with m_cur := wrapInt32 (m.m_cur + move) }
  let m := { m with m_cur := max m.m_cur 1 }
  let m := { m with m_cur := min ((m.m_lastline.length : Int) + 1) m.m_cur }
  let m := ensureCurInView m
  { m with m_dirtyness := incUnsigned m.m_dirtyness }

/-- The method `scrollLines`. -/
def scrollLines (amount : Int) (m : LuaConsoleModel) : LuaConsoleModel :=
  let m := { m with m_firstmsg := wrapInt32 (m.m_firstmsg + amount) }
  let m := { m with m_firstmsg := max m.m_firstmsg (21 - (m.m_widemsg.length : Int)) }
  let m := { m with m_firstmsg := min m.m_firstmsg 0 }
  { m with m_dirtyness := incUnsigned m.m_dirtyness }

/-- The method `moveCursorOneWord`. -/
def moveCursorOneWord (k : Consts) (move : EMOVE_DIRECTION) (m : LuaConsoleModel) :
    LuaConsoleModel :=
  let iter : Int := if move = EMOVE_DIRECTION.EMD_LEFT then -1 else 1
  let targ := findFirstSkipCharAfterNonskip m.m_lastline m.m_skipchars iter (m.m_cur - 1)
  if targ = -1 then
    moveCursor (if move = EMOVE_DIRECTION.EMD_LEFT then k.kCursorHome else k.kCursorEnd) m
  else
    let targ := if move = EMOVE_DIRECTION.EMD_LEFT then targ + 1 else targ
    let m := { m with m_cur := targ + 1 }
    let m := ensureCurInView m
    { m with m_dirtyness := incUnsigned m.m_dirtyness }

/-- The method `readHistory`. -/
def readHistory (k : Consts) (change : Int) (m : LuaConsoleModel) : LuaConsoleModel :=
  let waspromp : Bool := decide (m.m_hindex = (m.m_history.length : Int))
  let m := { m with m_hindex := wrapInt32 (m.m_hindex + change) }
  let m := { m with m_hindex := max m.m_hindex 0 }
  let m := { m with m_hindex := min m.m_hindex (m.m_history.length : Int) }
  let m :=
    if m.m_hindex = (m.m_history.length : Int) then
      let m :=
        if !waspromp then
          { m with m_lastline := m.m_savedlastline, m_savedlastline := m.m_lastline }
        else m
      let m := { m with m_lastlineoffset := 0 }
      moveCursor k.kCursorEnd m
    else
      let m :=
        if waspromp then
          { m with m_lastline := m.m_savedlastline, m_savedlastline := m.m_lastline }
        else m
      let m := { m with m_lastline := m.m_history.getD m.m_hindex.toNat [] }
      let m := { m with m_lastlineoffset := 0 }
      moveCursor k.kCursorEnd m
  { m with m_dirtyness := incUnsigned m.m_dirtyness }

/-- The method `addChar`. -/
def addChar (c : Char) (m : LuaConsoleModel) : Option LuaConsoleModel :=
  if c.toNat < 32 ∨ c.toNat ≥ 127 then some m
  else
    match insertAt m.m_lastline (m.m_cur - 1) c with
    | none => none
    | some line =>
      let m := { m with m_lastline := line }
      let m := { m with m_cur := m.m_cur + 1 }
      let m := ensureCurInView m
      some { m with m_dirtyness := incUnsigned m.m_dirtyness }

/-- The method `backspace`. -/
def backspace (m : LuaConsoleModel) : Option LuaConsoleModel :=
  if m.m_cur > 1 then
    let m := { m with m_cur := m.m_cur - 1 }
    match eraseOne m.m_lastline (m.m_cur - 1) with
    | none => none
    | some line =>
      let m := { m with m_lastline := line }
      let m := ensureCurInView m
      some { m with m_dirtyness := incUnsigned m.m_dirtyness }
  else some m

/-- The method `del`. -/
def del (m : LuaConsoleModel) : Option LuaConsoleModel :=
  match eraseOne m.m_lastline (m.m_cur - 1) with
  | none => none
  | some line =>
    let m := { m with m_lastline := line }
    some { m with m_dirtyness := incUnsigned m.m_dirtyness }

/-- The method `clearScreen`. -/
def clearScreen (m : LuaConsoleModel) : LuaConsoleModel :=
  { m with m_firstmsg := 0, m_msg := [], m_widemsg := [] }

/-- The method `echoLine`.  An empty `str` restarts the method with `" "`.  Erasing
more wide messages than there are is undefined. -/
def echoLine (k : Consts) (str : List Char) (colors : List Nat) (m : LuaConsoleModel) :
    Option LuaConsoleModel :=
  let str := if str.isEmpty then [' '] else str
  let line : ColoredLine := { Text := str, Color := colors }
  let line := line.resizeColorToFitText (m.m_colors ECONSOLE_COLOR.ECC_ECHO)
  let m := { m with m_msg := m.m_msg ++ [line] }
  match pushWideMessages line (some m.m_widemsg) m.m_w with
  | some (_, some wide) =>
    let m := { m with m_widemsg := wide }
    let evicted : Option LuaConsoleModel :=
      if m.m_msg.length > kMessagesKeptCount then
        match m.m_msg with
        | [] => none
        | first :: rest =>
          match pushWideMessages first none m.m_w with
          | some (msgs, _) =>
            if msgs ≤ m.m_widemsg.length then
              some { m with m_msg := rest, m_widemsg := m.m_widemsg.drop msgs }
            else none
          | none => none
      else some m
    match evicted with
    | none => none
    | some m =>
      let m := scrollLines k.kScrollLinesEnd m
      some { m with m_dirtyness := incUnsigned m.m_dirtyness }
  | _ => none

/-- The method `echoColored`. -/
def echoColored (k : Consts) (str : List Char) (textcolor : Nat) (m : LuaConsoleModel) :
    Option LuaConsoleModel :=
  echoLine k str (List.replicate str.length textcolor) m

/-- The method `echo`. -/
def echo (k : Consts) (str : List Char) (m : LuaConsoleModel) : Option LuaConsoleModel :=
  echoColored k str (m.m_colors ECONSOLE_COLOR.ECC_ECHO) m

/-! ### History and its file -/

/-- The method `setHistorySize`: `m_history.resize(newsize)`. -/
def setHistorySize (newsize : Nat) (m : LuaConsoleModel) : LuaConsoleModel :=
  { m with m_history :=
      m.m_history.take newsize ++ List.replicate (newsize - m.m_history.length) [] }

/-- The method `setHistoryItem`. -/
def setHistoryItem (index : Nat) (item : List Char) (m : LuaConsoleModel) : LuaConsoleModel :=
  if index < m.m_history.length then { m with m_history := m.m_history.set index item } else m

/-- The method `getHistorySize`. -/
def getHistorySize (m : LuaConsoleModel) : Nat :=
  m.m_history.length

/-- The method `getHistoryItem`. -/
def getHistoryItem (index : Nat) (m : LuaConsoleModel) : List Char :=
  if index < m.m_history.length then m.m_history.getD index [] else m.m_empty.Text

/-- One call of `std::getline(file, line)` on the unread rest of a stream: it fails
when nothing is left, otherwise it yields the characters before the next newline and
consumes that newline. -/
def getline (file : List Char) : Option (List Char × List Char) :=
  match file with
  | [] => none
  | _ :: _ =>
    some (file.takeWhile (fun c => c != newline), (file.dropWhile (fun c => c != newline)).drop 1)

/-- The `while(std::getline(file, line))` loop of `loadHistoryFromFile`, on the
variables `buf` and `iter`; `fuel` bounds the number of iterations. -/
def loadLoop (size : Nat) : Nat → List Char → List (List Char) → Nat → List (List Char) × Nat
  | 0, _, buf, iter => (buf, iter)
  | fuel + 1, file, buf, iter =>
    match getline file with
    | none => (buf, iter)
    | some (line, rest) => loadLoop size fuel rest (buf.set (iter % size) line) (iter + 1)

/-- The final `for` loop of `loadHistoryFromFile`, from index `i`, with `n` indices to go. -/
def storeLoop (buf : List (List Char)) (iter : Nat) :
    Nat → Nat → List (List Char) → List (List Char)
  | 0, _, history => history
  | n + 1, i, history =>
    storeLoop buf iter n (i + 1) (history.set i (buf.getD ((iter + i) % history.length) []))

/-- The method `loadHistoryFromFile`; `file` is the content of the named file, `none`
when it cannot be opened.  Every successful `getline` consumes a character, so
`file.length` iterations exhaust the stream. -/
def loadHistoryFromFile (file : Option (List Char)) (m : LuaConsoleModel) :
    LuaConsoleModel × Bool :=
  match file with
  | none => (m, false)
  | some bytes =>
    if m.getHistorySize = 0 then (m, false)
    else
      let buf : List (List Char) := List.replicate m.getHistorySize []
      let (buf, iter) := loadLoop m.getHistorySize bytes.length bytes buf 0
      if iter = 0 then (m, false)
      else ({ m with m_history := storeLoop buf iter m.getHistorySize 0 m.m_history }, true)

/-- The `for` loop of `saveHistoryToFile`, from index `i`, with `n` indices to go. -/
def saveLoop (m : LuaConsoleModel) : Nat → Nat → List Char → List Char
  | 0, _, file => file
  | n + 1, i, file => saveLoop m n (i + 1) (file ++ m.getHistoryItem i ++ [newline])

/-- The method `saveHistoryToFile`; `file` is the content of the named file before
(`none` when it does not exist), the result is its content afterwards.  The file is taken
to be writable: `std::ios::trunc` starts from an empty file, `std::ios::app` writes behind
what the file holds. -/
def saveHistoryToFile (file : Option (List Char)) (append : Bool) (m : LuaConsoleModel) :
    Option (List Char) :=
  let opened : List Char := if append then file.getD [] else []
  some (saveLoop m m.getHistorySize 0 opened)

/-- The destructor; the result is the content of the history file afterwards. -/
def destroy (k : Consts) (file : Option (List Char)) (m : LuaConsoleModel) : Option (List Char) :=
  if Nat.land m.m_options k.ECO_HISTORY ≠ 0 then saveHistoryToFile file false m
  else file

/-- The screen written by the constructor: blank cells inside a frame. -/
def initialScreen : Nat → ScreenCell :=
  let scr : Nat → ScreenCell := fun _ => { Char := 32, Color := 0xffffffff }
  let setChar (scr : Nat → ScreenCell) (idx ch : Nat) : Nat → ScreenCell :=
    fun j => if j = idx then { scr j with Char := ch } else scr j
  let scr := (List.range 80).foldl
    (fun scr i => setChar (setChar scr (i + 80 * 0) kVerticalBarChar) (i + 80 * 23) kVerticalBarChar)
    scr
  let scr := (List.range 24).foldl
    (fun scr i =>
      setChar (setChar scr (0 + 80 * i) kHorizontalBarChar) (79 + 80 * i) kHorizontalBarChar)
    scr
  let scr := setChar scr (0 + 80 * 0) kULFrameChar
  let scr := setChar scr (0 + 80 * 23) kBLFrameChar
  let scr := setChar scr (79 + 80 * 23) kBRFrameChar
  setChar scr (79 + 80 * 0) kURFrameChar

/-- The colour table written by the constructor. -/
def initialColors : ECONSOLE_COLOR → Nat
  | .ECC_ERROR => 0xff0000ff
  | .ECC_HINT => 0x00ff00ff
  | .ECC_CODE => 0xffff00ff
  | .ECC_ECHO => 0xffffffff
  | .ECC_PROMPT => 0xffffffff
  | .ECC_TITLE => 0xffffffff
  | .ECC_FRAME => 0xa9a9a9ff
  | .ECC_BACKGROUND => 0x007f7f7f
  | .ECC_CURSOR => 0x00ffffff
  | .ECC_EVAL => 0xa9a9a9ff
  | .ECC_HISTORY => 0xb8860bff
  | .ECONSOLE_COLOR_COUNT => 0

/-- The constructor; `file` is the content of the history file (`none` when it cannot
be opened). -/
def new (k : Consts) (options : Nat) (file : Option (List Char)) : LuaConsoleModel :=
  let m : LuaConsoleModel :=
    { m_dirtyness := 1, m_lastupdate := 0, m_cur := 1, L := none, m_w := kInnerWidth,
      m_empty := { Text := [], Color := [] }, m_options := options,
      m_visible := decide (Nat.land options k.ECO_START_VISIBLE ≠ 0),
      m_emptyenterrepeat := true, m_skipchars := kDefaultSkipChars, m_firstmsg := 0,
      m_printeval := true, m_addreturn := true, m_commentcommands := true,
      m_lastlineoffset := 0, m_screen := initialScreen, m_colors := initialColors,
      m_history := [], m_hindex := 0, m_lastline := [], m_savedlastline := [],
      m_buffcmd := [], m_msg := [], m_widemsg := [], m_title := [] }
  let m := setHistorySize kDefaultHistorySize m
  let m := if Nat.land m.m_options k.ECO_HISTORY ≠ 0 then (loadHistoryFromFile file m).1 else m
  { m with m_hindex := (m.m_history.length : Int) }

/-! ### Submission -/

/-- A value on the Lua stack, as far as `printLuaStackInColor` distinguishes:
`text` is a number or a string with the text `lua_tostring` gives, `other` any other
type with its type name and the printed form of its pointer. -/
inductive LuaValue where
  | text (s : List Char)
  | boolean (b : Bool)
  | nil
  | other (typename pointer : List Char)
deriving DecidableEq, Repr

/-- What `lua_pcall` of a compiled chunk does: the strings the chunk passes to the
registered `echo` function, and then either the error object or the values it leaves
on the stack.  The error object is given as `lua_tolstring` reads it: its text when it
is a string or a number, `none` (a null pointer) for any other object, such as the `nil`
of `error()` or the table of `error({})`. -/
structure PcallResult where
  echoed : List (List Char)
  result : Except (Option (List Char)) (List LuaValue)

/-- The answers of the collaborators during one submission: `luaL_loadstring` gives
`none` for `BLA_LUA_OK` and otherwise the error message, which the compiler always leaves
as a string, `lua_pcall` runs the chunk compiled from the given source,
`incompleteChunkError` is the error classifier of `LuaCompletion`, which is handed the
pointer `lua_tolstring` returns, `none` being the null pointer. -/
structure LuaCalls where
  luaL_loadstring : List Char → Option (List Char)
  lua_pcall : List Char → PcallResult
  incompleteChunkError : Option (List Char) → Bool

/-- What a compilation attempt leaves on top of the Lua stack. -/
inductive Loaded where
  | chunk (code : List Char)
  | error (msg : List Char)
  | nothing
deriving DecidableEq, Repr

/-- The method `tryEval`, with what it leaves on the stack. -/
def tryEval (lua : LuaCalls) (addreturn : Bool) (m : LuaConsoleModel) : Bool × Loaded :=
  if addreturn then
    let code := ['r', 'e', 't', 'u', 'r', 'n', ' '] ++ m.m_buffcmd
    match lua.luaL_loadstring code with
    | none => (true, Loaded.chunk code)
    | some _ => (false, Loaded.nothing)
  else
    match lua.luaL_loadstring m.m_buffcmd with
    | none => (true, Loaded.chunk m.m_buffcmd)
    | some err => (false, Loaded.error err)

/-- The text `printLuaStackInColor` writes for one value. -/
def printValue (v : LuaValue) : List Char :=
  match v with
  | .text s => s
  | .boolean b => if b then ['t', 'r', 'u', 'e'] else ['f', 'a', 'l', 's', 'e']
  | .nil => ['n', 'i', 'l']
  | .other typename pointer => typename ++ [':', ' '] ++ pointer

/-- The method `printLuaStackInColor`, on the values at the indices `first..last`. -/
def printLuaStackInColor (k : Consts) (values : List LuaValue) (color : Nat)
    (m : LuaConsoleModel) : Option LuaConsoleModel :=
  let ss := values.foldl (fun ss v => ss ++ printValue v ++ [' ']) []
  echoColored k ss color m

/-- The calls of `ConsoleModel_echo` a running chunk makes, in order. -/
def runEchoes (k : Consts) : List (List Char) → LuaConsoleModel → Option LuaConsoleModel
  | [], m => some m
  | s :: rest, m =>
    match echo k s m with
    | none => none
    | some m => runEchoes k rest m

/-- The `for` loop of `checkSpecialComments`, from index `i`, with `n` indices to go. -/
def echoHistoryLoop (k : Consts) : Nat → Nat → LuaConsoleModel → Option LuaConsoleModel
  | 0, _, m => some m
  | n + 1, i, m =>
    match echoColored k (m.m_history.getD i []) (m.m_colors ECONSOLE_COLOR.ECC_HISTORY) m with
    | none => none
    | some m => echoHistoryLoop k n (i + 1) m

/-- The method `checkSpecialComments`. -/
def checkSpecialComments (k : Consts) (m : LuaConsoleModel) : Option LuaConsoleModel :=
  let m := if m.m_lastline = ['-', '-', 'c', 'l', 'e', 'a', 'r'] then clearScreen m else m
  if m.m_lastline = ['-', '-', 'h', 'i', 's', 't', 'o', 'r', 'y'] then
    echoHistoryLoop k m.m_history.length 0 m
  else some m

/-- The branch of `parseLastLine` taken when compiling or running failed; `err` is
what `lua_tolstring` returns for the error object on top of the stack.  The call
`echoColored(err, ...)` constructs a `std::string` from `err`, which is not defined for
a null pointer. -/
def evalFailed (k : Consts) (lua : LuaCalls) (evalok : Bool) (err : Option (List Char))
    (m : LuaConsoleModel) : Option (LuaConsoleModel × ELINE_PARSE_RESULT) :=
  if !lua.incompleteChunkError err then
    let m := { m with m_buffcmd := [] }
    match err with
    | none => none
    | some text =>
      match echoColored k text (m.m_colors ECONSOLE_COLOR.ECC_ERROR) m with
      | none => none
      | some m =>
        some (m, if evalok then ELINE_PARSE_RESULT.ELPR_RUNTIME_ERROR
          else ELINE_PARSE_RESULT.ELPR_PARSE_ERROR)
  else some (m, ELINE_PARSE_RESULT.ELPR_MORE)

/-- The part `if(L) ... else ...` of `parseLastLine`. -/
def evalBuffer (k : Consts) (lua : LuaCalls) (m : LuaConsoleModel) :
    Option (LuaConsoleModel × ELINE_PARSE_RESULT) :=
  match m.L with
  | some _ =>
    let loaded : Bool × Loaded :=
      if m.m_addreturn then
        (if (tryEval lua true m).1 then tryEval lua true m else tryEval lua false m)
      else tryEval lua false m
    match loaded with
    | (true, Loaded.chunk code) =>
      match runEchoes k (lua.lua_pcall code).echoed m with
      | none => none
      | some m =>
        match (lua.lua_pcall code).result with
        | Except.ok values =>
          let m := { m with m_buffcmd := [] }
          if m.m_printeval ∧ values ≠ [] then
            match printLuaStackInColor k values (m.m_colors ECONSOLE_COLOR.ECC_EVAL) m with
            | none => none
            | some m => some (m, ELINE_PARSE_RESULT.ELPR_OK)
          else some (m, ELINE_PARSE_RESULT.ELPR_OK)
        | Except.error err => evalFailed k lua true err m
    | (false, Loaded.error err) => evalFailed k lua false (some err) m
    | _ => none
  | none =>
    match echoColored k
        ("Lua state pointer is NULL, commands have no effect".toList)
        (m.m_colors ECONSOLE_COLOR.ECC_ERROR) m with
    | none => none
    | some m => some (m, ELINE_PARSE_RESULT.ELPR_NO_LUA)

/-- The method `parseLastLine`. -/
def parseLastLine (k : Consts) (lua : LuaCalls) (m : LuaConsoleModel) :
    Option (LuaConsoleModel × ELINE_PARSE_RESULT) :=
  let m :=
    if m.m_lastline.length = 0 ∧ m.m_emptyenterrepeat = true ∧ m.m_history ≠ [] then
      { m with m_lastline := m.m_history.getLastD [] }
    else m
  match echoColored k m.m_lastline (m.m_colors ECONSOLE_COLOR.ECC_CODE) m with
  | none => none
  | some m =>
    let m := { m with m_history := m.m_history ++ [m.m_lastline] }
    let m := { m with m_history := m.m_history.drop 1 }
    let m := { m with m_hindex := (m.m_history.length : Int) }
    let freshcode : Bool := m.m_buffcmd.isEmpty
    let m := { m with m_buffcmd := m.m_buffcmd ++ m.m_lastline }
    let m := { m with m_buffcmd := m.m_buffcmd ++ [newline] }
    match evalBuffer k lua m with
    | none => none
    | some (m, ret) =>
      let checked : Option LuaConsoleModel :=
        if freshcode ∧ m.m_commentcommands = true then checkSpecialComments k m else some m
      match checked with
      | none => none
      | some m =>
        let m := { m with m_lastline := [] }
        let m := { m with m_cur := 1 }
        let m := { m with m_lastlineoffset := 0 }
        some ({ m with m_dirtyness := incUnsigned m.m_dirtyness }, ret)

end LuaConsoleModel

/-! ## Sequences of operations and derived notions used by the statements -/

/-- The fragments the materialising call `pushWideMessages(str, &v, width)` appends to an
empty vector `v` (no fragments when the call throws). -/
def wideMessagesOf (str : ColoredLine) (width : Nat) : List ColoredLine :=
  match pushWideMessages str (some []) width with
  | some (_, some out) => out
  | _ => []

/-- The lines successive `std::getline` calls extract from a stream until one fails. -/
def getlines : Nat → List Char → List (List Char)
  | 0, _ => []
  | fuel + 1, file =>
    match LuaConsoleModel.getline file with
    | none => []
    | some (line, rest) => line :: getlines fuel rest

/-- The lines of a stream. -/
def streamLines (file : List Char) : List (List Char) :=
  getlines file.length file

/-- The bytes `saveHistoryToFile` writes for the given entries: each entry followed by
a newline. -/
def unlines (ls : List (List Char)) : List Char :=
  (ls.map (fun l => l ++ [newline])).flatten

/-- The last `n` elements of a list. -/
def lastN {α : Type} (n : Nat) (l : List α) : List α :=
  l.drop (l.length - n)

namespace LuaConsoleModel

/-- Consistency of the scrollback: every retained message has colours for all of its
text, the wide messages are the wrapped retained messages in order, and no more than
`kMessagesKeptCount` messages are retained. -/
def LockStep (m : LuaConsoleModel) : Prop :=
  (∀ msg ∈ m.m_msg, msg.Text.length ≤ msg.Color.length) ∧
  m.m_widemsg = (m.m_msg.map (fun msg => wideMessagesOf msg m.m_w)).flatten ∧
  m.m_msg.length ≤ kMessagesKeptCount

/-- The message `echoLine(str, colors)` stores. -/
def echoedLine (m : LuaConsoleModel) (str : List Char) (colors : List Nat) : ColoredLine :=
  ({ Text := if str.isEmpty then [' '] else str, Color := colors } : ColoredLine).resizeColorToFitText
    (m.m_colors ECONSOLE_COLOR.ECC_ECHO)

/-- The cursor lies between 1 and one past the end of the line. -/
def CursorOk (m : LuaConsoleModel) : Prop :=
  1 ≤ m.m_cur ∧ m.m_cur ≤ (m.m_lastline.length : Int) + 1

/-- A console with history `[b, c, d]` at the fresh-line position, its draft being `x`. -/
def sampleBrowseState : LuaConsoleModel :=
  { LuaConsoleModel.new sampleConsts 0 none with
    m_history := [['b'], ['c'], ['d']], m_hindex := 3, m_lastline := ['x'], m_cur := 2 }

/-- The second state differs from the first at most in the scrollback, the dirty
counter and the submit buffer. -/
def ScrollbackFrame (m m' : LuaConsoleModel) : Prop :=
  m' = { m with m_msg := m'.m_msg, m_widemsg := m'.m_widemsg, m_firstmsg := m'.m_firstmsg,
                m_dirtyness := m'.m_dirtyness, m_buffcmd := m'.m_buffcmd }

/-- The state reached keeps a consistent scrollback and differs from the first one only
in the scrollback, the dirty counter and the submit buffer. -/
def EchoStep (m m' : LuaConsoleModel) : Prop :=
  LockStep m' ∧ ScrollbackFrame m m'

/-- The line `parseLastLine` submits: the newest history entry when the line is empty,
repeating is enabled and the history is not empty, otherwise the line as typed. -/
def submittedLine (m : LuaConsoleModel) : List Char :=
  if m.m_lastline.length = 0 ∧ m.m_emptyenterrepeat = true ∧ m.m_history ≠ [] then
    m.m_history.getLastD []
  else m.m_lastline

/-- Sample collaborators: every chunk compiles, runs without echoing and leaves no value. -/
def sampleLua : LuaCalls :=
  { luaL_loadstring := fun _ => none,
    lua_pcall := fun _ => { echoed := [], result := Except.ok [] },
    incompleteChunkError := fun _ => false }

/-- One step of the reading loop on the pair `(buf, iter)`. -/
def loadStep (size : Nat) (s : List (List Char) × Nat) (line : List Char) :
    List (List Char) × Nat :=
  (s.1.set (s.2 % size) line, s.2 + 1)

/-- A console of history capacity 3 whose history is `[ab, (empty), c]`. -/
def sampleSavedState : LuaConsoleModel :=
  setHistoryItem 2 ['c'] (setHistoryItem 0 ['a', 'b']
    (setHistorySize 3 (LuaConsoleModel.new sampleConsts 0 none)))

/-- A call of one of the line editing methods. -/
inductive EditOp where
  | addChar (c : Char)
  | backspace
  | del
  | moveCursor (move : Int)
  | moveCursorOneWord (move : EMOVE_DIRECTION)

/-- Performs one line editing call. -/
def EditOp.run (k : Consts) (op : EditOp) (m : LuaConsoleModel) : Option LuaConsoleModel :=
  match op with
  | .addChar c => m.addChar c
  | .backspace => m.backspace
  | .del => m.del
  | .moveCursor move => some (m.moveCursor move)
  | .moveCursorOneWord move => some (m.moveCursorOneWord k move)

/-- Performs line editing calls in order. -/
def runEditOps (k : Consts) : List EditOp → LuaConsoleModel → Option LuaConsoleModel
  | [], m => some m
  | op :: ops, m =>
    match op.run k m with
    | none => none
    | some m => runEditOps k ops m

/-- A call of `echoLine` or of `clearScreen`. -/
inductive ScrollbackOp where
  | echoLine (str : List Char) (colors : List Nat)
  | clearScreen

/-- Performs one scrollback call. -/
def ScrollbackOp.run (k : Consts) (op : ScrollbackOp) (m : LuaConsoleModel) :
    Option LuaConsoleModel :=
  match op with
  | .echoLine str colors => m.echoLine k str colors
  | .clearScreen => some m.clearScreen

/-- Performs scrollback calls in order. -/
def runScrollbackOps (k : Consts) : List ScrollbackOp → LuaConsoleModel → Option LuaConsoleModel
  | [], m => some m
  | op :: ops, m =>
    match op.run k m with
    | none => none
    | some m => runScrollbackOps k ops m

/-- One submission: `line` has been typed (cursor at its end) and `parseLastLine` is
called while the collaborators answer as `lua` says. -/
def submitLine (k : Consts) (lua : LuaCalls) (line : List Char) (m : LuaConsoleModel) :
    Option LuaConsoleModel :=
  match parseLastLine k lua { m with m_lastline := line, m_cur := (line.length : Int) + 1 } with
  | none => none
  | some (m, _) => some m

/-- Submissions in order. -/
def submitAll (k : Consts) : List (LuaCalls × List Char) → LuaConsoleModel → Option LuaConsoleModel
  | [], m => some m
  | s :: rest, m =>
    match submitLine k s.1 s.2 m with
    | none => none
    | some m => submitAll k rest m

end LuaConsoleModel

/-! ## Further methods of the model -/

namespace LuaConsoleModel

/-- The method `getWideMsg`.  The sum of the size and a negative `int` index, and the sum
with the scroll offset, are reduced to an `int`. -/
def getWideMsg (index : Int) (m : LuaConsoleModel) : List Char :=
  let index := if index < 0 then wrapInt32 ((m.m_widemsg.length : Int) + index) else index
  let index := wrapInt32 (index + m.m_firstmsg)
  if index < 0 ∨ (m.m_widemsg.length : Int) ≤ index then m.m_empty.Text
  else (m.m_widemsg.getD index.toNat m.m_empty).Text

/-- The method `getWideColor`. -/
def getWideColor (index : Int) (m : LuaConsoleModel) : List Nat :=
  let index := if index < 0 then wrapInt32 ((m.m_widemsg.length : Int) + index) else index
  let index := wrapInt32 (index + m.m_firstmsg)
  if index < 0 ∨ (m.m_widemsg.length : Int) ≤ index then m.m_empty.Color
  else (m.m_widemsg.getD index.toNat m.m_empty).Color

/-- The method `getCurPos`: the difference `m_cur - m_lastlineoffset` is taken in
`unsigned` and returned as an `int`. -/
def getCurPos (m : LuaConsoleModel) : Int :=
  wrapInt32 (((toUnsigned m.m_cur : Int) - (m.m_lastlineoffset : Int)) % 4294967296)

/-- The C++ `string::substr(pos)`: the rest of the string, throws when `pos` is past the end. -/
def substrFrom (s : List Char) (pos : Nat) : Option (List Char) :=
  if pos ≤ s.length then some (s.drop pos) else none

/-- The answers of the hint collector of `LuaCompletion` during one `tryComplete`:
`prepareHints` gives the token `last` of the line, `collectHints` the flag the first call
returns and the candidates it appends, `collectHintsGlobal` the candidates the call on
the global table appends, `commonPrefix` is the function of that name. -/
structure HintCalls where
  prepareHints : List Char → List Char
  collectHints : List Char → Bool × List (List Char)
  collectHintsGlobal : List Char → List (List Char)
  commonPrefix : List (List Char) → List Char

/-- The loop of `tryComplete` that joins the candidates from index 1 on to `msg`. -/
def joinHints : List (List Char) → List Char → List Char
  | [], msg => msg
  | p :: rest, msg => joinHints rest (msg ++ ([' '] ++ p))

/-- The method `tryComplete`. -/
def tryComplete (k : Consts) (hints : HintCalls) (m : LuaConsoleModel) :
    Option LuaConsoleModel :=
  match m.L with
  | none =>
    echoColored k ("Lua state pointer is NULL, no completion available".toList)
      (m.m_colors ECONSOLE_COLOR.ECC_ERROR) m
  | some _ =>
    let last := hints.prepareHints m.m_lastline
    let possible : List (List Char) :=
      if !(hints.collectHints last).1 then
        (hints.collectHints last).2 ++ hints.collectHintsGlobal last
      else (hints.collectHints last).2
    if possible.length > 1 then
      let commonprefix := hints.commonPrefix possible
      if commonprefix.isEmpty ∨ commonprefix.length ≤ last.length then
        let msg := joinHints (possible.drop 1) (possible.getD 0 [])
        echoColored k msg (m.m_colors ECONSOLE_COLOR.ECC_HINT) m
      else
        match substrFrom commonprefix last.length with
        | none => none
        | some ext =>
          let m := { m with m_lastline := m.m_lastline ++ ext }
          let m := { m with m_dirtyness := incUnsigned m.m_dirtyness }
          some (moveCursor k.kCursorEnd m)
    else if possible.length = 1 then
      match substrFrom (possible.getD 0 []) last.length with
      | none => none
      | some ext =>
        let m := { m with m_lastline := m.m_lastline ++ ext }
        let m := { m with m_dirtyness := incUnsigned m.m_dirtyness }
        some (moveCursor k.kCursorEnd m)
    else some m

end LuaConsoleModel

/-! ## The earlier variant `lua::LuaConsoleModel` of `src/LuaConsoleModel.cpp` -/

namespace lua

/-- The state of the earlier `lua::LuaConsoleModel`; `L` and `m_callbacks` only record
whether a pointer is set. -/
structure LuaConsoleModel where
  m_dirtyness : Nat
  m_cur : Int
  L : Option Unit
  m_callbacks : Option Unit
  m_options : Nat
  m_visible : Bool
  m_emptyenterrepeat : Bool
  m_colors : ECONSOLE_COLOR → Nat
  m_history : List (List Char)
  m_hindex : Int
  m_w : Nat
  m_empty : ColoredLine
  m_lastline : List Char
  m_buffcmd : List Char
  m_msg : List ColoredLine
  m_widemsg : List ColoredLine

namespace LuaConsoleModel

/-- The range `for` loop of `setWidth`, on the messages still to wrap. -/
def setWidthLoop (w : Nat) : List ColoredLine → List ColoredLine → Option (List ColoredLine)
  | [], wide => some wide
  | line :: rest, wide =>
    match pushWideMessages line (some wide) w with
    | some (_, some wide) => setWidthLoop w rest wide
    | _ => none

/-- The method `setWidth` of the earlier variant; `pushWideMessages` is the same function
in both files, its `width` parameter is an `unsigned`. -/
def setWidth (w : Nat) (m : LuaConsoleModel) : Option LuaConsoleModel :=
  let m := { m with m_w := w }
  let m := { m with m_widemsg := [] }
  match setWidthLoop (m.m_w % 4294967296) m.m_msg m.m_widemsg with
  | none => none
  | some wide =>
    let m := { m with m_widemsg := wide }
    some { m with m_dirtyness := incUnsigned m.m_dirtyness }

/-- A state of the earlier variant holding the message `ab\ncde`, wrapped at width 78. -/
def sampleState : LuaConsoleModel :=
  { m_dirtyness := 5, m_cur := 1, L := none, m_callbacks := none, m_options := 0,
    m_visible := false, m_emptyenterrepeat := true, m_colors := fun _ => 0xffffffff,
    m_history := [], m_hindex := 0, m_w := 78, m_empty := { Text := [], Color := [] },
    m_lastline := [], m_buffcmd := [],
    m_msg := [{ Text := ['a', 'b', newline, 'c', 'd', 'e'], Color := [1, 2, 3, 4, 5, 6] }],
    m_widemsg := [{ Text := ['a', 'b'], Color := [1, 2] },
      { Text := ['c', 'd', 'e'], Color := [4, 5, 6] }] }

end LuaConsoleModel

end lua

namespace LuaConsoleModel

/-- A state with the wide messages `a`, `b`, `c` and the scroll offset `-1`. -/
def sampleWideState : LuaConsoleModel :=
  { LuaConsoleModel.new sampleConsts 0 none with
    m_msg := [{ Text := ['a', newline, 'b', newline, 'c'], Color := [1, 1, 1, 1, 1] }],
    m_widemsg := [{ Text := ['a'], Color := [1] }, { Text := ['b'], Color := [1] },
      { Text := ['c'], Color := [1] }],
    m_firstmsg := -1 }

end LuaConsoleModel

namespace LuaConsoleModel

/-- The scroll offset lies between `min(0, 21 - n)` and `0`, `n` being the number of
wide messages. -/
def ScrollClamp (m : LuaConsoleModel) : Prop :=
  min 0 (21 - (m.m_widemsg.length : Int)) ≤ m.m_firstmsg ∧ m.m_firstmsg ≤ 0

/-- A call of `scrollLines`, `echoLine` or `clearScreen`. -/
inductive ViewOp where
  | scrollLines (amount : Int)
  | echoLine (str : List Char) (colors : List Nat)
  | clearScreen

/-- Performs one such call. -/
def ViewOp.run (k : Consts) (op : ViewOp) (m : LuaConsoleModel) : Option LuaConsoleModel :=
  match op with
  | .scrollLines amount => some (m.scrollLines amount)
  | .echoLine str colors => m.echoLine k str colors
  | .clearScreen => some m.clearScreen

/-- Performs such calls in order. -/
def runViewOps (k : Consts) : List ViewOp → LuaConsoleModel → Option LuaConsoleModel
  | [], m => some m
  | op :: ops, m =>
    match op.run k m with
    | none => none
    | some m => runViewOps k ops m

end LuaConsoleModel

namespace LuaConsoleModel

/-- A console whose line is `foo bar baz`, with the cursor at its end. -/
def sampleWordState : LuaConsoleModel :=
  { LuaConsoleModel.new sampleConsts 0 none with
    m_lastline := ['f', 'o', 'o', ' ', 'b', 'a', 'r', ' ', 'b', 'a', 'z'], m_cur := 12 }

end LuaConsoleModel

namespace LuaConsoleModel

/-- The state reached keeps a consistent scrollback, differs from the first one only in
the scrollback, the dirty counter and the submit buffer, and its dirty counter is the
first one incremented `n` times. -/
def CountedStep (n : Nat) (m m' : LuaConsoleModel) : Prop :=
  EchoStep m m' ∧ m'.m_dirtyness % 4294967296 = (m.m_dirtyness + n) % 4294967296

end LuaConsoleModel

namespace LuaConsoleModel

/-- A classifier in the manner of the stand-alone interpreter: a message that ends in
`<eof>` reports an incomplete chunk, a null pointer does not. -/
def endsWithEof (err : Option (List Char)) : Bool :=
  match err with
  | none => false
  | some text => (['<', 'e', 'o', 'f', '>'] : List Char).isSuffixOf text

/-- Sample collaborators for an unfinished line: a chunk ending in `then` and a newline
does not compile, with a message ending in `<eof>`; every other chunk compiles and runs
without echoing or leaving a value. -/
def sampleEofLua : LuaCalls :=
  { luaL_loadstring := fun code =>
      if (['t', 'h', 'e', 'n', newline] : List Char).isSuffixOf code then
        some ['n', 'e', 'a', 'r', ' ', '<', 'e', 'o', 'f', '>']
      else none,
    lua_pcall := fun _ => { echoed := [], result := Except.ok [] },
    incompleteChunkError := endsWithEof }

/-- Sample collaborators for a failing run: every chunk compiles, and running it raises
an error whose message is `near <eof>`, as `error("near <eof>", 0)` does. -/
def sampleErrorLua : LuaCalls :=
  { luaL_loadstring := fun _ => none,
    lua_pcall := fun _ =>
      { echoed := [],
        result := Except.error (some ['n', 'e', 'a', 'r', ' ', '<', 'e', 'o', 'f', '>']) },
    incompleteChunkError := endsWithEof }

/-- Sample collaborators for a run that fails with a message: every chunk compiles, and
running it raises an error whose message is `boom`, as `error("boom", 0)` does. -/
def sampleBoomLua : LuaCalls :=
  { luaL_loadstring := fun _ => none,
    lua_pcall := fun _ => { echoed := [], result := Except.error (some ['b', 'o', 'o', 'm']) },
    incompleteChunkError := endsWithEof }

/-- A console of history capacity 3 with an interpreter attached, its line being
`if true then` with the cursor at its end. -/
def sampleAttachedState : LuaConsoleModel :=
  { setHistorySize 3 (LuaConsoleModel.new sampleConsts 0 none) with
    L := some (), m_hindex := 3,
    m_lastline := ['i', 'f', ' ', 't', 'r', 'u', 'e', ' ', 't', 'h', 'e', 'n'], m_cur := 13 }

end LuaConsoleModel

namespace LuaConsoleModel

/-- A console of history capacity 3 with an interpreter attached, its line being
`error([[near <eof>]], 0)` with the cursor at its end. -/
def sampleRuntimeState : LuaConsoleModel :=
  { setHistorySize 3 (LuaConsoleModel.new sampleConsts 0 none) with
    L := some (), m_hindex := 3,
    m_lastline := ['e', 'r', 'r', 'o', 'r', '(', '[', '[', 'n', 'e', 'a', 'r', ' ', '<', 'e',
      'o', 'f', '>', ']', ']', ',', ' ', '0', ')'],
    m_cur := 25 }

end LuaConsoleModel

namespace LuaConsoleModel

/-- The cursor lies inside the part of the line that is shown: the horizontal scroll
offset is below the cursor and the cursor at most `kInnerWidth` beyond it. -/
def WindowOk (m : LuaConsoleModel) : Prop :=
  (m.m_lastlineoffset : Int) < m.m_cur ∧ m.m_cur ≤ (m.m_lastlineoffset : Int) + (kInnerWidth : Int)

/-- The position one past the end of the line fits an `int`. -/
def lineFits (m : LuaConsoleModel) : Bool :=
  decide (m.m_lastline.length + 1 < 2147483648)

/-- The state of the editor is consistent: the scrollback is, the cursor is on the line
or one past its end, the cursor is inside the window, and the line is short enough for
the cursor to be an `int`. -/
def EditorOk (m : LuaConsoleModel) : Prop :=
  LockStep m ∧ CursorOk m ∧ WindowOk m ∧ lineFits m = true

/-- A call of one of the methods that move the cursor or change the line, with the
answers of the collaborators where the method consults them. -/
inductive ConsoleOp where
  | addChar (c : Char)
  | backspace
  | del
  | moveCursor (move : Int)
  | moveCursorOneWord (move : EMOVE_DIRECTION)
  | readHistory (change : Int)
  | tryComplete (hints : HintCalls)
  | parseLastLine (lua : LuaCalls)

/-- Performs one call. -/
def ConsoleOp.run (k : Consts) (op : ConsoleOp) (m : LuaConsoleModel) : Option LuaConsoleModel :=
  match op with
  | .addChar c => m.addChar c
  | .backspace => m.backspace
  | .del => m.del
  | .moveCursor move => some (m.moveCursor move)
  | .moveCursorOneWord move => some (m.moveCursorOneWord k move)
  | .readHistory change => some (m.readHistory k change)
  | .tryComplete hints => m.tryComplete k hints
  | .parseLastLine lua =>
    match m.parseLastLine k lua with
    | none => none
    | some (m, _) => some m

/-- Performs calls in order. -/
def runConsoleOps (k : Consts) : List ConsoleOp → LuaConsoleModel → Option LuaConsoleModel
  | [], m => some m
  | op :: ops, m =>
    match op.run k m with
    | none => none
    | some m => runConsoleOps k ops m

/-- Whether after each of the calls, as far as they are carried out, the position one
past the end of the line fits an `int`. -/
def linesFitAlong (k : Consts) : List ConsoleOp → LuaConsoleModel → Bool
  | [], _ => true
  | op :: ops, m =>
    match op.run k m with
    | none => true
    | some m => lineFits m && linesFitAlong k ops m

/-- Sample answers of the hint collector: the token is the whole line and its only
completion is the line followed by `bc`. -/
def sampleHints : HintCalls :=
  { prepareHints := fun line => line,
    collectHints := fun last => (true, [last ++ ['b', 'c']]),
    collectHintsGlobal := fun _ => [],
    commonPrefix := fun _ => [] }

/-- The line `x` submitted, eighty characters typed, then one call of each other kind. -/
def sampleConsoleOps : List ConsoleOp :=
  [ConsoleOp.addChar 'x', ConsoleOp.parseLastLine sampleLua] ++
    List.replicate 80 (ConsoleOp.addChar 'a') ++
    [ConsoleOp.moveCursor (-1), ConsoleOp.backspace, ConsoleOp.del,
      ConsoleOp.moveCursorOneWord EMOVE_DIRECTION.EMD_LEFT, ConsoleOp.addChar 'b',
      ConsoleOp.tryComplete sampleHints, ConsoleOp.readHistory (-1), ConsoleOp.readHistory 1,
      ConsoleOp.moveCursor 100]

end LuaConsoleModel

namespace LuaConsoleModel

/-- The state in which `parseLastLine` evaluates the submit buffer, from the state `m1`
left by the code echo: the line is recorded in the history, the browse index is put
behind it, and the line and a newline are appended to the submit buffer. -/
def submitState (m1 : LuaConsoleModel) : LuaConsoleModel :=
  { m1 with
    m_history := (m1.m_history ++ [m1.m_lastline]).drop 1,
    m_hindex := (((m1.m_history ++ [m1.m_lastline]).drop 1).length : Int),
    m_buffcmd := m1.m_buffcmd ++ m1.m_lastline ++ [newline] }

/-- The end of `parseLastLine`, on the state `m3` left by the comment commands. -/
def submitEnd (m3 : LuaConsoleModel) : LuaConsoleModel :=
  { m3 with m_lastline := [], m_cur := 1, m_lastlineoffset := 0,
            m_dirtyness := incUnsigned m3.m_dirtyness }

/-- Whether the evaluation of the submit buffer of `m` ends in a null error: an
interpreter is attached, the buffer compiles, in its `return` form or as it is, running
the chunk leaves an error object that is not a string, for which `lua_tolstring` gives a
null pointer, and the classifier does not take the null pointer for an incomplete chunk.
`parseLastLine` then hands the null pointer to `echoColored`. -/
def nullError (lua : LuaCalls) (m : LuaConsoleModel) : Bool :=
  match m.L with
  | none => false
  | some _ =>
    match (if m.m_addreturn then
        (if (tryEval lua true m).1 then tryEval lua true m else tryEval lua false m)
      else tryEval lua false m) with
    | (true, Loaded.chunk code) =>
      match (lua.lua_pcall code).result with
      | Except.error none => !lua.incompleteChunkError none
      | _ => false
    | _ => false

/-- The state in which `parseLastLine` evaluates the submit buffer but for the code echo:
the submitted line is recorded and appended to the submit buffer with a newline.  What the
compilation and the run of the chunk read of it is what they read in the course of
`parseLastLine`. -/
def submitted (m : LuaConsoleModel) : LuaConsoleModel :=
  submitState { m with m_lastline := submittedLine m }

/-- Every error object a run leaves has a string form. -/
def TextErrors (lua : LuaCalls) : Prop :=
  ∀ code, (lua.lua_pcall code).result ≠ Except.error none

/-- A relation between states that holds along every course of echoes: it is reflexive
and transitive, every `echoLine` that is carried out in a state with a consistent
scrollback satisfies it, and so does clearing the submit buffer. -/
def EchoClosed (k : Consts) (R : LuaConsoleModel → LuaConsoleModel → Prop) : Prop :=
  (∀ m, R m m) ∧ (∀ a b c, R a b → R b c → R a c) ∧
  (∀ (m m' : LuaConsoleModel) (str : List Char) (colors : List Nat),
    LockStep m → echoLine k str colors m = some m' → R m m') ∧
  (∀ m : LuaConsoleModel, R m { m with m_buffcmd := [] })

/-- What `parseLastLine` does with the line `l` it submits when it returns: `l` is
echoed in the code colour, which leaves `m1` with the message `l` appended (the oldest
message leaving when 3000 are retained); the submit buffer is evaluated in the state
`submitState m1`, whose history has `l` recorded and whose buffer has `l` and a newline
appended, which leaves `m2`; the comment commands, when they apply, leave `m3`; and the
call returns `submitEnd m3`, whose history has `l` as its newest entry and whose submit
buffer is the one evaluated when the result is `ELPR_MORE` or `ELPR_NO_LUA`, and empty
otherwise. -/
def SubmitCourse (k : Consts) (lua : LuaCalls) (m : LuaConsoleModel) (l : List Char) : Prop :=
  ∃ (m1 m2 m3 : LuaConsoleModel) (ret : ELINE_PARSE_RESULT),
    echoColored k l (m.m_colors ECONSOLE_COLOR.ECC_CODE) { m with m_lastline := l } = some m1 ∧
    (m.m_msg.length < kMessagesKeptCount →
      m1.m_msg = m.m_msg ++
        [echoedLine m l (List.replicate l.length (m.m_colors ECONSOLE_COLOR.ECC_CODE))]) ∧
    (m.m_msg.length = kMessagesKeptCount →
      m1.m_msg = m.m_msg.drop 1 ++
        [echoedLine m l (List.replicate l.length (m.m_colors ECONSOLE_COLOR.ECC_CODE))]) ∧
    (submitState m1).m_history = (m.m_history ++ [l]).drop 1 ∧
    (submitState m1).m_buffcmd = m.m_buffcmd ++ l ++ [newline] ∧
    evalBuffer k lua (submitState m1) = some (m2, ret) ∧
    (if m.m_buffcmd.isEmpty = true ∧ m.m_commentcommands = true then checkSpecialComments k m2
      else some m2) = some m3 ∧
    parseLastLine k lua m = some (submitEnd m3, ret) ∧
    (submitEnd m3).m_history = (m.m_history ++ [l]).drop 1 ∧
    (m.m_history ≠ [] → (submitEnd m3).m_history.getLast? = some l) ∧
    ((ret = ELINE_PARSE_RESULT.ELPR_MORE ∨ ret = ELINE_PARSE_RESULT.ELPR_NO_LUA) ∧
        (submitEnd m3).m_buffcmd = m.m_buffcmd ++ l ++ [newline] ∨
      (ret ≠ ELINE_PARSE_RESULT.ELPR_MORE ∧ ret ≠ ELINE_PARSE_RESULT.ELPR_NO_LUA) ∧
        (submitEnd m3).m_buffcmd = [])

/-- A console with history `[b, c, d]` whose line is empty. -/
def sampleRepeatState : LuaConsoleModel :=
  { LuaConsoleModel.new sampleConsts 0 none with
    m_history := [['b'], ['c'], ['d']], m_hindex := 3 }

/-- A console with an interpreter attached and history `[b, c, d]` whose line is empty. -/
def sampleRepeatAttached : LuaConsoleModel :=
  { sampleRepeatState with L := some () }

end LuaConsoleModel

namespace LuaConsoleModel

/-- The candidates `tryComplete` collects for the token `last`: those the first call of
`collectHints` appends and, when that call returns false, those the call on the global
table appends behind them. -/
def HintCalls.candidates (hints : HintCalls) (last : List Char) : List (List Char) :=
  if !(hints.collectHints last).1 then
    (hints.collectHints last).2 ++ hints.collectHintsGlobal last
  else (hints.collectHints last).2

/-- Sample answers of the hint collector for the token `pr`: the candidates `print` and
`pray`, with common prefix `pr`. -/
def sampleHintsList : HintCalls :=
  { prepareHints := fun line => line,
    collectHints := fun _ => (true, [['p', 'r', 'i', 'n', 't'], ['p', 'r', 'a', 'y']]),
    collectHintsGlobal := fun _ => [],
    commonPrefix := fun _ => ['p', 'r'] }

/-- Sample answers of the hint collector for the token `pr`: the candidates `print` and
`printf`, with common prefix `print`. -/
def sampleHintsExtend : HintCalls :=
  { prepareHints := fun line => line,
    collectHints := fun _ => (true, [['p', 'r', 'i', 'n', 't'], ['p', 'r', 'i', 'n', 't', 'f']]),
    collectHintsGlobal := fun _ => [],
    commonPrefix := fun _ => ['p', 'r', 'i', 'n', 't'] }

/-- Sample answers of the hint collector that finds nothing. -/
def sampleHintsNone : HintCalls :=
  { prepareHints := fun line => line,
    collectHints := fun _ => (false, []),
    collectHintsGlobal := fun _ => [],
    commonPrefix := fun _ => [] }

/-- A console with an interpreter attached whose line is `pr`, with the cursor at its end. -/
def sampleTokenState : LuaConsoleModel :=
  { LuaConsoleModel.new sampleConsts 0 none with
    L := some (), m_lastline := ['p', 'r'], m_cur := 3 }

end LuaConsoleModel

namespace LuaConsoleModel

/-- Sample collaborators for the line `1+1`: every chunk compiles, and running it echoes
nothing and leaves the number 2, printed `2`, on the stack. -/
def sampleSumLua : LuaCalls :=
  { luaL_loadstring := fun _ => none,
    lua_pcall := fun _ => { echoed := [], result := Except.ok [LuaValue.text ['2']] },
    incompleteChunkError := endsWithEof }

/-- A console of history capacity 3 with an interpreter attached, its line being `1+1`
with the cursor at its end. -/
def sampleSumState : LuaConsoleModel :=
  { setHistorySize 3 (LuaConsoleModel.new sampleConsts 0 none) with
    L := some (), m_hindex := 3, m_lastline := ['1', '+', '1'], m_cur := 4 }

/-- A console of history capacity 3 holding one message, its line being `--clear` with
the cursor at its end. -/
def sampleClearState : LuaConsoleModel :=
  { setHistorySize 3 (LuaConsoleModel.new sampleConsts 0 none) with
    m_hindex := 3, m_lastline := ['-', '-', 'c', 'l', 'e', 'a', 'r'], m_cur := 8,
    m_msg := [{ Text := ['h', 'i'], Color := [1, 1] }],
    m_widemsg := [{ Text := ['h', 'i'], Color := [1, 1] }] }

end LuaConsoleModel

namespace LuaConsoleModel

/-- The text `printLuaStackInColor` builds for the values. -/
def printedStack (values : List LuaValue) : List Char :=
  values.foldl (fun ss v => ss ++ printValue v ++ [' ']) []

end LuaConsoleModel

/-! ## The screen grid -/

namespace LuaConsoleModel

/-- The value of a `char`, which is a signed 8 bit integer: the bytes 128..255 are its
negative values. -/
def charValue (c : Char) : Int :=
  if c.toNat < 128 then (c.toNat : Int) else (c.toNat : Int) - 256

/-- The conversion of a `char` to the member `ScreenCell::Char` in an assignment such as
`a[x].Char = l[x]`.  The member is `unsigned`, as the frame characters that are stored in
it are, so a negative `char` is sign-extended: the byte `0xE9` is stored as `0xFFFFFFE9`. -/
def cellOfChar (c : Char) : Nat :=
  toUnsigned (charValue c)

/-- Assignment to `m_screen[idx].Char`. -/
def setCellChar (scr : Nat → ScreenCell) (idx ch : Nat) : Nat → ScreenCell :=
  fun j => if j = idx then { scr j with Char := ch } else scr j

/-- Assignment to `m_screen[idx].Color`. -/
def setCellColor (scr : Nat → ScreenCell) (idx color : Nat) : Nat → ScreenCell :=
  fun j => if j = idx then { scr j with Color := color } else scr j

/-- The first loops of `updateBuffer`: the top bar is written, the frame is coloured, the
title is written over the top bar.  The bound of the title loop is an `int`. -/
def drawFrame (m : LuaConsoleModel) (scr : Nat → ScreenCell) : Nat → ScreenCell :=
  let scr := (List.range' 1 78).foldl (fun scr i => setCellChar scr i kVerticalBarChar) scr
  let scr := (List.range 80).foldl
    (fun scr i =>
      setCellColor (setCellColor scr (i + 0 * 80) (m.m_colors ECONSOLE_COLOR.ECC_FRAME))
        (i + 23 * 80) (m.m_colors ECONSOLE_COLOR.ECC_FRAME))
    scr
  let scr := (List.range 23).foldl
    (fun scr i =>
      setCellColor (setCellColor scr (0 + i * 80) (m.m_colors ECONSOLE_COLOR.ECC_FRAME))
        (79 + i * 80) (m.m_colors ECONSOLE_COLOR.ECC_FRAME))
    scr
  let bound : Int := min 79 (wrapInt32 ((m.m_title.length : Int) + 1))
  (List.range' 1 (bound - 1).toNat).foldl
    (fun scr i =>
      setCellColor (setCellChar scr i (cellOfChar (m.m_title.getD (i - 1) ' '))) i
        (m.m_colors ECONSOLE_COLOR.ECC_TITLE))
    scr

/-- The loop `for(int x = 0; x < kInnerWidth; ++x)` that blanks the cells `a[0..77]` of a
row, `a` pointing at the cell `base`. -/
def clearRow (base color : Nat) (scr : Nat → ScreenCell) : Nat → ScreenCell :=
  (List.range kInnerWidth).foldl
    (fun scr x => setCellColor (setCellChar scr (base + x) 32) (base + x) color) scr

/-- The loop `for(x = 0; x < l.size(); ++x)` that copies a wide message and its colours
to the cells from `base` on, from index `x`, with `n` indices to go.  A cell behind the
end of the grid and a colour behind the terminator of `c` are undefined. -/
def copyLoop (l : List Char) (c : List Nat) (base : Nat) :
    Nat → Nat → (Nat → ScreenCell) → Option (Nat → ScreenCell)
  | 0, _, scr => some scr
  | n + 1, x, scr =>
    if base + x < 24 * 80 ∧ x ≤ c.length then
      copyLoop l c base n (x + 1)
        (setCellColor (setCellChar scr (base + x) (cellOfChar (l.getD x ' '))) (base + x)
          (c.getD x 0))
    else none

/-- The loop `for(int i = 1; i < 22; ++i)` of `updateBuffer`, from row `i`, with `n` rows
to go; `getCells(1, i)` points at the cell `1 + 80 * i`. -/
def rowsLoop (m : LuaConsoleModel) : Nat → Nat → (Nat → ScreenCell) → Option (Nat → ScreenCell)
  | 0, _, scr => some scr
  | n + 1, i, scr =>
    let l := m.getWideMsg ((i : Int) - 22)
    let c := m.getWideColor ((i : Int) - 22)
    let scr := clearRow (1 + 80 * i) 0xffffffff scr
    match copyLoop l c (1 + 80 * i) l.length 0 scr with
    | none => none
    | some scr => rowsLoop m n (i + 1) scr

/-- The last loop of `updateBuffer`, which copies the visible part of the line to the
prompt row, from index `x`; `fuel` bounds the number of iterations. -/
def promptLoop (m : LuaConsoleModel) (base : Nat) : Nat → Nat → (Nat → ScreenCell) → Nat → ScreenCell
  | 0, _, scr => scr
  | fuel + 1, x, scr =>
    if x < kInnerWidth ∧ m.m_lastlineoffset + x < m.m_lastline.length then
      promptLoop m base fuel (x + 1)
        (setCellChar scr (base + x) (cellOfChar (m.m_lastline.getD (m.m_lastlineoffset + x) ' ')))
    else scr

/-- The method `updateBuffer`, which is `const` and writes the `mutable` members
`m_lastupdate` and `m_screen`.  A character of a message, of the line or of the title is
converted to the `unsigned` member of the cell (`cellOfChar`), a space is stored as 32. -/
def updateBuffer (m : LuaConsoleModel) : Option LuaConsoleModel :=
  if m.m_lastupdate = m.m_dirtyness then some m
  else
    let m := { m with m_lastupdate := m.m_dirtyness }
    let scr := drawFrame m m.m_screen
    match rowsLoop m 21 1 scr with
    | none => none
    | some scr =>
      let scr := clearRow (1 + 80 * 22) (m.m_colors ECONSOLE_COLOR.ECC_PROMPT) scr
      let scr := promptLoop m (1 + 80 * 22) kInnerWidth 0 scr
      some { m with m_screen := scr }

/-- The method `getScreenBuffer`: the state after `updateBuffer`, and the grid. -/
def getScreenBuffer (m : LuaConsoleModel) : Option (LuaConsoleModel × (Nat → ScreenCell)) :=
  match updateBuffer m with
  | none => none
  | some m => some (m, m.m_screen)

/-- A console of history capacity 3 whose scrollback holds the one-byte message `0xE9`
and whose line is that byte, with the cursor at its end. -/
def sampleLatinState : LuaConsoleModel :=
  { setHistorySize 3 (LuaConsoleModel.new sampleConsts 0 none) with
    m_hindex := 3, m_lastline := [Char.ofNat 233], m_cur := 2,
    m_msg := [{ Text := [Char.ofNat 233], Color := [1] }],
    m_widemsg := [{ Text := [Char.ofNat 233], Color := [1] }] }

/-- Every wide message, and the empty line returned for an index outside them, has at
most `kInnerWidth` characters and a colour for each. -/
def FragmentsFit (m : LuaConsoleModel) : Prop :=
  (∀ f ∈ m.m_widemsg, f.Text.length ≤ kInnerWidth ∧ f.Text.length ≤ f.Color.length) ∧
  m.m_empty.Text.length ≤ kInnerWidth ∧ m.m_empty.Text.length ≤ m.m_empty.Color.length

/-- The cell `updateBuffer` writes at column `x + 1` of a row showing the wide message
`l` with the colours `c`. -/
def rowCell (l : List Char) (c : List Nat) (x : Nat) : ScreenCell :=
  if x < l.length then { Char := cellOfChar (l.getD x ' '), Color := c.getD x 0 }
  else { Char := 32, Color := 0xffffffff }

/-- The cell `updateBuffer` writes at column `x + 1` of the prompt row. -/
def promptCell (m : LuaConsoleModel) (x : Nat) : ScreenCell :=
  if m.m_lastlineoffset + x < m.m_lastline.length then
    { Char := cellOfChar (m.m_lastline.getD (m.m_lastlineoffset + x) ' '),
      Color := m.m_colors ECONSOLE_COLOR.ECC_PROMPT }
  else { Char := 32, Color := m.m_colors ECONSOLE_COLOR.ECC_PROMPT }

end LuaConsoleModel

/-! ## Wrapping: the loop of `pushWideMessages` -/

theorem drop_take_run {α : Type} (pre rest : List α) (start cc : Nat)
    (h : start + cc = pre.length) :
    ((pre ++ rest).drop start).take cc = pre.drop start := by
  have hs : start ≤ pre.length := by omega
  rw [List.drop_append_of_le_length hs]
  have hl : (pre.drop start).length = cc := by simp; omega
  rw [List.take_append_of_le_length (by omega)]
  exact List.take_of_length_le (by omega)

theorem drop_take_run_succ {α : Type} (pre rest : List α) (c : α) (start cc : Nat)
    (h : start + cc = pre.length) :
    ((pre ++ c :: rest).drop start).take (cc + 1) = pre.drop start ++ [c] := by
  have := drop_take_run (pre ++ [c]) rest start (cc + 1) (by simp; omega)
  simp only [List.append_assoc, List.singleton_append] at this
  rw [this, List.drop_append_of_le_length (by omega)]

theorem substr_eq_some {α : Type} (s : List α) (pos n : Nat) (h : pos ≤ s.length) :
    substr s pos n = some ((s.drop pos).take n) := by
  simp [substr, h]

theorem substr_some_iff {α : Type} (s : List α) (pos n : Nat) (t : List α) :
    substr s pos n = some t ↔ pos ≤ s.length ∧ t = (s.drop pos).take n := by
  unfold substr
  split <;> simp_all [eq_comm]



theorem pushPiece_some (str : ColoredLine) (out : List ColoredLine) (start n : Nat)
    (w : Option (List ColoredLine)) (h : pushPiece str (some out) start n = some w) :
    start ≤ str.Text.length ∧ start ≤ str.Color.length ∧
    w = some (out ++ [{ Text := (str.Text.drop start).take n,
                        Color := (str.Color.drop start).take n }]) := by
  unfold pushPiece at h
  simp only at h
  split at h
  · rename_i t c ht hc
    rw [substr_some_iff] at ht hc
    obtain ⟨h1, rfl⟩ := ht
    obtain ⟨h2, rfl⟩ := hc
    simp only [Option.some.injEq] at h
    exact ⟨h1, h2, h.symm⟩
  · simp at h

theorem pushPiece_of_le (str : ColoredLine) (out : List ColoredLine) (start n : Nat)
    (h1 : start ≤ str.Text.length) (h2 : start ≤ str.Color.length) :
    pushPiece str (some out) start n =
      some (some (out ++ [{ Text := (str.Text.drop start).take n,
                            Color := (str.Color.drop start).take n }])) := by
  simp [pushPiece, substr_eq_some, h1, h2]

/-- Loop invariant of `pushWideLoop` in materialising mode. -/
theorem pushWideLoop_spec (str : ColoredLine) (w : Nat) :
    ∀ (rest pre : List Char) (st st' : WideScan) (out : List ColoredLine),
      str.Text = pre ++ rest → st.start + st.charcount = pre.length →
      st.widemsgs = some out → (∀ c ∈ pre.drop st.start, c ≠ newline) →
      pushWideLoop str w rest pre.length st = some st' →
      ∃ new : List ColoredLine, st'.widemsgs = some (out ++ new) ∧
        st'.ret = st.ret + new.length ∧
        st'.start + st'.charcount = str.Text.length ∧
        (∀ c ∈ str.Text.drop st'.start, c ≠ newline) ∧
        (new.map (fun f => f.Text)).flatten ++ str.Text.drop st'.start
          = pre.drop st.start ++ rest.filter (fun c => c != newline) ∧
        (∀ f ∈ new, (∀ c ∈ f.Text, c ≠ newline) ∧
          (str.Text.length ≤ str.Color.length → f.Color.length = f.Text.length)) ∧
        (st.charcount < w → st'.charcount < w ∧ ∀ f ∈ new, f.Text.length ≤ w) := by
  intro rest
  induction rest with
  | nil =>
    intro pre st st' out hT hsc hw hnl h
    simp only [pushWideLoop, Option.some.injEq] at h
    subst h
    refine ⟨[], by simpa using hw, by simp, ?_, ?_, ?_, by simp, ?_⟩
    · simp [hT, hsc]
    · simpa [hT] using hnl
    · simp [hT]
    · intro h; exact ⟨h, by simp⟩
  | cons c rest ih =>
    intro pre st st' out hT hsc hw hnl h
    have hT' : str.Text = (pre ++ [c]) ++ rest := by simp [hT]
    have hlen : (pre ++ [c]).length = pre.length + 1 := by simp
    rw [pushWideLoop] at h
    simp only [Nat.add_sub_cancel] at h
    split at h
    · rename_i hclose
      rw [hw] at h
      split at h
      · simp at h
      · rename_i wv hp
        obtain ⟨hst, hsc2, rfl⟩ := pushPiece_some _ _ _ _ _ hp
        rw [← hlen] at h
        obtain ⟨new, h1, h2, h3, h4, h5, h6, h7⟩ :=
          ih (pre ++ [c]) _ st' _ hT' (by simp) rfl (by simp) h
        have hpiece : (str.Text.drop st.start).take
            (if c = newline then st.charcount else st.charcount + 1)
            = pre.drop st.start ++ (if c = newline then [] else [c]) := by
          rw [hT]
          by_cases hc : c = newline
          · simp only [hc, if_true, List.append_nil]
            exact drop_take_run _ _ _ _ hsc
          · simp only [hc, if_false]
            exact drop_take_run_succ _ _ _ _ _ hsc
        refine ⟨_ :: new, by simpa using h1, ?_, h3, h4, ?_, ?_, ?_⟩
        · simp only at h2; simp [h2]; omega
        · simp only [List.map_cons, List.flatten_cons, List.append_assoc]
          rw [h5, hpiece]
          by_cases hc : c = newline
          · simp [hc]
          · simp [hc]
        · intro f hf
          rcases List.mem_cons.1 hf with rfl | hf
          · refine ⟨?_, ?_⟩
            · simp only [hpiece]
              intro x hx
              rcases List.mem_append.1 hx with hx | hx
              · exact hnl x hx
              · by_cases hc : c = newline
                · simp [hc] at hx
                · simp [hc] at hx; rw [hx]; exact hc
            · intro hcol
              have hTl : str.Text.length = pre.length + 1 + rest.length := by
                rw [hT]; simp; omega
              simp only [List.length_take, List.length_drop]
              split <;> omega
          · exact h6 f hf
        · intro hlt
          refine ⟨(h7 (by simp only; omega)).1, ?_⟩
          intro f hf
          rcases List.mem_cons.1 hf with rfl | hf
          · simp only [hpiece]
            by_cases hc : c = newline
            · simp [hc]; omega
            · simp [hc]; omega
          · exact (h7 (by simp only; omega)).2 f hf
    · rename_i hclose
      have hc : c ≠ newline := fun e => hclose (Or.inl e)
      have hwid : ¬ st.charcount + 1 ≥ w := fun e => hclose (Or.inr e)
      rw [← hlen] at h
      obtain ⟨new, h1, h2, h3, h4, h5, h6, h7⟩ :=
        ih (pre ++ [c]) { st with charcount := st.charcount + 1 } st' out hT'
          (show st.start + (st.charcount + 1) = (pre ++ [c]).length by rw [hlen]; omega) hw
          (by
            show ∀ x ∈ List.drop st.start (pre ++ [c]), x ≠ newline
            rw [List.drop_append_of_le_length (by omega)]
            intro x hx
            rcases List.mem_append.1 hx with hx | hx
            · exact hnl x hx
            · simp at hx; rw [hx]; exact hc) h
      refine ⟨new, h1, h2, h3, h4, ?_, h6, ?_⟩
      · rw [h5]
        show List.drop st.start (pre ++ [c]) ++ _ = _
        rw [List.drop_append_of_le_length (by omega)]
        simp [hc]
      · intro _
        exact h7 (show st.charcount + 1 < w by omega)



/-- The loop does not throw when the colours cover the text. -/
theorem pushWideLoop_isSome (str : ColoredLine) (w : Nat)
    (hcol : str.Text.length ≤ str.Color.length) :
    ∀ (rest pre : List Char) (st : WideScan),
      str.Text = pre ++ rest → st.start ≤ pre.length →
      ∃ st', pushWideLoop str w rest pre.length st = some st' := by
  intro rest
  induction rest with
  | nil => intro pre st _ _; exact ⟨st, rfl⟩
  | cons c rest ih =>
    intro pre st hT hs
    have hT' : str.Text = (pre ++ [c]) ++ rest := by simp [hT]
    have hlen : (pre ++ [c]).length = pre.length + 1 := by simp
    have hTl : pre.length ≤ str.Text.length := by rw [hT]; simp
    rw [pushWideLoop]
    simp only
    split
    · have hp : ∃ wv, pushPiece str st.widemsgs st.start
          (if c = newline then st.charcount + 1 - 1 else st.charcount + 1) = some wv := by
        cases hw : st.widemsgs with
        | none => exact ⟨none, rfl⟩
        | some out => exact ⟨_, pushPiece_of_le _ _ _ _ (by omega) (by omega)⟩
      obtain ⟨wv, hp⟩ := hp
      rw [hp, ← hlen]
      exact ih (pre ++ [c]) _ hT' (by simp)
    · rw [← hlen]
      exact ih (pre ++ [c]) _ hT' (by simp only [hlen]; omega)

/-- The counters of the loop do not depend on whether pieces are materialised. -/
theorem pushWideLoop_count (str : ColoredLine) (w : Nat) :
    ∀ (rest : List Char) (i : Nat) (st st' : WideScan),
      pushWideLoop str w rest i st = some st' →
      pushWideLoop str w rest i { st with widemsgs := none }
        = some { st' with widemsgs := none } := by
  intro rest
  induction rest with
  | nil =>
    intro i st st' h
    simp only [pushWideLoop, Option.some.injEq] at h ⊢
    rw [h]
  | cons c rest ih =>
    intro i st st' h
    rw [pushWideLoop] at h ⊢
    simp only at h ⊢
    split
    · rename_i hclose
      rw [if_pos hclose] at h
      split at h
      · simp at h
      · simp only [pushPiece]
        exact ih _ _ _ h
    · rename_i hclose
      rw [if_neg hclose] at h
      exact ih _ _ _ h

theorem pushPiece_append_left (str : ColoredLine) (a out : List ColoredLine) (start n : Nat) :
    pushPiece str (some (a ++ out)) start n
      = (pushPiece str (some out) start n).map (fun o => o.map (fun l => a ++ l)) := by
  simp only [pushPiece]
  cases substr str.Text start n <;> cases substr str.Color start n <;> simp

/-- Pieces are appended behind whatever the vector holds already. -/
theorem pushWideLoop_append_left (str : ColoredLine) (w : Nat) (a : List ColoredLine) :
    ∀ (rest : List Char) (i r cc s : Nat) (out : List ColoredLine),
      pushWideLoop str w rest i
          { ret := r, charcount := cc, start := s, widemsgs := some (a ++ out) }
        = (pushWideLoop str w rest i
            { ret := r, charcount := cc, start := s, widemsgs := some out }).map
          (fun st' => { st' with widemsgs := st'.widemsgs.map (fun l => a ++ l) }) := by
  intro rest
  induction rest with
  | nil => intro i r cc s out; simp [pushWideLoop]
  | cons c rest ih =>
    intro i r cc s out
    rw [pushWideLoop, pushWideLoop]
    simp only
    split
    · rw [pushPiece_append_left]
      cases hp : pushPiece str (some out) s (if c = newline then cc + 1 - 1 else cc + 1) with
      | none => simp
      | some wv =>
        have := pushPiece_some _ _ _ _ _ hp
        obtain ⟨_, _, rfl⟩ := this
        simp only [Option.map_some']
        exact ih _ _ _ _ _
    · exact ih _ _ _ _ _



/-- What a materialising call of `pushWideMessages` returns, when it returns. -/
theorem pushWideMessages_spec (str : ColoredLine) (w : Nat) (out : List ColoredLine)
    (r : Nat × Option (List ColoredLine))
    (h : pushWideMessages str (some out) w = some r) :
    ∃ new : List ColoredLine, r = (new.length, some (out ++ new)) ∧
      (new.map (fun f => f.Text)).flatten = str.Text.filter (fun c => c != newline) ∧
      (∀ f ∈ new, (∀ c ∈ f.Text, c ≠ newline) ∧
        (str.Text.length ≤ str.Color.length → f.Color.length = f.Text.length)) ∧
      (1 ≤ w → ∀ f ∈ new, f.Text.length ≤ w) := by
  unfold pushWideMessages at h
  split at h
  · simp at h
  · rename_i st' hl
    obtain ⟨new, h1, h2, h3, h4, h5, h6, h7⟩ :=
      pushWideLoop_spec str w str.Text []
        { ret := 0, charcount := 0, start := 0, widemsgs := some out } st' out
        rfl rfl rfl (by simp) hl
    simp only [List.drop_nil, List.nil_append] at h5
    simp only [Nat.zero_add] at h2
    split at h
    · rename_i hcc
      rw [h1] at h
      split at h
      · simp at h
      · rename_i wv hp
        obtain ⟨hs1, hs2, rfl⟩ := pushPiece_some _ _ _ _ _ hp
        simp only [Option.some.injEq] at h
        have hpiece : (str.Text.drop st'.start).take st'.charcount = str.Text.drop st'.start :=
          List.take_of_length_le (by simp; omega)
        refine ⟨new ++ [{ Text := (str.Text.drop st'.start).take st'.charcount,
                          Color := (str.Color.drop st'.start).take st'.charcount }],
          ?_, ?_, ?_, ?_⟩
        · rw [← h, h2]; simp
        · simp only [List.map_append, List.flatten_append, List.map_cons, List.map_nil,
            List.flatten_cons, List.flatten_nil, List.append_nil, hpiece]
          exact h5
        · intro f hf
          rcases List.mem_append.1 hf with hf | hf
          · exact h6 f hf
          · simp only [List.mem_singleton] at hf
            subst hf
            refine ⟨?_, ?_⟩
            · simp only [hpiece]; exact h4
            · intro hcol
              simp only [List.length_take, List.length_drop]
              omega
        · intro hw f hf
          rcases List.mem_append.1 hf with hf | hf
          · exact (h7 (by simp only; omega)).2 f hf
          · simp only [List.mem_singleton] at hf
            subst hf
            have := (h7 (show (0 : Nat) < w by omega)).1
            simp only [List.length_take, List.length_drop]
            omega
    · rename_i hcc
      simp only [Option.some.injEq] at h
      have hcc0 : st'.charcount = 0 := by
        by_contra hne; exact hcc hne
      have hdrop : str.Text.drop st'.start = [] := by
        apply List.drop_eq_nil_of_le; omega
      refine ⟨new, ?_, ?_, h6, ?_⟩
      · rw [← h, h1, h2]
      · rw [← h5, hdrop, List.append_nil]
      · intro hw
        exact (h7 (show (0 : Nat) < w by omega)).2

/-- A materialising call returns when the colours cover the text. -/
theorem pushWideMessages_isSome (str : ColoredLine) (w : Nat) (out : List ColoredLine)
    (hcol : str.Text.length ≤ str.Color.length) :
    ∃ r, pushWideMessages str (some out) w = some r := by
  obtain ⟨st', hl⟩ := pushWideLoop_isSome str w hcol str.Text []
    { ret := 0, charcount := 0, start := 0, widemsgs := some out } rfl (Nat.le_refl _)
  have hl' : pushWideLoop str w str.Text 0
      { ret := 0, charcount := 0, start := 0, widemsgs := some out } = some st' := hl
  obtain ⟨new, h1, h2, h3, _⟩ :=
    pushWideLoop_spec str w str.Text []
      { ret := 0, charcount := 0, start := 0, widemsgs := some out } st' out
      rfl rfl rfl (by simp) hl
  unfold pushWideMessages
  rw [hl']
  simp only
  split
  · rw [h1, pushPiece_of_le _ _ _ _ (by omega) (by omega)]
    exact ⟨_, rfl⟩
  · exact ⟨_, rfl⟩

/-- The count-only call returns the number the materialising call returns. -/
theorem pushWideMessages_count (str : ColoredLine) (w : Nat) (out : List ColoredLine)
    (r : Nat × Option (List ColoredLine))
    (h : pushWideMessages str (some out) w = some r) :
    pushWideMessages str none w = some (r.1, none) := by
  unfold pushWideMessages at h ⊢
  split at h
  · simp at h
  · rename_i st' hl
    have hc := pushWideLoop_count str w _ _ _ _ hl
    simp only at hc
    rw [hc]
    simp only
    split at h
    · rename_i hcc
      rw [if_pos hcc]
      split at h
      · simp at h
      · simp only [Option.some.injEq] at h
        simp [pushPiece, ← h]
    · rename_i hcc
      rw [if_neg hcc]
      simp only [Option.some.injEq] at h
      simp [← h]

/-- What the materialising call appends does not depend on what the vector holds. -/
theorem pushWideMessages_append_left (str : ColoredLine) (w : Nat) (a : List ColoredLine) :
    pushWideMessages str (some a) w
      = (pushWideMessages str (some []) w).map
          (fun r => (r.1, r.2.map (fun l => a ++ l))) := by
  unfold pushWideMessages
  have hp := pushWideLoop_append_left str w a str.Text 0 0 0 0 []
  rw [List.append_nil] at hp
  rw [hp]
  cases hl : pushWideLoop str w str.Text 0
      { ret := 0, charcount := 0, start := 0, widemsgs := some [] } with
  | none => simp
  | some st' =>
    simp only [Option.map_some']
    split
    · cases hw : st'.widemsgs with
      | none => simp [pushPiece]
      | some o =>
        simp only [Option.map_some', pushPiece_append_left]
        cases pushPiece str (some o) st'.start st'.charcount <;> simp
    · simp


open LuaConsoleModel

theorem length_filter_ne_newline (l : List Char) :
    (l.filter (fun c => c != newline)).length = l.length - l.count newline := by
  induction l with
  | nil => rfl
  | cons c l ih =>
    have hle : l.count newline ≤ l.length := List.count_le_length _ _
    by_cases hc : c = newline
    · subst hc
      simp only [bne_self_eq_false, Bool.false_eq_true, not_false_eq_true, List.filter_cons_of_neg,
        List.count_cons_self, List.length_cons, ih]
      omega
    · have hc' : (c != newline) = true := by simpa using hc
      have hcount : (c :: l).count newline = l.count newline := by
        rw [List.count_cons_of_ne]; exact fun e => hc e.symm
      have hf : (c :: l).filter (fun c => c != newline) = c :: l.filter (fun c => c != newline) := by
        simp [List.filter_cons, hc']
      rw [hf, hcount, List.length_cons, List.length_cons, ih]
      omega

/-- C7: for every message `m` and every width `w ≥ 1`, the texts of the fragments
`pushWideMessages(m, w)` produces, concatenated, are `m.Text` with all newlines deleted,
and the sum of their lengths is `len(m.Text)` minus the number of newlines in `m.Text`.
The call produces fragments whenever the colours of `m` cover its text. -/
theorem pushWideMessages_conserves_characters (m : ColoredLine) (w : Nat) :
    1 ≤ w →
    (m.Text.length ≤ m.Color.length →
      ∃ frags, pushWideMessages m (some []) w = some (frags.length, some frags)) ∧
    ∀ (n : Nat) (frags : List ColoredLine),
      pushWideMessages m (some []) w = some (n, some frags) →
      (frags.map (fun f => f.Text)).flatten = m.Text.filter (fun c => c != newline) ∧
      (frags.map (fun f => f.Text.length)).sum = m.Text.length - m.Text.count newline := by
  intro _
  constructor
  · intro hcol
    obtain ⟨r, hr⟩ := pushWideMessages_isSome m w [] hcol
    obtain ⟨new, rfl, _⟩ := pushWideMessages_spec m w [] r hr
    exact ⟨new, by simpa using hr⟩
  · intro n frags h
    obtain ⟨new, hr, hflat, _⟩ := pushWideMessages_spec m w [] _ h
    simp only [List.nil_append, Prod.mk.injEq, Option.some.injEq] at hr
    obtain ⟨_, rfl⟩ := hr
    refine ⟨hflat, ?_⟩
    rw [← length_filter_ne_newline, ← hflat, List.length_flatten, List.map_map]
    rfl

/-- Witness of C7: the message `"ab\ncde"` wrapped at width 2. -/
theorem pushWideMessages_conserves_characters_witness :
    (1 ≤ 2) ∧
    pushWideMessages ⟨['a', 'b', newline, 'c', 'd', 'e'], [1, 2, 3, 4, 5, 6]⟩ (some []) 2
      = some (4, some [⟨['a', 'b'], [1, 2]⟩, ⟨[], []⟩, ⟨['c', 'd'], [4, 5]⟩, ⟨['e'], [6]⟩]) ∧
    ([⟨['a', 'b'], [1, 2]⟩, ⟨[], []⟩, ⟨['c', 'd'], [4, 5]⟩, ⟨['e'], [6]⟩].map
        (fun f : ColoredLine => f.Text)).flatten
      = ['a', 'b', newline, 'c', 'd', 'e'].filter (fun c => c != newline) ∧
    ([⟨['a', 'b'], [1, 2]⟩, ⟨[], []⟩, ⟨['c', 'd'], [4, 5]⟩, ⟨['e'], [6]⟩].map
        (fun f : ColoredLine => f.Text.length)).sum
      = ['a', 'b', newline, 'c', 'd', 'e'].length
        - ['a', 'b', newline, 'c', 'd', 'e'].count newline :=
  ⟨by decide, by decide,
    (pushWideMessages_conserves_characters
      ⟨['a', 'b', newline, 'c', 'd', 'e'], [1, 2, 3, 4, 5, 6]⟩ 2 (by decide)).2 4 _ (by decide)⟩

/-- C9: for every message `m` whose colour sequence is at least as long as its text and
every width `w ≥ 1`, `pushWideMessages(m, w)` produces fragments, and every fragment has
a text of at most `w` characters, without a newline, and as many colours as characters. -/
theorem pushWideMessages_fragment_shape (m : ColoredLine) (w : Nat)
    (hcol : m.Text.length ≤ m.Color.length) (hw : 1 ≤ w) :
    ∃ frags, pushWideMessages m (some []) w = some (frags.length, some frags) ∧
      ∀ f ∈ frags, f.Text.length ≤ w ∧ newline ∉ f.Text ∧ f.Color.length = f.Text.length := by
  obtain ⟨r, hr⟩ := pushWideMessages_isSome m w [] hcol
  obtain ⟨new, rfl, _, hshape, hwid⟩ := pushWideMessages_spec m w [] r hr
  refine ⟨new, by simpa using hr, ?_⟩
  intro f hf
  exact ⟨hwid hw f hf, fun hmem => (hshape f hf).1 _ hmem rfl, (hshape f hf).2 hcol⟩

/-- Witness of C9: the message `"ab\ncde"` with six colours, wrapped at width 2. -/
theorem pushWideMessages_fragment_shape_witness :
    ['a', 'b', newline, 'c', 'd', 'e'].length ≤ [1, 2, 3, 4, 5, 6].length ∧ 1 ≤ 2 ∧
    ∃ frags,
      pushWideMessages ⟨['a', 'b', newline, 'c', 'd', 'e'], [1, 2, 3, 4, 5, 6]⟩ (some []) 2
        = some (frags.length, some frags) ∧
      ∀ f ∈ frags, f.Text.length ≤ 2 ∧ newline ∉ f.Text ∧ f.Color.length = f.Text.length :=
  ⟨by decide, by decide,
    pushWideMessages_fragment_shape ⟨['a', 'b', newline, 'c', 'd', 'e'], [1, 2, 3, 4, 5, 6]⟩ 2
      (by decide) (by decide)⟩


/-! ## The scrollback -/

/-- For a message whose colours cover its text, both modes of `pushWideMessages` return,
and `wideMessagesOf` is what the materialising mode appends. -/
theorem pushWideMessages_of_fits (str : ColoredLine) (w : Nat) (out : List ColoredLine)
    (hcol : str.Text.length ≤ str.Color.length) :
    pushWideMessages str (some out) w
        = some ((wideMessagesOf str w).length, some (out ++ wideMessagesOf str w)) ∧
    pushWideMessages str none w = some ((wideMessagesOf str w).length, none) := by
  obtain ⟨r, hr⟩ := pushWideMessages_isSome str w [] hcol
  obtain ⟨new, rfl, _⟩ := pushWideMessages_spec str w [] r hr
  simp only [List.nil_append] at hr
  have hw : wideMessagesOf str w = new := by simp [wideMessagesOf, hr]
  refine ⟨?_, ?_⟩
  · rw [pushWideMessages_append_left, hr, hw]; rfl
  · rw [hw]; exact pushWideMessages_count str w [] _ hr

theorem resizeColorToFitText_fits (line : ColoredLine) (fill : Nat) :
    (line.resizeColorToFitText fill).Text = line.Text ∧
    (line.resizeColorToFitText fill).Text.length ≤ (line.resizeColorToFitText fill).Color.length := by
  unfold ColoredLine.resizeColorToFitText
  split
  · simp; omega
  · exact ⟨rfl, by omega⟩

/-- What `echoLine` does in a state with a consistent scrollback. -/
theorem echoLine_spec (k : Consts) (m : LuaConsoleModel) (str : List Char) (colors : List Nat)
    (h : LockStep m) :
    ∃ m', echoLine k str colors m = some m' ∧ LockStep m' ∧
      m' = { m with m_msg := m'.m_msg, m_widemsg := m'.m_widemsg, m_firstmsg := m'.m_firstmsg,
                    m_dirtyness := m'.m_dirtyness } ∧
      (m.m_msg.length < kMessagesKeptCount →
        m'.m_msg = m.m_msg ++ [echoedLine m str colors] ∧
        m'.m_widemsg = m.m_widemsg ++ wideMessagesOf (echoedLine m str colors) m.m_w) ∧
      (m.m_msg.length = kMessagesKeptCount →
        ∃ first rest, m.m_msg = first :: rest ∧ m'.m_msg = rest ++ [echoedLine m str colors] ∧
          m.m_widemsg ++ wideMessagesOf (echoedLine m str colors) m.m_w
            = wideMessagesOf first m.m_w ++ m'.m_widemsg) := by
  obtain ⟨hfit, hwide, hcap⟩ := h
  have hl := resizeColorToFitText_fits
    ({ Text := if str.isEmpty then [' '] else str, Color := colors } : ColoredLine)
    (m.m_colors ECONSOLE_COLOR.ECC_ECHO)
  have hpush := (pushWideMessages_of_fits (echoedLine m str colors) m.m_w m.m_widemsg hl.2).1
  unfold echoLine
  simp only
  have e1 : ({ Text := if str.isEmpty then [' '] else str, Color := colors } :
      ColoredLine).resizeColorToFitText (m.m_colors ECONSOLE_COLOR.ECC_ECHO)
        = echoedLine m str colors := rfl
  rw [e1, hpush]
  simp only [List.length_append, List.length_singleton]
  by_cases hlt : m.m_msg.length < kMessagesKeptCount
  · rw [if_neg (by omega)]
    refine ⟨_, rfl, ⟨?_, ?_, ?_⟩, rfl, ?_, ?_⟩
    · intro msg hmsg
      rcases List.mem_append.1 hmsg with hmsg | hmsg
      · exact hfit msg hmsg
      · simp only [List.mem_singleton] at hmsg; subst hmsg; exact hl.2
    · simp [scrollLines, hwide]
    · simp [scrollLines]; omega
    · intro _; exact ⟨rfl, rfl⟩
    · intro he; omega
  · have heq : m.m_msg.length = kMessagesKeptCount := by omega
    rw [if_pos (by omega)]
    cases hm : m.m_msg with
    | nil => rw [hm] at heq; simp [kMessagesKeptCount] at heq
    | cons first rest =>
      have hfirst : first.Text.length ≤ first.Color.length := hfit first (by simp [hm])
      have hcount := (pushWideMessages_of_fits first m.m_w [] hfirst).2
      have hwide' : m.m_widemsg = wideMessagesOf first m.m_w
          ++ (rest.map (fun msg => wideMessagesOf msg m.m_w)).flatten := by
        rw [hwide, hm]; simp
      simp only [List.cons_append, hcount]
      rw [if_pos (by rw [hwide']; simp; omega)]
      have hdrop : List.drop (wideMessagesOf first m.m_w).length
          (m.m_widemsg ++ wideMessagesOf (echoedLine m str colors) m.m_w)
          = (rest.map (fun msg => wideMessagesOf msg m.m_w)).flatten
            ++ wideMessagesOf (echoedLine m str colors) m.m_w := by
        rw [hwide', List.append_assoc, List.drop_left]
      refine ⟨_, rfl, ⟨?_, ?_, ?_⟩, rfl, ?_, ?_⟩
      · intro msg hmsg
        simp only [scrollLines] at hmsg
        rcases List.mem_append.1 hmsg with hmsg | hmsg
        · exact hfit msg (by rw [hm]; exact List.mem_cons_of_mem _ hmsg)
        · simp only [List.mem_singleton] at hmsg; subst hmsg; exact hl.2
      · simp only [scrollLines]
        rw [hdrop]; simp
      · simp only [scrollLines]
        rw [hm] at hcap; simp at hcap ⊢; omega
      · intro hlt'; rw [hm] at hlt; exact absurd hlt' hlt
      · intro _
        refine ⟨first, rest, rfl, rfl, ?_⟩
        simp only [scrollLines]
        rw [hdrop, hwide', List.append_assoc]


theorem lockStep_clearScreen (m : LuaConsoleModel) : LockStep m.clearScreen := by
  refine ⟨?_, ?_, ?_⟩ <;> simp [clearScreen]

theorem lockStep_new (k : Consts) (options : Nat) (file : Option (List Char)) :
    LockStep (LuaConsoleModel.new k options file) := by
  unfold LuaConsoleModel.new
  simp only
  split
  · unfold loadHistoryFromFile setHistorySize
    refine ⟨?_, ?_, ?_⟩ <;> (simp only; split <;> [skip; (split <;> [skip; split])]) <;> simp
  · refine ⟨?_, ?_, ?_⟩ <;> simp [setHistorySize]

/-- A one character text with a colour wraps to itself at every width. -/
theorem pushWideMessages_single (line : ColoredLine) (c : Char) (w : Nat)
    (ht : line.Text = [c]) (hc : c ≠ newline) :
    pushWideMessages line (some []) w
      = some (1, some [{ Text := [c], Color := line.Color.take 1 }]) := by
  unfold pushWideMessages
  rw [ht]
  simp only [pushWideLoop, hc, false_or, Nat.zero_add, if_false]
  by_cases h1 : 1 ≥ w
  · simp [h1, pushPiece, substr, ht]
  · simp [h1, pushPiece, substr, ht]

theorem echoedLine_empty_text (m : LuaConsoleModel) (colors : List Nat) :
    (echoedLine m [] colors).Text = [' '] := by
  unfold echoedLine
  exact (resizeColorToFitText_fits _ _).1

/-- C8: in every state with a consistent scrollback and for every width `w ≥ 1`, echoing
the empty string (`echoLine` with any colours, `echoColored` with any colour) appends
exactly one logical message, whose text is a single space, and exactly one wrapped
fragment, whose text is a single space; when the message count was at the cap, the
oldest message and exactly its fragments leave at the front. -/
theorem echo_empty_one_blank_row (k : Consts) (m : LuaConsoleModel) (colors : List Nat)
    (textcolor : Nat) (_hw : 1 ≤ m.m_w) (h : LockStep m) :
    echoColored k [] textcolor m = echoLine k [] [] m ∧
    ∃ m' line frag, echoLine k [] colors m = some m' ∧
      line.Text = [' '] ∧ frag.Text = [' '] ∧
      pushWideMessages line (some []) m.m_w = some (1, some [frag]) ∧
      (m.m_msg.length < kMessagesKeptCount →
        m'.m_msg = m.m_msg ++ [line] ∧ m'.m_widemsg = m.m_widemsg ++ [frag]) ∧
      (m.m_msg.length = kMessagesKeptCount →
        ∃ first rest, m.m_msg = first :: rest ∧ m'.m_msg = rest ++ [line] ∧
          m.m_widemsg ++ [frag] = wideMessagesOf first m.m_w ++ m'.m_widemsg) := by
  refine ⟨rfl, ?_⟩
  obtain ⟨m', hm', _, _, hlt, heq⟩ := echoLine_spec k m [] colors h
  have ht := echoedLine_empty_text m colors
  have hp := pushWideMessages_single (echoedLine m [] colors) ' ' m.m_w ht (by decide)
  have hwm : wideMessagesOf (echoedLine m [] colors) m.m_w
      = [{ Text := [' '], Color := (echoedLine m [] colors).Color.take 1 }] := by
    simp [wideMessagesOf, hp]
  rw [hwm] at hlt heq
  exact ⟨m', echoedLine m [] colors, _, hm', ht, rfl, hp, hlt, heq⟩

/-- Witness of C8: the empty string echoed into a freshly constructed console. -/
theorem echo_empty_one_blank_row_witness :
    1 ≤ (LuaConsoleModel.new sampleConsts 0 none).m_w ∧
    LockStep (LuaConsoleModel.new sampleConsts 0 none) ∧
    echoColored sampleConsts [] 7 (LuaConsoleModel.new sampleConsts 0 none)
      = echoLine sampleConsts [] [] (LuaConsoleModel.new sampleConsts 0 none) ∧
    ∃ m' line frag,
      echoLine sampleConsts [] [] (LuaConsoleModel.new sampleConsts 0 none) = some m' ∧
      line.Text = [' '] ∧ frag.Text = [' '] ∧
      pushWideMessages line (some []) (LuaConsoleModel.new sampleConsts 0 none).m_w
        = some (1, some [frag]) ∧
      ((LuaConsoleModel.new sampleConsts 0 none).m_msg.length < kMessagesKeptCount →
        m'.m_msg = (LuaConsoleModel.new sampleConsts 0 none).m_msg ++ [line] ∧
        m'.m_widemsg = (LuaConsoleModel.new sampleConsts 0 none).m_widemsg ++ [frag]) ∧
      ((LuaConsoleModel.new sampleConsts 0 none).m_msg.length = kMessagesKeptCount →
        ∃ first rest, (LuaConsoleModel.new sampleConsts 0 none).m_msg = first :: rest ∧
          m'.m_msg = rest ++ [line] ∧
          (LuaConsoleModel.new sampleConsts 0 none).m_widemsg ++ [frag]
            = wideMessagesOf first (LuaConsoleModel.new sampleConsts 0 none).m_w
              ++ m'.m_widemsg) :=
  ⟨by decide, ⟨(by intro msg hmsg; cases hmsg), rfl, (by decide)⟩,
    echo_empty_one_blank_row sampleConsts (LuaConsoleModel.new sampleConsts 0 none) [] 7
      (by decide) ⟨(by intro msg hmsg; cases hmsg), rfl, (by decide)⟩⟩

theorem runScrollbackOps_lockStep (k : Consts) (ops : List ScrollbackOp) :
    ∀ m0 : LuaConsoleModel, LockStep m0 →
      ∃ m, runScrollbackOps k ops m0 = some m ∧ m.m_w = m0.m_w ∧ LockStep m := by
  induction ops with
  | nil => intro m0 h0; exact ⟨m0, rfl, rfl, h0⟩
  | cons op ops ih =>
    intro m0 h0
    cases op with
    | echoLine str colors =>
      obtain ⟨m1, h1, hl1, hf1, _⟩ := echoLine_spec k m0 str colors h0
      obtain ⟨m, hm, hw, hl⟩ := ih m1 hl1
      refine ⟨m, ?_, ?_, hl⟩
      · simp only [runScrollbackOps, ScrollbackOp.run, h1]; exact hm
      · rw [hw, hf1]
    | clearScreen =>
      obtain ⟨m, hm, hw, hl⟩ := ih m0.clearScreen (lockStep_clearScreen m0)
      exact ⟨m, by simp only [runScrollbackOps, ScrollbackOp.run]; exact hm, by rw [hw]; rfl, hl⟩

/-- C10: from a state with a consistent scrollback (a freshly constructed console is
one), every sequence of `echoLine` and `clearScreen` calls at a fixed width is carried out
and leads to a state in which `m_widemsg` is the concatenation, in order, of what
`pushWideMessages` makes of each retained message of `m_msg`, and in which at most
`kMessagesKeptCount` messages are retained.  A further `echoLine` at the cap drops the
oldest message and exactly its fragments from the front, so the new wrapped length is the
previous one plus the fragments of the new message minus those of the evicted one.  In
count-only mode `pushWideMessages` returns the number of fragments the materialising
mode appends. -/
theorem scrollback_lock_step (k : Consts) (m0 : LuaConsoleModel) (ops : List ScrollbackOp)
    (h0 : LockStep m0) :
    ∃ m, runScrollbackOps k ops m0 = some m ∧ m.m_w = m0.m_w ∧
      (∀ msg ∈ m.m_msg,
        pushWideMessages msg (some []) m.m_w
          = some ((wideMessagesOf msg m.m_w).length, some (wideMessagesOf msg m.m_w))) ∧
      m.m_widemsg = (m.m_msg.map (fun msg => wideMessagesOf msg m.m_w)).flatten ∧
      m.m_msg.length ≤ kMessagesKeptCount ∧
      (∀ str colors, ∃ m', echoLine k str colors m = some m' ∧
        m'.m_msg.length ≤ kMessagesKeptCount ∧
        (m.m_msg.length < kMessagesKeptCount →
          m'.m_msg = m.m_msg ++ [echoedLine m str colors] ∧
          m'.m_widemsg = m.m_widemsg ++ wideMessagesOf (echoedLine m str colors) m.m_w) ∧
        (m.m_msg.length = kMessagesKeptCount →
          ∃ first rest, m.m_msg = first :: rest ∧
            m'.m_msg = rest ++ [echoedLine m str colors] ∧
            m.m_widemsg ++ wideMessagesOf (echoedLine m str colors) m.m_w
              = wideMessagesOf first m.m_w ++ m'.m_widemsg ∧
            m'.m_widemsg.length = m.m_widemsg.length
              + (wideMessagesOf (echoedLine m str colors) m.m_w).length
              - (wideMessagesOf first m.m_w).length)) ∧
      (∀ (str : ColoredLine) (w n : Nat) (out out' : List ColoredLine),
        pushWideMessages str (some out) w = some (n, some out') →
        pushWideMessages str none w = some (n, none) ∧ out'.length = out.length + n) := by
  obtain ⟨m, hm, hw, hl⟩ := runScrollbackOps_lockStep k ops m0 h0
  refine ⟨m, hm, hw, ?_, hl.2.1, hl.2.2, ?_, ?_⟩
  · intro msg hmsg
    simpa using (pushWideMessages_of_fits msg m.m_w [] (hl.1 msg hmsg)).1
  · intro str colors
    obtain ⟨m', h1, hl1, _, hlt, heq⟩ := echoLine_spec k m str colors hl
    refine ⟨m', h1, hl1.2.2, hlt, ?_⟩
    intro hcap
    obtain ⟨first, rest, e1, e2, e3⟩ := heq hcap
    refine ⟨first, rest, e1, e2, e3, ?_⟩
    have := congrArg List.length e3
    simp only [List.length_append] at this
    omega
  · intro str w n out out' hp
    obtain ⟨new, hr, _⟩ := pushWideMessages_spec str w out _ hp
    simp only [Prod.mk.injEq, Option.some.injEq] at hr
    refine ⟨by simpa using pushWideMessages_count str w out _ hp, ?_⟩
    rw [hr.2, List.length_append, hr.1]

/-- Witness of C10: three calls on a freshly constructed console. -/
theorem scrollback_lock_step_witness :
    LockStep (LuaConsoleModel.new sampleConsts 0 none) ∧
    ∃ m, runScrollbackOps sampleConsts
        [ScrollbackOp.echoLine ['h', 'i'] [], ScrollbackOp.clearScreen,
          ScrollbackOp.echoLine [] [5]]
        (LuaConsoleModel.new sampleConsts 0 none) = some m ∧
      m.m_w = (LuaConsoleModel.new sampleConsts 0 none).m_w ∧
      (∀ msg ∈ m.m_msg,
        pushWideMessages msg (some []) m.m_w
          = some ((wideMessagesOf msg m.m_w).length, some (wideMessagesOf msg m.m_w))) ∧
      m.m_widemsg = (m.m_msg.map (fun msg => wideMessagesOf msg m.m_w)).flatten ∧
      m.m_msg.length ≤ kMessagesKeptCount ∧
      (∀ str colors, ∃ m', echoLine sampleConsts str colors m = some m' ∧
        m'.m_msg.length ≤ kMessagesKeptCount ∧
        (m.m_msg.length < kMessagesKeptCount →
          m'.m_msg = m.m_msg ++ [echoedLine m str colors] ∧
          m'.m_widemsg = m.m_widemsg ++ wideMessagesOf (echoedLine m str colors) m.m_w) ∧
        (m.m_msg.length = kMessagesKeptCount →
          ∃ first rest, m.m_msg = first :: rest ∧
            m'.m_msg = rest ++ [echoedLine m str colors] ∧
            m.m_widemsg ++ wideMessagesOf (echoedLine m str colors) m.m_w
              = wideMessagesOf first m.m_w ++ m'.m_widemsg ∧
            m'.m_widemsg.length = m.m_widemsg.length
              + (wideMessagesOf (echoedLine m str colors) m.m_w).length
              - (wideMessagesOf first m.m_w).length)) ∧
      (∀ (str : ColoredLine) (w n : Nat) (out out' : List ColoredLine),
        pushWideMessages str (some out) w = some (n, some out') →
        pushWideMessages str none w = some (n, none) ∧ out'.length = out.length + n) :=
  ⟨⟨(by intro msg hmsg; cases hmsg), rfl, (by decide)⟩,
    scrollback_lock_step sampleConsts (LuaConsoleModel.new sampleConsts 0 none) _
      ⟨(by intro msg hmsg; cases hmsg), rfl, (by decide)⟩⟩


/-! ## The line editor -/

theorem ensureCurInView_cur (m : LuaConsoleModel) : m.ensureCurInView.m_cur = m.m_cur := by
  unfold ensureCurInView; simp only; split <;> rfl

theorem ensureCurInView_lastline (m : LuaConsoleModel) :
    m.ensureCurInView.m_lastline = m.m_lastline := by
  unfold ensureCurInView; simp only; split <;> rfl

/-- The scan returns `-1` or an index inside the line. -/
theorem findLoop_range (line skips : List Char) (iter : Int) :
    ∀ (fuel : Nat) (i : Int) (g : Bool),
      findLoop line skips iter fuel i g = -1 ∨
      (0 ≤ findLoop line skips iter fuel i g ∧
        findLoop line skips iter fuel i g < line.length) := by
  intro fuel
  induction fuel with
  | zero => intro i g; exact Or.inl rfl
  | succ fuel ih =>
    intro i g
    rw [findLoop]
    split
    · rename_i hin
      split
      · split
        · exact Or.inr hin
        · exact ih _ _
      · split
        · exact ih _ _
        · exact ih _ _
    · exact Or.inl rfl

theorem cursorOk_moveCursor (move : Int) (m : LuaConsoleModel) : CursorOk (m.moveCursor move) := by
  unfold CursorOk moveCursor
  simp only [ensureCurInView_cur, ensureCurInView_lastline]
  omega

theorem cursorOk_moveCursorOneWord (k : Consts) (move : EMOVE_DIRECTION) (m : LuaConsoleModel) :
    CursorOk (m.moveCursorOneWord k move) := by
  cases move
  · unfold moveCursorOneWord
    simp only [if_true]
    split
    · exact cursorOk_moveCursor _ _
    · rename_i hne
      unfold CursorOk
      simp only [ensureCurInView_cur, ensureCurInView_lastline]
      unfold findFirstSkipCharAfterNonskip at hne ⊢
      rcases findLoop_range m.m_lastline m.m_skipchars (-1) m.m_lastline.length
          (m.m_cur - 1 + -1) false with h1 | h1
      · exact absurd h1 hne
      · omega
  · unfold moveCursorOneWord
    simp only [reduceCtorEq, if_false]
    split
    · exact cursorOk_moveCursor _ _
    · rename_i hne
      unfold CursorOk
      simp only [ensureCurInView_cur, ensureCurInView_lastline]
      unfold findFirstSkipCharAfterNonskip at hne ⊢
      rcases findLoop_range m.m_lastline m.m_skipchars 1 m.m_lastline.length
          (m.m_cur - 1 + 1) false with h1 | h1
      · exact absurd h1 hne
      · omega

theorem cursorOk_addChar (c : Char) (m : LuaConsoleModel) (h : CursorOk m) :
    ∃ m', m.addChar c = some m' ∧ CursorOk m' := by
  unfold CursorOk at h
  unfold addChar
  split
  · exact ⟨m, rfl, h⟩
  · have hi : insertAt m.m_lastline (m.m_cur - 1) c
        = some (m.m_lastline.take (m.m_cur - 1).toNat ++ c :: m.m_lastline.drop (m.m_cur - 1).toNat) := by
      unfold insertAt; rw [if_pos (by omega)]
    rw [hi]
    refine ⟨_, rfl, ?_⟩
    unfold CursorOk
    simp only [ensureCurInView_cur, ensureCurInView_lastline, List.length_append, List.length_cons,
      List.length_take, List.length_drop]
    omega

theorem cursorOk_backspace (m : LuaConsoleModel) (h : CursorOk m) :
    ∃ m', m.backspace = some m' ∧ CursorOk m' := by
  unfold CursorOk at h
  unfold backspace
  split
  · rename_i hgt
    have hi : eraseOne m.m_lastline (m.m_cur - 1 - 1)
        = some (m.m_lastline.eraseIdx (m.m_cur - 1 - 1).toNat) := by
      unfold eraseOne; rw [if_pos (by omega)]
    simp only [hi]
    refine ⟨_, rfl, ?_⟩
    unfold CursorOk
    simp only [ensureCurInView_cur, ensureCurInView_lastline]
    rw [List.length_eraseIdx]
    split <;> omega
  · exact ⟨m, rfl, h⟩

theorem cursorOk_del (m : LuaConsoleModel) (h : CursorOk m) :
    ∃ m', m.del = some m' ∧ CursorOk m' := by
  unfold CursorOk at h
  unfold del
  have hi : eraseOne m.m_lastline (m.m_cur - 1)
      = some (m.m_lastline.eraseIdx (m.m_cur - 1).toNat) := by
    unfold eraseOne; rw [if_pos (by omega)]
  rw [hi]
  refine ⟨_, rfl, ?_⟩
  unfold CursorOk
  simp only
  rw [List.length_eraseIdx]
  split <;> omega

theorem cursorOk_runEditOps (k : Consts) (ops : List EditOp) :
    ∀ m : LuaConsoleModel, CursorOk m → ∃ m', runEditOps k ops m = some m' ∧ CursorOk m' := by
  induction ops with
  | nil => intro m h; exact ⟨m, rfl, h⟩
  | cons op ops ih =>
    intro m h
    have hstep : ∃ m1, op.run k m = some m1 ∧ CursorOk m1 := by
      cases op with
      | addChar c => exact cursorOk_addChar c m h
      | backspace => exact cursorOk_backspace m h
      | del => exact cursorOk_del m h
      | moveCursor move => exact ⟨_, rfl, cursorOk_moveCursor move m⟩
      | moveCursorOneWord move => exact ⟨_, rfl, cursorOk_moveCursorOneWord k move m⟩
    obtain ⟨m1, h1, hc1⟩ := hstep
    obtain ⟨m', h2, hc2⟩ := ih m1 hc1
    exact ⟨m', by simp only [runEditOps, h1]; exact h2, hc2⟩

theorem new_lastline (k : Consts) (options : Nat) (file : Option (List Char)) :
    (LuaConsoleModel.new k options file).m_lastline = [] ∧
    (LuaConsoleModel.new k options file).m_cur = 1 := by
  unfold LuaConsoleModel.new
  simp only
  split
  · unfold loadHistoryFromFile setHistorySize
    refine ⟨?_, ?_⟩ <;> (simp only; split <;> [skip; (split <;> [skip; split])]) <;> simp
  · exact ⟨rfl, rfl⟩

/-- C1: starting from a freshly constructed model (any options, any history file), every
finite sequence of `addChar`, `backspace`, `del`, `moveCursor` and `moveCursorOneWord`
calls with any arguments is carried out, and afterwards the cursor satisfies
`1 <= m_cur <= len(m_lastline) + 1`. -/
theorem cursor_bound_invariant (k : Consts) (options : Nat) (file : Option (List Char))
    (ops : List EditOp) :
    ∃ m, runEditOps k ops (LuaConsoleModel.new k options file) = some m ∧
      1 ≤ m.m_cur ∧ m.m_cur ≤ (m.m_lastline.length : Int) + 1 := by
  have h0 : CursorOk (LuaConsoleModel.new k options file) := by
    unfold CursorOk
    rw [(new_lastline k options file).1, (new_lastline k options file).2]
    simp
  exact cursorOk_runEditOps k ops _ h0


/-! ## History -/

theorem wrapInt32_of_range (x : Int) (h1 : -2147483648 ≤ x) (h2 : x < 2147483648) :
    wrapInt32 x = x := by
  unfold wrapInt32; omega

theorem moveCursor_fields (move : Int) (m : LuaConsoleModel) :
    (m.moveCursor move).m_lastline = m.m_lastline ∧
    (m.moveCursor move).m_savedlastline = m.m_savedlastline ∧
    (m.moveCursor move).m_history = m.m_history ∧
    (m.moveCursor move).m_hindex = m.m_hindex := by
  unfold moveCursor ensureCurInView
  simp only
  split <;> exact ⟨rfl, rfl, rfl, rfl⟩

theorem readHistory_history (k : Consts) (change : Int) (m : LuaConsoleModel) :
    (m.readHistory k change).m_history = m.m_history := by
  unfold readHistory
  simp only
  split <;> simp only [(moveCursor_fields _ _).2.2.1] <;> split <;> rfl

/-- Entering the history from the fresh line: the line shown and the draft saved. -/
theorem readHistory_enter (k : Consts) (m : LuaConsoleModel) (i : Int)
    (hfresh : m.m_hindex = (m.m_history.length : Int))
    (hfit : (m.m_history.length : Int) < 2147483648)
    (h0 : 0 ≤ (m.m_history.length : Int) + i) (hi : i < 0) :
    (m.readHistory k i).m_hindex = (m.m_history.length : Int) + i ∧
    (m.readHistory k i).m_lastline = m.m_history.getD ((m.m_history.length : Int) + i).toNat [] ∧
    (m.readHistory k i).m_savedlastline = m.m_lastline := by
  have hw : wrapInt32 ((m.m_history.length : Int) + i) = (m.m_history.length : Int) + i :=
    wrapInt32_of_range _ (by omega) (by omega)
  unfold readHistory
  simp only [hfresh, hw, decide_True, if_true]
  have hmm : min (max ((m.m_history.length : Int) + i) 0) (m.m_history.length : Int)
      = (m.m_history.length : Int) + i := by omega
  rw [hmm, if_neg (by omega)]
  simp only [(moveCursor_fields _ _).1, (moveCursor_fields _ _).2.1, (moveCursor_fields _ _).2.2.2]
  exact ⟨trivial, trivial, trivial⟩

/-- Moving inside the history: the saved draft stays. -/
theorem readHistory_inside (k : Consts) (m : LuaConsoleModel) (i : Int)
    (hin : m.m_hindex < (m.m_history.length : Int))
    (hfit : (m.m_history.length : Int) < 2147483648)
    (h1 : 0 ≤ m.m_hindex + i) (h2 : m.m_hindex + i < (m.m_history.length : Int)) :
    (m.readHistory k i).m_hindex = m.m_hindex + i ∧
    (m.readHistory k i).m_lastline = m.m_history.getD (m.m_hindex + i).toNat [] ∧
    (m.readHistory k i).m_savedlastline = m.m_savedlastline := by
  have hw : wrapInt32 (m.m_hindex + i) = m.m_hindex + i :=
    wrapInt32_of_range _ (by omega) (by omega)
  have hd : decide (m.m_hindex = (m.m_history.length : Int)) = false := by
    simp; omega
  unfold readHistory
  simp only [hw, hd]
  have hmm : min (max (m.m_hindex + i) 0) (m.m_history.length : Int) = m.m_hindex + i := by omega
  rw [hmm, if_neg (by omega)]
  simp only [(moveCursor_fields _ _).1, (moveCursor_fields _ _).2.1, (moveCursor_fields _ _).2.2.2,
    Bool.false_eq_true, if_false]
  exact ⟨trivial, trivial, trivial⟩

/-- Coming back from the history to the fresh line: the saved draft is shown again. -/
theorem readHistory_leave (k : Consts) (m : LuaConsoleModel) (i : Int)
    (hin : m.m_hindex < (m.m_history.length : Int))
    (hfit : (m.m_history.length : Int) < 2147483648)
    (h1 : m.m_hindex + i = (m.m_history.length : Int)) :
    (m.readHistory k i).m_hindex = (m.m_history.length : Int) ∧
    (m.readHistory k i).m_lastline = m.m_savedlastline := by
  have hw : wrapInt32 (m.m_hindex + i) = (m.m_history.length : Int) := by
    rw [h1]; exact wrapInt32_of_range _ (by omega) (by omega)
  have hd : decide (m.m_hindex = (m.m_history.length : Int)) = false := by
    simp; omega
  unfold readHistory
  simp only [hw, hd]
  have hmm : min (max (m.m_history.length : Int) 0) (m.m_history.length : Int)
      = (m.m_history.length : Int) := by omega
  rw [hmm, if_pos rfl]
  simp only [(moveCursor_fields _ _).1, (moveCursor_fields _ _).2.2.2, Bool.not_false, if_true]
  exact ⟨trivial, trivial⟩

/-- C3: in a state at the fresh-line position (browse index equal to the history size
`n`) with live draft `d`, for every `j` with `1 <= j <= n`, `readHistory(-j)` shows
`history[n-j]` with browse index `n-j`, and a following `readHistory(+j)` brings the
browse index back to `n` and shows `d` again.  With history `[b,c,d]`: `readHistory(-1)`
shows `d`, a second one shows `c`, and `readHistory(+2)` restores the draft. -/
theorem readHistory_round_trip (k : Consts) :
    (∀ (m : LuaConsoleModel) (j : Nat),
      m.m_hindex = (m.m_history.length : Int) → (m.m_history.length : Int) < 2147483648 →
      1 ≤ j → j ≤ m.m_history.length →
      m.m_history[m.m_history.length - j]? = some (m.readHistory k (-(j : Int))).m_lastline ∧
      (m.readHistory k (-(j : Int))).m_hindex = (m.m_history.length : Int) - j ∧
      ((m.readHistory k (-(j : Int))).readHistory k j).m_hindex = (m.m_history.length : Int) ∧
      ((m.readHistory k (-(j : Int))).readHistory k j).m_lastline = m.m_lastline) ∧
    (∀ (m : LuaConsoleModel), m.m_history = [['b'], ['c'], ['d']] → m.m_hindex = 3 →
      (m.readHistory k (-1)).m_lastline = ['d'] ∧
      ((m.readHistory k (-1)).readHistory k (-1)).m_lastline = ['c'] ∧
      (((m.readHistory k (-1)).readHistory k (-1)).readHistory k 2).m_lastline = m.m_lastline ∧
      (((m.readHistory k (-1)).readHistory k (-1)).readHistory k 2).m_hindex = 3) := by
  constructor
  · intro m j hfresh hfit hj1 hj2
    obtain ⟨e1, e2, e3⟩ := readHistory_enter k m (-(j : Int)) hfresh hfit (by omega) (by omega)
    have hh := readHistory_history k (-(j : Int)) m
    obtain ⟨e4, e5⟩ := readHistory_leave k (m.readHistory k (-(j : Int))) j
      (by rw [e1, hh]; omega) (by rw [hh]; exact hfit)
      (by rw [e1, hh]; omega)
    refine ⟨?_, by rw [e1]; omega, by rw [e4, hh], by rw [e5, e3]⟩
    rw [e2]
    have hidx : ((m.m_history.length : Int) + -(j : Int)).toNat = m.m_history.length - j := by
      omega
    rw [hidx, List.getD_eq_getElem?_getD]
    have hlt : m.m_history.length - j < m.m_history.length := by omega
    rw [List.getElem?_eq_getElem hlt]
    rfl
  · intro m hh hfresh
    have hlen : (m.m_history.length : Int) = 3 := by rw [hh]; rfl
    obtain ⟨a1, a2, a3⟩ := readHistory_enter k m (-1) (by rw [hfresh, hlen]) (by omega)
      (by omega) (by omega)
    have hh1 := readHistory_history k (-1) m
    obtain ⟨b1, b2, b3⟩ := readHistory_inside k (m.readHistory k (-1)) (-1)
      (by rw [a1, hh1]; omega) (by rw [hh1]; omega)
      (by rw [a1]; omega) (by rw [a1, hh1]; omega)
    have hh2 := readHistory_history k (-1) (m.readHistory k (-1))
    obtain ⟨c1, c2⟩ := readHistory_leave k ((m.readHistory k (-1)).readHistory k (-1)) 2
      (by rw [b1, a1, hh2, hh1]; omega) (by rw [hh2, hh1]; omega)
      (by rw [b1, a1, hh2, hh1]; omega)
    refine ⟨?_, ?_, ?_, ?_⟩
    · rw [a2, hlen, hh]; rfl
    · rw [b2, a1, hh1, hlen, hh]; rfl
    · rw [c2, b3, a3]
    · rw [c1, hh2, hh1, hlen]

/-- Witness of C3: history `[b,c,d]`, draft `x`, two entries back and forth. -/
theorem readHistory_round_trip_witness :
    sampleBrowseState.m_hindex = (sampleBrowseState.m_history.length : Int) ∧
    (sampleBrowseState.m_history.length : Int) < 2147483648 ∧
    1 ≤ 2 ∧ 2 ≤ sampleBrowseState.m_history.length ∧
    sampleBrowseState.m_history = [['b'], ['c'], ['d']] ∧ sampleBrowseState.m_hindex = 3 ∧
    (sampleBrowseState.m_history[sampleBrowseState.m_history.length - 2]?
        = some (sampleBrowseState.readHistory sampleConsts (-((2 : Nat) : Int))).m_lastline ∧
      (sampleBrowseState.readHistory sampleConsts (-((2 : Nat) : Int))).m_hindex
        = (sampleBrowseState.m_history.length : Int) - (2 : Nat) ∧
      ((sampleBrowseState.readHistory sampleConsts (-((2 : Nat) : Int))).readHistory sampleConsts
          (2 : Nat)).m_hindex = (sampleBrowseState.m_history.length : Int) ∧
      ((sampleBrowseState.readHistory sampleConsts (-((2 : Nat) : Int))).readHistory sampleConsts
          (2 : Nat)).m_lastline = sampleBrowseState.m_lastline) ∧
    ((sampleBrowseState.readHistory sampleConsts (-1)).m_lastline = ['d'] ∧
      ((sampleBrowseState.readHistory sampleConsts (-1)).readHistory sampleConsts (-1)).m_lastline
        = ['c'] ∧
      (((sampleBrowseState.readHistory sampleConsts (-1)).readHistory sampleConsts (-1)).readHistory
          sampleConsts 2).m_lastline = sampleBrowseState.m_lastline ∧
      (((sampleBrowseState.readHistory sampleConsts (-1)).readHistory sampleConsts (-1)).readHistory
          sampleConsts 2).m_hindex = 3) :=
  ⟨rfl, (by decide), (by decide), (by decide), rfl, rfl,
    (readHistory_round_trip sampleConsts).1 sampleBrowseState 2 rfl (by decide) (by decide)
      (by decide),
    (readHistory_round_trip sampleConsts).2 sampleBrowseState rfl rfl⟩


/-! ## Submission -/

theorem scrollbackFrame_refl (m : LuaConsoleModel) : ScrollbackFrame m m := rfl

theorem scrollbackFrame_trans {a b c : LuaConsoleModel} (h1 : ScrollbackFrame a b)
    (h2 : ScrollbackFrame b c) : ScrollbackFrame a c := by
  unfold ScrollbackFrame at *
  rw [h2, h1]

theorem echoLine_frame (k : Consts) (m : LuaConsoleModel) (str : List Char) (colors : List Nat)
    (h : LockStep m) :
    ∃ m', echoLine k str colors m = some m' ∧ LockStep m' ∧ ScrollbackFrame m m' := by
  obtain ⟨m', h1, h2, h3, _⟩ := echoLine_spec k m str colors h
  refine ⟨m', h1, h2, ?_⟩
  unfold ScrollbackFrame
  rw [h3]



theorem lockStep_congr {m m' : LuaConsoleModel} (h : LockStep m) (h1 : m'.m_msg = m.m_msg)
    (h2 : m'.m_widemsg = m.m_widemsg) (h3 : m'.m_w = m.m_w) : LockStep m' := by
  unfold LockStep at *
  rw [h1, h2, h3]; exact h

theorem echoColored_step (k : Consts) (m : LuaConsoleModel) (str : List Char) (c : Nat)
    (h : LockStep m) : ∃ m', echoColored k str c m = some m' ∧ EchoStep m m' :=
  echoLine_frame k m str _ h

theorem runEchoes_step (k : Consts) (l : List (List Char)) :
    ∀ m : LuaConsoleModel, LockStep m → ∃ m', runEchoes k l m = some m' ∧ EchoStep m m' := by
  induction l with
  | nil => intro m h; exact ⟨m, rfl, h, scrollbackFrame_refl m⟩
  | cons s l ih =>
    intro m h
    obtain ⟨m1, h1, hl1, hf1⟩ := echoColored_step k m s (m.m_colors ECONSOLE_COLOR.ECC_ECHO) h
    obtain ⟨m2, h2, hl2, hf2⟩ := ih m1 hl1
    refine ⟨m2, ?_, hl2, scrollbackFrame_trans hf1 hf2⟩
    have h1' : echo k s m = some m1 := h1
    simp only [runEchoes, h1']
    exact h2

theorem echoHistoryLoop_step (k : Consts) (n : Nat) :
    ∀ (i : Nat) (m : LuaConsoleModel), LockStep m →
      ∃ m', echoHistoryLoop k n i m = some m' ∧ EchoStep m m' := by
  induction n with
  | zero => intro i m h; exact ⟨m, rfl, h, scrollbackFrame_refl m⟩
  | succ n ih =>
    intro i m h
    obtain ⟨m1, h1, hl1, hf1⟩ := echoColored_step k m (m.m_history.getD i [])
      (m.m_colors ECONSOLE_COLOR.ECC_HISTORY) h
    obtain ⟨m2, h2, hl2, hf2⟩ := ih (i + 1) m1 hl1
    refine ⟨m2, ?_, hl2, scrollbackFrame_trans hf1 hf2⟩
    simp only [echoHistoryLoop, h1]
    exact h2

theorem checkSpecialComments_step (k : Consts) (m : LuaConsoleModel) (h : LockStep m) :
    ∃ m', checkSpecialComments k m = some m' ∧ EchoStep m m' := by
  unfold checkSpecialComments
  simp only
  have hc : EchoStep m m.clearScreen := ⟨lockStep_clearScreen m, rfl⟩
  split
  · split
    · obtain ⟨m2, h2, hl2, hf2⟩ := echoHistoryLoop_step k m.clearScreen.m_history.length 0
        m.clearScreen hc.1
      exact ⟨m2, h2, hl2, scrollbackFrame_trans hc.2 hf2⟩
    · exact ⟨_, rfl, hc⟩
  · split
    · exact echoHistoryLoop_step k _ 0 m h
    · exact ⟨m, rfl, h, scrollbackFrame_refl m⟩

theorem submittedLine_state (m : LuaConsoleModel) :
    (if m.m_lastline.length = 0 ∧ m.m_emptyenterrepeat = true ∧ m.m_history ≠ []
      then { m with m_lastline := m.m_history.getLastD [] } else m)
      = { m with m_lastline := submittedLine m } := by
  unfold submittedLine
  split <;> rfl

theorem echoColored_keeps (k : Consts) (m : LuaConsoleModel) (str : List Char) (c : Nat)
    (h : LockStep m) :
    ∃ m', echoColored k str c m = some m' ∧ EchoStep m m' ∧ m'.m_buffcmd = m.m_buffcmd := by
  obtain ⟨m', h1, h2, h3, _⟩ := echoLine_spec k m str (List.replicate str.length c) h
  refine ⟨m', h1, ⟨h2, ?_⟩, ?_⟩
  · unfold ScrollbackFrame
    rw [h3]
  · rw [h3]

/-- What the compilation and the run of the chunk read of the state. -/
theorem nullError_congr (lua : LuaCalls) (m m' : LuaConsoleModel) (h1 : m'.L = m.L)
    (h2 : m'.m_addreturn = m.m_addreturn) (h3 : m'.m_buffcmd = m.m_buffcmd) :
    nullError lua m' = nullError lua m := by
  unfold nullError tryEval
  rw [h1, h2, h3]

theorem nullError_chunk (lua : LuaCalls) (m : LuaConsoleModel) (code : List Char) (l : Unit)
    (hL : m.L = some l)
    (hc : (if m.m_addreturn = true then
        (if (tryEval lua true m).1 = true then tryEval lua true m else tryEval lua false m)
      else tryEval lua false m) = (true, Loaded.chunk code))
    (hn : nullError lua m = false)
    (hr : (lua.lua_pcall code).result = Except.error none) :
    lua.incompleteChunkError none = true := by
  unfold nullError at hn
  rw [hL] at hn
  simp only at hn
  rw [hc] at hn
  simp only at hn
  rw [hr] at hn
  simpa using hn

theorem nullError_true (lua : LuaCalls) (m : LuaConsoleModel) (hn : nullError lua m = true) :
    ∃ l code, m.L = some l ∧
      (if m.m_addreturn = true then
        (if (tryEval lua true m).1 = true then tryEval lua true m else tryEval lua false m)
      else tryEval lua false m) = (true, Loaded.chunk code) ∧
      (lua.lua_pcall code).result = Except.error none ∧
      lua.incompleteChunkError none = false := by
  unfold nullError at hn
  cases hL : m.L with
  | none => rw [hL] at hn; cases hn
  | some l =>
    rw [hL] at hn
    simp only at hn
    generalize (if m.m_addreturn = true then
        (if (tryEval lua true m).1 = true then tryEval lua true m else tryEval lua false m)
      else tryEval lua false m) = loaded at hn ⊢
    obtain ⟨b, ld⟩ := loaded
    cases b with
    | false => cases hn
    | true =>
      cases ld with
      | error msg => cases hn
      | nothing => cases hn
      | chunk code =>
        simp only at hn
        cases hr : (lua.lua_pcall code).result with
        | ok values => rw [hr] at hn; cases hn
        | error err =>
          cases err with
          | some text => rw [hr] at hn; cases hn
          | none =>
            rw [hr] at hn
            exact ⟨l, code, rfl, rfl, hr, by simpa using hn⟩

theorem textErrors_nullError (lua : LuaCalls) (m : LuaConsoleModel) (ht : TextErrors lua) :
    nullError lua m = false := by
  cases hn : nullError lua m with
  | false => rfl
  | true =>
    obtain ⟨_, code, _, _, hr, _⟩ := nullError_true lua m hn
    exact absurd hr (ht code)

theorem evalFailed_step (k : Consts) (lua : LuaCalls) (evalok : Bool)
    (err : Option (List Char)) (m : LuaConsoleModel) (h : LockStep m)
    (hn : err = none → lua.incompleteChunkError none = true) :
    ∃ m' ret, evalFailed k lua evalok err m = some (m', ret) ∧ EchoStep m m' := by
  cases err with
  | none =>
    unfold evalFailed
    rw [hn rfl]
    exact ⟨m, _, rfl, h, scrollbackFrame_refl m⟩
  | some err =>
    unfold evalFailed
    split
    · have hb : EchoStep m { m with m_buffcmd := [] } := ⟨lockStep_congr h rfl rfl rfl, rfl⟩
      obtain ⟨m1, h1, hl1, hf1⟩ := echoColored_step k { m with m_buffcmd := [] } err
        (m.m_colors ECONSOLE_COLOR.ECC_ERROR) hb.1
      simp only
      rw [h1]
      exact ⟨_, _, rfl, hl1, scrollbackFrame_trans hb.2 hf1⟩
    · exact ⟨m, _, rfl, h, scrollbackFrame_refl m⟩



theorem tryEval_false_cases (lua : LuaCalls) (m : LuaConsoleModel) :
    (∃ code, tryEval lua false m = (true, Loaded.chunk code)) ∨
    (∃ err, tryEval lua false m = (false, Loaded.error err)) := by
  unfold tryEval
  simp only [Bool.false_eq_true, if_false]
  split
  · exact Or.inl ⟨_, rfl⟩
  · exact Or.inr ⟨_, rfl⟩

theorem tryEval_true_cases (lua : LuaCalls) (m : LuaConsoleModel) :
    (∃ code, tryEval lua true m = (true, Loaded.chunk code)) ∨
    tryEval lua true m = (false, Loaded.nothing) := by
  unfold tryEval
  simp only [if_true]
  split
  · exact Or.inl ⟨_, rfl⟩
  · exact Or.inr rfl

theorem printLuaStackInColor_step (k : Consts) (values : List LuaValue) (c : Nat)
    (m : LuaConsoleModel) (h : LockStep m) :
    ∃ m', printLuaStackInColor k values c m = some m' ∧ EchoStep m m' :=
  echoColored_step k m _ c h

theorem evalChunk_step (k : Consts) (lua : LuaCalls) (code : List Char) (m : LuaConsoleModel)
    (h : LockStep m)
    (hn : (lua.lua_pcall code).result = Except.error none →
      lua.incompleteChunkError none = true) :
    ∃ m' ret,
      (match runEchoes k (lua.lua_pcall code).echoed m with
        | none => none
        | some m =>
          match (lua.lua_pcall code).result with
          | Except.ok values =>
            if ({ m with m_buffcmd := [] } : LuaConsoleModel).m_printeval ∧ values ≠ [] then
              match printLuaStackInColor k values
                  (({ m with m_buffcmd := [] } : LuaConsoleModel).m_colors ECONSOLE_COLOR.ECC_EVAL)
                  { m with m_buffcmd := [] } with
              | none => none
              | some m => some (m, ELINE_PARSE_RESULT.ELPR_OK)
            else some ({ m with m_buffcmd := [] }, ELINE_PARSE_RESULT.ELPR_OK)
          | Except.error err => evalFailed k lua true err m) = some (m', ret) ∧
      EchoStep m m' := by
  obtain ⟨m1, h1, hl1, hf1⟩ := runEchoes_step k (lua.lua_pcall code).echoed m h
  rw [h1]
  simp only
  cases hr : (lua.lua_pcall code).result with
  | error err =>
    obtain ⟨m2, ret, h2, hl2, hf2⟩ := evalFailed_step k lua true err m1 hl1
      (fun he => hn (by rw [hr, he]))
    exact ⟨m2, ret, h2, hl2, scrollbackFrame_trans hf1 hf2⟩
  | ok values =>
    have hb : EchoStep m1 { m1 with m_buffcmd := [] } := ⟨lockStep_congr hl1 rfl rfl rfl, rfl⟩
    simp only
    split
    · obtain ⟨m2, h2, hl2, hf2⟩ := printLuaStackInColor_step k values
        (m1.m_colors ECONSOLE_COLOR.ECC_EVAL) { m1 with m_buffcmd := [] } hb.1
      rw [h2]
      exact ⟨m2, _, rfl, hl2, scrollbackFrame_trans hf1 (scrollbackFrame_trans hb.2 hf2)⟩
    · exact ⟨_, _, rfl, hb.1, scrollbackFrame_trans hf1 hb.2⟩

theorem evalBuffer_step (k : Consts) (lua : LuaCalls) (m : LuaConsoleModel) (h : LockStep m)
    (hn : nullError lua m = false) :
    ∃ m' ret, evalBuffer k lua m = some (m', ret) ∧ EchoStep m m' := by
  unfold evalBuffer
  cases hL : m.L with
  | none =>
    simp only
    obtain ⟨m1, h1, hl1, hf1⟩ := echoColored_step k m
      ("Lua state pointer is NULL, commands have no effect".toList)
      (m.m_colors ECONSOLE_COLOR.ECC_ERROR) h
    rw [h1]
    exact ⟨_, _, rfl, hl1, hf1⟩
  | some l =>
    simp only
    have hloaded : (∃ code, (if m.m_addreturn = true then
          (if (tryEval lua true m).1 = true then tryEval lua true m else tryEval lua false m)
        else tryEval lua false m) = (true, Loaded.chunk code)) ∨
        (∃ err, (if m.m_addreturn = true then
          (if (tryEval lua true m).1 = true then tryEval lua true m else tryEval lua false m)
        else tryEval lua false m) = (false, Loaded.error err)) := by
      split
      · rcases tryEval_true_cases lua m with ⟨code, hc⟩ | hn
        · rw [hc]; exact Or.inl ⟨code, rfl⟩
        · rw [hn]; exact tryEval_false_cases lua m
      · exact tryEval_false_cases lua m
    rcases hloaded with ⟨code, hc⟩ | ⟨err, he⟩
    · rw [hc]
      exact evalChunk_step k lua code m h (nullError_chunk lua m code l hL hc hn)
    · rw [he]
      exact evalFailed_step k lua false (some err) m h (fun hc => nomatch hc)

/-- A run that ends in a null error: the evaluation constructs a string from a null
pointer. -/
theorem evalBuffer_null (k : Consts) (lua : LuaCalls) (m : LuaConsoleModel) (h : LockStep m)
    (hn : nullError lua m = true) : evalBuffer k lua m = none := by
  obtain ⟨l, code, hL, hc, hr, hcl⟩ := nullError_true lua m hn
  obtain ⟨m1, h1, _⟩ := runEchoes_step k (lua.lua_pcall code).echoed m h
  unfold evalBuffer
  rw [hL]
  simp only
  rw [hc]
  simp only
  rw [h1]
  simp only
  rw [hr]
  simp only
  unfold evalFailed
  rw [hcl]
  rfl

theorem nullError_submitState (lua : LuaCalls) (m m1 : LuaConsoleModel)
    (hf : ScrollbackFrame { m with m_lastline := submittedLine m } m1)
    (hb : m1.m_buffcmd = m.m_buffcmd) :
    nullError lua (submitState m1) = nullError lua (submitted m) := by
  have e1L : m1.L = m.L := by rw [hf]
  have e1a : m1.m_addreturn = m.m_addreturn := by rw [hf]
  have e1l : m1.m_lastline = submittedLine m := by rw [hf]
  refine nullError_congr lua _ _ e1L e1a ?_
  show m1.m_buffcmd ++ m1.m_lastline ++ [newline] = m.m_buffcmd ++ submittedLine m ++ [newline]
  rw [hb, e1l]

/-- A submission whose run ends in a null error does not return. -/
theorem parseLastLine_null (k : Consts) (lua : LuaCalls) (m : LuaConsoleModel) (h : LockStep m)
    (hn : nullError lua (submitted m) = true) : parseLastLine k lua m = none := by
  have hl0 : LockStep { m with m_lastline := submittedLine m } := lockStep_congr h rfl rfl rfl
  obtain ⟨m1, h1, hs1, hb1⟩ := echoColored_keeps k { m with m_lastline := submittedLine m }
    (submittedLine m) (m.m_colors ECONSOLE_COLOR.ECC_CODE) hl0
  have hl2 : LockStep (submitState m1) := lockStep_congr hs1.1 rfl rfl rfl
  have hn2 : nullError lua (submitState m1) = true :=
    (nullError_submitState lua m m1 hs1.2 hb1).trans hn
  have h2 : evalBuffer k lua { m1 with
      m_history := (m1.m_history ++ [m1.m_lastline]).drop 1,
      m_hindex := (((m1.m_history ++ [m1.m_lastline]).drop 1).length : Int),
      m_buffcmd := m1.m_buffcmd ++ m1.m_lastline ++ [newline] } = none :=
    evalBuffer_null k lua (submitState m1) hl2 hn2
  unfold parseLastLine
  simp only
  rw [submittedLine_state]
  have h1' : echoColored k ({ m with m_lastline := submittedLine m } : LuaConsoleModel).m_lastline
      (({ m with m_lastline := submittedLine m } : LuaConsoleModel).m_colors
        ECONSOLE_COLOR.ECC_CODE) { m with m_lastline := submittedLine m } = some m1 := h1
  rw [h1']
  simp only
  rw [h2]



/-- What `parseLastLine` does to the history, in a state with a consistent scrollback. -/
theorem parseLastLine_history (k : Consts) (lua : LuaCalls) (m : LuaConsoleModel)
    (h : LockStep m) (hn : nullError lua (submitted m) = false) :
    ∃ m' ret, parseLastLine k lua m = some (m', ret) ∧ LockStep m' ∧
      m'.m_history = (m.m_history ++ [submittedLine m]).drop 1 ∧
      m'.m_hindex = (m'.m_history.length : Int) := by
  obtain ⟨m0, hm0, hl0, hline0, hhist0, hm0'⟩ : ∃ m0,
      m0 = (if m.m_lastline.length = 0 ∧ m.m_emptyenterrepeat = true ∧ m.m_history ≠ []
        then { m with m_lastline := m.m_history.getLastD [] } else m) ∧
      LockStep m0 ∧ m0.m_lastline = submittedLine m ∧ m0.m_history = m.m_history ∧
      m0 = { m with m_lastline := submittedLine m } := by
    refine ⟨_, rfl, ?_, ?_, ?_, submittedLine_state m⟩
    · split
      · exact lockStep_congr h rfl rfl rfl
      · exact h
    · unfold submittedLine; split <;> rfl
    · split <;> rfl
  unfold parseLastLine
  simp only
  rw [← hm0]
  obtain ⟨m1, h1, ⟨hl1, hf1⟩, hb1⟩ := echoColored_keeps k m0 m0.m_lastline
    (m0.m_colors ECONSOLE_COLOR.ECC_CODE) hl0
  rw [h1]
  simp only
  have hl2 : LockStep { m1 with
      m_history := (m1.m_history ++ [m1.m_lastline]).drop 1,
      m_hindex := (((m1.m_history ++ [m1.m_lastline]).drop 1).length : Int),
      m_buffcmd := m1.m_buffcmd ++ m1.m_lastline ++ [newline] } :=
    lockStep_congr hl1 rfl rfl rfl
  have hn2 : nullError lua (submitState m1) = false :=
    (nullError_submitState lua m m1 (hm0' ▸ hf1) (by rw [hb1, hm0'])).trans hn
  obtain ⟨m3, ret, h3, hl3, hf3⟩ := evalBuffer_step k lua _ hl2 hn2
  have e1h : m1.m_history = m0.m_history := by rw [hf1]
  have e1l : m1.m_lastline = m0.m_lastline := by rw [hf1]
  have e3h : m3.m_history = (m1.m_history ++ [m1.m_lastline]).drop 1 := by rw [hf3]
  have e3i : m3.m_hindex = (((m1.m_history ++ [m1.m_lastline]).drop 1).length : Int) := by rw [hf3]
  split
  · rename_i hE
    cases h3.symm.trans hE
  · rename_i m3' ret' hE
    have he := h3.symm.trans hE
    simp only [Option.some.injEq, Prod.mk.injEq] at he
    obtain ⟨rfl, rfl⟩ := he
    split
    · rename_i hC
      exfalso
      split at hC
      · obtain ⟨m4, h4, _⟩ := checkSpecialComments_step k m3 hl3
        rw [h4] at hC; cases hC
      · cases hC
    · rename_i m4 hC
      have h4 : EchoStep m3 m4 := by
        split at hC
        · obtain ⟨m4', h4, hs4⟩ := checkSpecialComments_step k m3 hl3
          rw [h4] at hC
          simp only [Option.some.injEq] at hC
          rw [← hC]; exact hs4
        · simp only [Option.some.injEq] at hC
          rw [← hC]; exact ⟨hl3, scrollbackFrame_refl m3⟩
      obtain ⟨hl4, hf4⟩ := h4
      have e4h : m4.m_history = m3.m_history := by rw [hf4]
      have e4i : m4.m_hindex = m3.m_hindex := by rw [hf4]
      refine ⟨_, _, rfl, lockStep_congr hl4 rfl rfl rfl, ?_, ?_⟩
      · show m4.m_history = _
        rw [e4h, e3h, e1h, e1l, hline0, hhist0]
      · show m4.m_hindex = (m4.m_history.length : Int)
        rw [e4i, e3i, e4h, e3h]



/-- What a call of `parseLastLine` that returns has done to the history. -/
theorem parseLastLine_history_of_some (k : Consts) (lua : LuaCalls) (m m' : LuaConsoleModel)
    (ret : ELINE_PARSE_RESULT) (h : LockStep m) (hp : parseLastLine k lua m = some (m', ret)) :
    LockStep m' ∧ m'.m_history = (m.m_history ++ [submittedLine m]).drop 1 ∧
      m'.m_hindex = (m'.m_history.length : Int) := by
  cases hn : nullError lua (submitted m) with
  | true =>
    rw [parseLastLine_null k lua m h hn] at hp
    cases hp
  | false =>
    obtain ⟨m'', ret', hp', hl, hh, hi⟩ := parseLastLine_history k lua m h hn
    have e := hp'.symm.trans hp
    simp only [Option.some.injEq, Prod.mk.injEq] at e
    obtain ⟨rfl, rfl⟩ := e
    exact ⟨hl, hh, hi⟩

theorem submittedLine_typed (m : LuaConsoleModel) (line : List Char) (hne : line ≠ []) :
    submittedLine { m with m_lastline := line, m_cur := (line.length : Int) + 1 } = line := by
  unfold submittedLine
  rw [if_neg]
  intro hc
  exact hne (List.length_eq_zero.1 hc.1)

theorem submitLine_history (k : Consts) (lua : LuaCalls) (line : List Char)
    (m m' : LuaConsoleModel) (h : LockStep m) (hne : line ≠ [])
    (hs : submitLine k lua line m = some m') :
    LockStep m' ∧ m'.m_history = (m.m_history ++ [line]).drop 1 ∧
      m'.m_hindex = (m'.m_history.length : Int) := by
  unfold submitLine at hs
  cases hp : parseLastLine k lua { m with m_lastline := line, m_cur := (line.length : Int) + 1 } with
  | none => rw [hp] at hs; cases hs
  | some r =>
    obtain ⟨m'', ret⟩ := r
    rw [hp] at hs
    simp only [Option.some.injEq] at hs
    subst hs
    obtain ⟨hl, hh, hi⟩ := parseLastLine_history_of_some k lua
      { m with m_lastline := line, m_cur := (line.length : Int) + 1 } m'' ret
      (lockStep_congr h rfl rfl rfl) hp
    rw [submittedLine_typed m line hne] at hh
    exact ⟨hl, hh, hi⟩

theorem submitLine_returns (k : Consts) (lua : LuaCalls) (line : List Char)
    (m : LuaConsoleModel) (h : LockStep m) (ht : TextErrors lua) :
    ∃ m', submitLine k lua line m = some m' := by
  obtain ⟨m', ret, h1, _⟩ := parseLastLine_history k lua
    { m with m_lastline := line, m_cur := (line.length : Int) + 1 } (lockStep_congr h rfl rfl rfl)
    (textErrors_nullError lua _ ht)
  refine ⟨m', ?_⟩
  unfold submitLine
  rw [h1]

theorem submitAll_history (k : Consts) (subs : List (LuaCalls × List Char)) :
    ∀ m m' : LuaConsoleModel, LockStep m → (∀ s ∈ subs, s.2 ≠ []) →
      submitAll k subs m = some m' →
      LockStep m' ∧
        m'.m_history = (m.m_history ++ subs.map (fun s => s.2)).drop subs.length ∧
        (subs ≠ [] → m'.m_hindex = (m'.m_history.length : Int)) := by
  induction subs with
  | nil =>
    intro m m' h _ hs
    have e : m = m' := Option.some.inj hs
    subst e
    exact ⟨h, by simp, fun hc => absurd rfl hc⟩
  | cons s rest ih =>
    intro m m' h hne hs
    rw [submitAll] at hs
    cases h1 : submitLine k s.1 s.2 m with
    | none => rw [h1] at hs; cases hs
    | some m1 =>
      rw [h1] at hs
      have h2 : submitAll k rest m1 = some m' := hs
      obtain ⟨hl1, hh1, hi1⟩ := submitLine_history k s.1 s.2 m m1 h (hne s (by simp)) h1
      obtain ⟨hl2, hh2, hi2⟩ := ih m1 m' hl1 (fun x hx => hne x (List.mem_cons_of_mem _ hx)) h2
      refine ⟨hl2, ?_, ?_⟩
      · rw [hh2, hh1]
        have hd : (m.m_history ++ [s.2]).drop 1 ++ rest.map (fun s => s.2)
            = ((m.m_history ++ [s.2]) ++ rest.map (fun s => s.2)).drop 1 :=
          (@List.drop_append_of_le_length _ (m.m_history ++ [s.2]) (rest.map (fun s => s.2)) 1
            (by simp)).symm
        rw [hd, List.drop_drop]
        simp [Nat.add_comm]
      · intro _
        cases rest with
        | nil =>
          simp only [submitAll, Option.some.injEq] at h2
          rw [← h2]; exact hi1
        | cons r rest' => exact hi2 (by simp)

theorem submitAll_returns (k : Consts) (subs : List (LuaCalls × List Char)) :
    ∀ m : LuaConsoleModel, LockStep m → (∀ s ∈ subs, s.2 ≠ []) →
      (∀ s ∈ subs, TextErrors s.1) → ∃ m', submitAll k subs m = some m' := by
  induction subs with
  | nil => intro m _ _ _; exact ⟨m, rfl⟩
  | cons s rest ih =>
    intro m h hne ht
    obtain ⟨m1, h1⟩ := submitLine_returns k s.1 s.2 m h (ht s (by simp))
    obtain ⟨hl1, _⟩ := submitLine_history k s.1 s.2 m m1 h (hne s (by simp)) h1
    obtain ⟨m', h2⟩ := ih m1 hl1 (fun x hx => hne x (List.mem_cons_of_mem _ hx))
      (fun x hx => ht x (List.mem_cons_of_mem _ hx))
    refine ⟨m', ?_⟩
    simp only [submitAll, h1]
    exact h2

theorem textErrors_sampleLua : TextErrors sampleLua := fun _ hc => nomatch hc

theorem textErrors_sampleBoomLua : TextErrors sampleBoomLua := fun _ hc => nomatch hc

theorem textErrors_sampleEofLua : TextErrors sampleEofLua := fun _ hc => nomatch hc

theorem textErrors_sampleSumLua : TextErrors sampleSumLua := fun _ hc => nomatch hc

/-- C2: for every capacity `N >= 1` and every sequence of `N + k` (`k >= 1`) submissions
of non-empty lines through `parseLastLine`, from any state with a consistent scrollback
whose history has `N` entries: whatever the collaborators answer, when the submissions
have returned the history has exactly `N` entries, which are the last `N` submitted
lines in submission order, and the browse index equals `N`; and the submissions do all
return when no run of a chunk leaves an error object without a string form (for such an
object `parseLastLine` constructs a string from a null pointer). -/
theorem history_ring (k : Consts) (m0 : LuaConsoleModel) (N kk : Nat)
    (subs : List (LuaCalls × List Char)) (hInv : LockStep m0) (_hN : 1 ≤ N)
    (hcap : m0.m_history.length = N) (_hk : 1 ≤ kk) (hlen : subs.length = N + kk)
    (hne : ∀ s ∈ subs, s.2 ≠ []) :
    (∀ m, submitAll k subs m0 = some m → m.m_history.length = N ∧
      m.m_history = lastN N (subs.map (fun s => s.2)) ∧ m.m_hindex = (N : Int)) ∧
    ((∀ s ∈ subs, TextErrors s.1) → ∃ m, submitAll k subs m0 = some m) := by
  refine ⟨?_, fun ht => submitAll_returns k subs m0 hInv hne ht⟩
  intro m h1
  obtain ⟨_, hh, hi⟩ := submitAll_history k subs m0 m hInv hne h1
  have hsub : subs ≠ [] := by
    intro hc; rw [hc] at hlen; simp at hlen; omega
  have hhist : m.m_history = lastN N (subs.map (fun s => s.2)) := by
    rw [hh, hlen]
    unfold lastN
    rw [List.length_map, hlen, ← hcap, List.drop_append, Nat.add_sub_cancel_left]
  have hl : m.m_history.length = N := by
    rw [hhist]; unfold lastN; simp; omega
  exact ⟨hl, hhist, by rw [hi hsub, hl]⟩

set_option maxRecDepth 100000 in
/-- Witness of C2: capacity 3 with an interpreter attached; `a` (runs), `b` (its run fails
with the message `boom`), `c` (runs) and `d` (leaves a value) are submitted: all four
calls return and the history is `[b, c, d]`. -/
theorem history_ring_witness :
    LockStep sampleAttachedState ∧ 1 ≤ 3 ∧ sampleAttachedState.m_history.length = 3 ∧ 1 ≤ 1 ∧
    [(sampleLua, ['a']), (sampleBoomLua, ['b']), (sampleEofLua, ['c']),
      (sampleSumLua, ['d'])].length = 3 + 1 ∧
    (∀ s ∈ [(sampleLua, ['a']), (sampleBoomLua, ['b']), (sampleEofLua, ['c']),
      (sampleSumLua, ['d'])], s.2 ≠ []) ∧
    (∀ s ∈ [(sampleLua, ['a']), (sampleBoomLua, ['b']), (sampleEofLua, ['c']),
      (sampleSumLua, ['d'])], TextErrors s.1) ∧
    (submitAll sampleConsts [(sampleLua, ['a']), (sampleBoomLua, ['b']), (sampleEofLua, ['c']),
        (sampleSumLua, ['d'])] sampleAttachedState).map (fun m => (m.m_history, m.m_hindex))
      = some ([['b'], ['c'], ['d']], 3) ∧
    ((∀ m, submitAll sampleConsts [(sampleLua, ['a']), (sampleBoomLua, ['b']),
        (sampleEofLua, ['c']), (sampleSumLua, ['d'])] sampleAttachedState = some m →
      m.m_history.length = 3 ∧
      m.m_history = lastN 3 ([(sampleLua, ['a']), (sampleBoomLua, ['b']), (sampleEofLua, ['c']),
        (sampleSumLua, ['d'])].map (fun s => s.2)) ∧ m.m_hindex = ((3 : Nat) : Int)) ∧
    ((∀ s ∈ [(sampleLua, ['a']), (sampleBoomLua, ['b']), (sampleEofLua, ['c']),
        (sampleSumLua, ['d'])], TextErrors s.1) →
      ∃ m, submitAll sampleConsts [(sampleLua, ['a']), (sampleBoomLua, ['b']),
        (sampleEofLua, ['c']), (sampleSumLua, ['d'])] sampleAttachedState = some m)) :=
  ⟨lockStep_congr (lockStep_new sampleConsts 0 none) rfl rfl rfl, (by decide), (by decide),
    (by decide), rfl, (by simp),
    (by
      intro s hs
      simp only [List.mem_cons, List.mem_singleton, List.not_mem_nil, or_false] at hs
      rcases hs with rfl | rfl | rfl | rfl
      · exact textErrors_sampleLua
      · exact textErrors_sampleBoomLua
      · exact textErrors_sampleEofLua
      · exact textErrors_sampleSumLua),
    (by decide),
    history_ring sampleConsts sampleAttachedState 3 1
      [(sampleLua, ['a']), (sampleBoomLua, ['b']), (sampleEofLua, ['c']), (sampleSumLua, ['d'])]
      (lockStep_congr (lockStep_new sampleConsts 0 none) rfl rfl rfl) (by decide) (by decide)
      (by decide) rfl (by simp)⟩


/-! ## The history file -/

theorem loadLoop_eq_foldl (size : Nat) :
    ∀ (fuel : Nat) (file : List Char) (buf : List (List Char)) (iter : Nat),
      loadLoop size fuel file buf iter = (getlines fuel file).foldl (loadStep size) (buf, iter) := by
  intro fuel
  induction fuel with
  | zero => intro file buf iter; rfl
  | succ fuel ih =>
    intro file buf iter
    rw [loadLoop, getlines]
    cases getline file with
    | none => rfl
    | some p =>
      obtain ⟨line, rest⟩ := p
      simp only [List.foldl_cons]
      exact ih _ _ _

theorem mod_shift_ne (N t d : Nat) (h1 : 0 < d) (h2 : d < N) : (t + d) % N ≠ t % N := by
  intro h
  have := Nat.sub_mod_eq_zero_of_mod_eq h
  rw [Nat.add_sub_cancel_left, Nat.mod_eq_of_lt h2] at this
  omega

/-- The ring kept by the reading loop: after `done` has been read, the slot
`(t + j) % N` holds element `t + j` of `N` empty strings followed by `done`. -/
theorem loadStep_ring (N : Nat) (hN : 0 < N) (lines : List (List Char)) :
    ∀ (done : List (List Char)) (buf : List (List Char)),
      buf.length = N →
      (∀ j, j < N → buf[(done.length + j) % N]? = (List.replicate N [] ++ done)[done.length + j]?) →
      ((lines.foldl (loadStep N) (buf, done.length)).1.length = N ∧
       (lines.foldl (loadStep N) (buf, done.length)).2 = done.length + lines.length ∧
       ∀ j, j < N →
        (lines.foldl (loadStep N) (buf, done.length)).1[(done.length + lines.length + j) % N]?
          = (List.replicate N [] ++ (done ++ lines))[done.length + lines.length + j]?) := by
  induction lines with
  | nil =>
    intro done buf hl hinv
    simp only [List.foldl_nil, List.length_nil, Nat.add_zero, List.append_nil]
    exact ⟨hl, trivial, hinv⟩
  | cons l lines ih =>
    intro done buf hl hinv
    have hstep := ih (done ++ [l]) (buf.set (done.length % N) l) (by simp [hl])
      (by
        intro j hj
        simp only [List.length_append, List.length_singleton]
        by_cases hlast : j = N - 1
        · have e : done.length + 1 + j = done.length + N := by omega
          rw [e, Nat.add_mod_right, List.getElem?_set_self (by rw [hl]; exact Nat.mod_lt _ hN)]
          rw [List.getElem?_append_right (by simp)]
          simp
        · have hne : done.length % N ≠ (done.length + 1 + j) % N := by
            rw [Nat.add_assoc]
            exact (mod_shift_ne N done.length (1 + j) (by omega) (by omega)).symm
          rw [List.getElem?_set_ne hne]
          have := hinv (1 + j) (by omega)
          have e : List.replicate N ([] : List Char) ++ (done ++ [l])
              = (List.replicate N [] ++ done) ++ [l] := (List.append_assoc _ _ _).symm
          rw [Nat.add_assoc, this, e]
          exact (List.getElem?_append_left
            (by rw [List.length_append, List.length_replicate]; omega)).symm)
    simp only [List.length_append, List.length_singleton] at hstep
    simp only [List.foldl_cons, List.length_cons]
    have e1 : loadStep N (buf, done.length) l = (buf.set (done.length % N) l, done.length + 1) := rfl
    have e2 : done.length + (lines.length + 1) = done.length + 1 + lines.length := by omega
    have e3 : done ++ l :: lines = done ++ [l] ++ lines := by simp
    rw [e1, e2, e3]
    exact hstep

theorem storeLoop_spec (buf : List (List Char)) (iter : Nat) :
    ∀ (n i : Nat) (history : List (List Char)),
      (storeLoop buf iter n i history).length = history.length ∧
      ∀ x, (storeLoop buf iter n i history)[x]? =
        if i ≤ x ∧ x < i + n ∧ x < history.length then
          some (buf.getD ((iter + x) % history.length) [])
        else history[x]? := by
  intro n
  induction n with
  | zero =>
    intro i history
    refine ⟨rfl, fun x => ?_⟩
    rw [storeLoop, if_neg (by omega)]
  | succ n ih =>
    intro i history
    obtain ⟨h1, h2⟩ := ih (i + 1) (history.set i (buf.getD ((iter + i) % history.length) []))
    rw [storeLoop]
    refine ⟨by rw [h1, List.length_set], fun x => ?_⟩
    rw [h2 x, List.length_set]
    by_cases hx : x = i
    · subst hx
      rw [if_neg (by omega)]
      by_cases hlt : x < history.length
      · rw [if_pos (by omega), List.getElem?_set_self hlt]
      · rw [if_neg (by omega), List.getElem?_eq_none (by rw [List.length_set]; omega),
          List.getElem?_eq_none (by omega)]
    · rw [List.getElem?_set_ne (fun e => hx e.symm)]
      by_cases hc : i + 1 ≤ x ∧ x < i + 1 + n ∧ x < history.length
      · rw [if_pos hc, if_pos (by omega)]
      · rw [if_neg hc, if_neg (by omega)]

theorem getline_rest_length (file line rest : List Char)
    (h : getline file = some (line, rest)) : rest.length < file.length := by
  unfold getline at h
  cases file with
  | nil => simp at h
  | cons c cs =>
    simp only [Option.some.injEq, Prod.mk.injEq] at h
    rw [← h.2, List.length_drop]
    have := (@List.dropWhile_sublist _ (c :: cs) (fun c => c != newline)).length_le
    simp only [List.length_cons] at this ⊢
    omega

theorem getlines_succ :
    ∀ (fuel : Nat) (file : List Char), file.length ≤ fuel →
      getlines (fuel + 1) file = getlines fuel file := by
  intro fuel
  induction fuel with
  | zero =>
    intro file h
    have : file = [] := List.length_eq_zero.1 (by omega)
    subst this; rfl
  | succ fuel ih =>
    intro file h
    rw [getlines, getlines]
    cases hg : getline file with
    | none => rfl
    | some p =>
      obtain ⟨line, rest⟩ := p
      have := getline_rest_length file line rest hg
      simp only
      rw [ih rest (by omega)]

/-- More fuel than the length of the stream does not change the lines read. -/
theorem getlines_fuel (file : List Char) :
    ∀ fuel, file.length ≤ fuel → getlines fuel file = streamLines file := by
  intro fuel h
  obtain ⟨d, rfl⟩ := Nat.exists_eq_add_of_le h
  unfold streamLines
  induction d with
  | zero => rfl
  | succ d ih => rw [← Nat.add_assoc, getlines_succ _ _ (by omega)]; exact ih (by omega)

/-- What `loadHistoryFromFile` leaves in the history when the stream holds a line. -/
theorem loadHistoryFromFile_lines (m : LuaConsoleModel) (bytes : List Char)
    (hN : 1 ≤ m.m_history.length) (hL : 1 ≤ (streamLines bytes).length) :
    loadHistoryFromFile (some bytes) m
      = ({ m with
            m_history := lastN m.m_history.length
              (List.replicate m.m_history.length [] ++ streamLines bytes) }, true) ∧
    (m.m_history.length ≤ (streamLines bytes).length →
      (loadHistoryFromFile (some bytes) m).1.m_history
        = lastN m.m_history.length (streamLines bytes)) ∧
    (∀ fuel, bytes.length ≤ fuel → getlines fuel bytes = streamLines bytes) := by
  have hring := loadStep_ring m.m_history.length (by omega) (streamLines bytes) []
    (List.replicate m.m_history.length []) (by simp)
    (by
      intro j hj
      simp only [List.length_nil, Nat.zero_add, List.append_nil]
      rw [Nat.mod_eq_of_lt hj])
  simp only [List.length_nil, Nat.zero_add, List.nil_append] at hring
  obtain ⟨hbl, hit, hslots⟩ := hring
  have hmain : loadHistoryFromFile (some bytes) m
      = ({ m with
            m_history := lastN m.m_history.length
              (List.replicate m.m_history.length [] ++ streamLines bytes) }, true) := by
    unfold loadHistoryFromFile
    simp only [getHistorySize]
    rw [if_neg (by omega), loadLoop_eq_foldl]
    have hfold : getlines bytes.length bytes = streamLines bytes := rfl
    rw [hfold]
    simp only [hit]
    rw [if_neg (by omega)]
    congr 2
    obtain ⟨hsl, hsx⟩ := storeLoop_spec
      (List.foldl (loadStep m.m_history.length) (List.replicate m.m_history.length [], 0)
        (streamLines bytes)).1 (streamLines bytes).length m.m_history.length 0 m.m_history
    apply List.ext_getElem?
    intro x
    rw [hsx x]
    unfold lastN
    rw [List.getElem?_drop]
    simp only [List.length_append, List.length_replicate, Nat.add_sub_cancel_left, Nat.zero_le,
      Nat.zero_add, true_and]
    by_cases hx : x < m.m_history.length
    · rw [if_pos ⟨hx, hx⟩, List.getD_eq_getElem?_getD, hslots x hx]
      have hlt : (streamLines bytes).length + x
          < (List.replicate m.m_history.length ([] : List Char) ++ streamLines bytes).length := by
        rw [List.length_append, List.length_replicate]; omega
      rw [List.getElem?_eq_getElem hlt]
      rfl
    · rw [if_neg (by omega), List.getElem?_eq_none (by omega),
        List.getElem?_eq_none (by rw [List.length_append, List.length_replicate]; omega)]
  refine ⟨hmain, ?_, getlines_fuel bytes⟩
  intro hge
  rw [hmain]
  simp only
  unfold lastN
  rw [List.length_append, List.length_replicate, Nat.add_sub_cancel_left]
  rw [List.drop_append_eq_append_drop, List.length_replicate]
  rw [List.drop_eq_nil_of_le (by rw [List.length_replicate]; omega)]
  simp

/-- C4: for every capacity `N >= 1` (the size of `m_history`) and every stream holding
`L >= 1` newline-delimited lines, `loadHistoryFromFile` succeeds and leaves the history
equal to the last `N` elements of `N` empty strings followed by the `L` lines read; when
`L >= N` the history is the last `N` lines of the stream in their original order.  The
loop stops because the stream is exhausted. -/
theorem loadHistoryFromFile_ring (m : LuaConsoleModel) (bytes : List Char)
    (hN : 1 ≤ m.m_history.length) (hL : 1 ≤ (streamLines bytes).length) :
    loadHistoryFromFile (some bytes) m
      = ({ m with
            m_history := lastN m.m_history.length
              (List.replicate m.m_history.length [] ++ streamLines bytes) }, true) ∧
    (m.m_history.length ≤ (streamLines bytes).length →
      (loadHistoryFromFile (some bytes) m).1.m_history
        = lastN m.m_history.length (streamLines bytes)) ∧
    (∀ fuel, bytes.length ≤ fuel → getlines fuel bytes = streamLines bytes) :=
  loadHistoryFromFile_lines m bytes hN hL

/-- Witness of C4: five lines read into a history of capacity 3. -/
theorem loadHistoryFromFile_ring_witness :
    1 ≤ (setHistorySize 3 (LuaConsoleModel.new sampleConsts 0 none)).m_history.length ∧
    1 ≤ (streamLines ['a', newline, 'b', newline, 'c', newline, 'd', newline, 'e']).length ∧
    (loadHistoryFromFile (some ['a', newline, 'b', newline, 'c', newline, 'd', newline, 'e'])
        (setHistorySize 3 (LuaConsoleModel.new sampleConsts 0 none))).1.m_history
      = [['c'], ['d'], ['e']] :=
  ⟨(by decide), (by decide),
    (loadHistoryFromFile_ring (setHistorySize 3 (LuaConsoleModel.new sampleConsts 0 none))
      ['a', newline, 'b', newline, 'c', newline, 'd', newline, 'e'] (by decide) (by decide)).2.1
      (by decide)⟩

theorem takeWhile_line (l rest : List Char) (h : ∀ c ∈ l, c ≠ newline) :
    (l ++ newline :: rest).takeWhile (fun c => c != newline) = l ∧
    (l ++ newline :: rest).dropWhile (fun c => c != newline) = newline :: rest := by
  induction l with
  | nil => simp [List.takeWhile, List.dropWhile]
  | cons c l ih =>
    have hc : (c != newline) = true := by simpa using h c (by simp)
    obtain ⟨h1, h2⟩ := ih (fun x hx => h x (List.mem_cons_of_mem _ hx))
    simp only [List.cons_append, List.takeWhile_cons, List.dropWhile_cons, hc, if_true, h1, h2,
      and_self]

theorem getline_of_ne_nil (file : List Char) (h : file ≠ []) :
    getline file = some (file.takeWhile (fun c => c != newline),
      (file.dropWhile (fun c => c != newline)).drop 1) := by
  cases file with
  | nil => exact absurd rfl h
  | cons c cs => rfl

theorem getlines_unlines (ls : List (List Char)) (h : ∀ l ∈ ls, ∀ c ∈ l, c ≠ newline) :
    ∀ fuel, (unlines ls).length ≤ fuel → getlines fuel (unlines ls) = ls := by
  induction ls with
  | nil => intro fuel _; cases fuel <;> rfl
  | cons l ls ih =>
    intro fuel hf
    have hu : unlines (l :: ls) = l ++ newline :: unlines ls := by simp [unlines]
    rw [hu] at hf ⊢
    obtain ⟨h1, h2⟩ := takeWhile_line l (unlines ls) (h l (by simp))
    cases fuel with
    | zero => simp at hf
    | succ fuel =>
      have hg : getline (l ++ newline :: unlines ls) = some (l, unlines ls) := by
        rw [getline_of_ne_nil _ (by simp), h1, h2]; rfl
      rw [getlines, hg]
      simp only
      rw [ih (fun x hx => h x (List.mem_cons_of_mem _ hx)) fuel
        (by simp only [List.length_append, List.length_cons] at hf; omega)]

theorem saveLoop_spec (m : LuaConsoleModel) :
    ∀ (n i : Nat) (file : List Char), i + n ≤ m.m_history.length →
      saveLoop m n i file = file ++ unlines ((m.m_history.drop i).take n) := by
  intro n
  induction n with
  | zero => intro i file _; simp [saveLoop, unlines]
  | succ n ih =>
    intro i file h
    rw [saveLoop, ih (i + 1) _ (by omega)]
    have hi : i < m.m_history.length := by omega
    have hitem : getHistoryItem i m = m.m_history[i] := by
      unfold getHistoryItem
      rw [if_pos hi, List.getD_eq_getElem?_getD, List.getElem?_eq_getElem hi]; rfl
    have hd : m.m_history.drop i = m.m_history[i] :: m.m_history.drop (i + 1) :=
      List.drop_eq_getElem_cons hi
    rw [hitem, hd, List.take_succ_cons]
    simp [unlines]

/-- C5: for every history of `N >= 1` entries none of which contains a newline
character, `saveHistoryToFile` with `append = false` (whatever the file held before)
followed by `loadHistoryFromFile` of the produced bytes into a model of the same capacity
yields exactly the same entries in the same order. -/
theorem save_load_round_trip (m m2 : LuaConsoleModel) (file0 : Option (List Char))
    (hN : 1 ≤ m.m_history.length) (hnl : ∀ e ∈ m.m_history, newline ∉ e)
    (hcap : m2.m_history.length = m.m_history.length) :
    ∃ bytes, saveHistoryToFile file0 false m = some bytes ∧
      loadHistoryFromFile (some bytes) m2 = ({ m2 with m_history := m.m_history }, true) := by
  have hsave : saveHistoryToFile file0 false m = some (unlines m.m_history) := by
    unfold saveHistoryToFile
    simp only [Bool.false_eq_true, if_false, getHistorySize]
    rw [saveLoop_spec m _ 0 [] (by omega)]
    simp
  have hlines : streamLines (unlines m.m_history) = m.m_history :=
    getlines_unlines m.m_history (fun l hl c hc e => hnl l hl (e ▸ hc)) _ (Nat.le_refl _)
  refine ⟨_, hsave, ?_⟩
  have := (loadHistoryFromFile_lines m2 (unlines m.m_history) (by omega)
    (by rw [hlines]; exact hN)).1
  rw [this, hlines, hcap]
  congr 2
  unfold lastN
  simp

/-- Witness of C5: the history `[ab, (empty), c]` saved over an existing file and loaded. -/
theorem save_load_round_trip_witness :
    1 ≤ sampleSavedState.m_history.length ∧
    (∀ e ∈ sampleSavedState.m_history, newline ∉ e) ∧
    (setHistorySize 3 (LuaConsoleModel.new sampleConsts 0 none)).m_history.length
      = sampleSavedState.m_history.length ∧
    ∃ bytes, saveHistoryToFile (some ['o', 'l', 'd', newline]) false sampleSavedState = some bytes ∧
      loadHistoryFromFile (some bytes) (setHistorySize 3 (LuaConsoleModel.new sampleConsts 0 none))
        = ({ setHistorySize 3 (LuaConsoleModel.new sampleConsts 0 none) with
              m_history := sampleSavedState.m_history }, true) :=
  ⟨(by decide), (by decide), (by decide),
    save_load_round_trip sampleSavedState
      (setHistorySize 3 (LuaConsoleModel.new sampleConsts 0 none)) (some ['o', 'l', 'd', newline])
      (by decide) (by decide) (by decide)⟩

set_option maxRecDepth 100000 in
/-- C6, the code at a failing input: a console constructed with the history option on a
history file holding `old` and then destroyed leaves a file that starts with an empty
line, so the previous content is not kept as a prefix: the file is truncated. -/
theorem destroy_truncates_history_file :
    destroy sampleConsts (some ['o', 'l', 'd', newline])
        (LuaConsoleModel.new sampleConsts 1 (some ['o', 'l', 'd', newline]))
      = some (List.replicate 99 newline ++ ['o', 'l', 'd', newline]) ∧
    ¬ (['o', 'l', 'd', newline] <+: List.replicate 99 newline ++ ['o', 'l', 'd', newline]) ∧
    saveHistoryToFile (some ['o', 'l', 'd', newline]) true
        (LuaConsoleModel.new sampleConsts 1 (some ['o', 'l', 'd', newline]))
      = some (['o', 'l', 'd', newline] ++ List.replicate 99 newline ++ ['o', 'l', 'd', newline]) := by
  refine ⟨by decide, by decide, by decide⟩


/-! ## Fuel of the loops of the line editor -/

/-- Scanning right, one more unit of fuel changes nothing once the fuel covers the
distance to the end of the line. -/
theorem findLoop_succ_right (line skips : List Char) :
    ∀ (fuel : Nat) (i : Int) (g : Bool), (line.length : Int) ≤ i + fuel →
      findLoop line skips 1 (fuel + 1) i g = findLoop line skips 1 fuel i g := by
  intro fuel
  induction fuel with
  | zero =>
    intro i g h
    simp only [findLoop]
    rw [if_neg (by omega)]
  | succ fuel ih =>
    intro i g h
    conv_lhs => rw [findLoop]
    conv_rhs => rw [findLoop]
    rw [ih (i + 1) g (by omega), ih (i + 1) true (by omega)]

/-- Scanning left, one more unit of fuel changes nothing once the fuel covers the
distance to the start of the line. -/
theorem findLoop_succ_left (line skips : List Char) :
    ∀ (fuel : Nat) (i : Int) (g : Bool), i < fuel →
      findLoop line skips (-1) (fuel + 1) i g = findLoop line skips (-1) fuel i g := by
  intro fuel
  induction fuel with
  | zero =>
    intro i g h
    simp only [findLoop]
    rw [if_neg (by omega)]
  | succ fuel ih =>
    intro i g h
    conv_lhs => rw [findLoop]
    conv_rhs => rw [findLoop]
    rw [ih (i + -1) g (by omega), ih (i + -1) true (by omega)]

/-- The fuel `line.length` is enough for `findFirstSkipCharAfterNonskip`: with a step
of `1` or `-1`, more fuel gives the same result. -/
theorem findFirstSkipCharAfterNonskip_fuel (line skips : List Char) (iter start : Int)
    (hiter : iter = 1 ∨ iter = -1) (extra : Nat) :
    findLoop line skips iter (line.length + extra) (start + iter) false
      = findFirstSkipCharAfterNonskip line skips iter start := by
  unfold findFirstSkipCharAfterNonskip
  induction extra with
  | zero => rfl
  | succ extra ih =>
    rw [← ih, ← Nat.add_assoc]
    rcases hiter with rfl | rfl
    · by_cases h0 : 0 ≤ start + 1
      · exact findLoop_succ_right line skips _ _ _ (by omega)
      · conv_lhs => rw [findLoop, if_neg (by omega)]
        cases hf : line.length + extra with
        | zero => rfl
        | succ f => rw [findLoop, if_neg (by omega)]
    · by_cases h0 : start + -1 < (line.length : Int)
      · exact findLoop_succ_left line skips _ _ _ (by omega)
      · conv_lhs => rw [findLoop, if_neg (by omega)]
        cases hf : line.length + extra with
        | zero => rfl
        | succ f => rw [findLoop, if_neg (by omega)]

/-- One more unit of fuel changes nothing once the fuel covers the distance between
the right edge of the window and the cursor. -/
theorem ensureLoop_succ (cur : Nat) (hcur : cur < 4294967296) :
    ∀ (fuel off : Nat), cur ≤ (off + kInnerWidth) % 4294967296 + fuel →
      ensureLoop cur (fuel + 1) off = ensureLoop cur fuel off := by
  intro fuel
  induction fuel with
  | zero =>
    intro off h
    simp only [ensureLoop]
    rw [if_neg (by omega)]
  | succ fuel ih =>
    intro off h
    conv_lhs => rw [ensureLoop]
    conv_rhs => rw [ensureLoop]
    split
    · rename_i hgt
      apply ih
      unfold incUnsigned kInnerWidth at *
      omega
    · rfl

/-- The fuel of `ensureCurInView` is enough: more fuel gives the same offset, and the
loop condition is false at the offset returned. -/
theorem ensureLoop_fuel (cur off : Nat) (hcur : cur < 4294967296) (extra : Nat) :
    ensureLoop cur (cur + extra) off = ensureLoop cur cur off ∧
    ¬ cur > (ensureLoop cur cur off + kInnerWidth) % 4294967296 := by
  constructor
  · induction extra with
    | zero => rfl
    | succ extra ih =>
      rw [← ih, ← Nat.add_assoc]
      exact ensureLoop_succ cur hcur _ _ (by omega)
  · have key : ∀ (fuel off : Nat), cur ≤ (off + kInnerWidth) % 4294967296 + fuel →
        ¬ cur > (ensureLoop cur fuel off + kInnerWidth) % 4294967296 := by
      intro fuel
      induction fuel with
      | zero => intro off h; rw [ensureLoop]; omega
      | succ fuel ih =>
        intro off h
        rw [ensureLoop]
        split
        · apply ih
          unfold incUnsigned kInnerWidth at *
          omega
        · assumption
    exact key cur off (by omega)

/-! ## The earlier variant: `setWidth` -/

theorem setWidthLoop_spec (w : Nat) :
    ∀ (msgs wide : List ColoredLine), (∀ msg ∈ msgs, msg.Text.length ≤ msg.Color.length) →
      lua.LuaConsoleModel.setWidthLoop w msgs wide
        = some (wide ++ (msgs.map (fun msg => wideMessagesOf msg w)).flatten) := by
  intro msgs
  induction msgs with
  | nil => intro wide _; simp [lua.LuaConsoleModel.setWidthLoop]
  | cons line rest ih =>
    intro wide hfit
    have hp := (pushWideMessages_of_fits line w wide (hfit line (by simp))).1
    rw [lua.LuaConsoleModel.setWidthLoop, hp]
    simp only
    rw [ih _ (fun msg hmsg => hfit msg (List.mem_cons_of_mem _ hmsg))]
    simp

/-- C11: for every state of the earlier variant whose retained messages have colours
for all of their text and every new width `w >= 1` (an `unsigned`), `setWidth(w)` is
carried out, leaves the logical messages unchanged, and makes the wrapped sequence the
concatenation, in order, of what `pushWideMessages` makes of each retained message at
width `w`, whatever the wrapped sequence held before; the dirty counter is incremented,
which makes it greater unless it wraps at `2 ^ 32`. -/
theorem setWidth_full_rewrap (m : lua.LuaConsoleModel) (w : Nat) (_hw : 1 ≤ w)
    (hw32 : w < 4294967296)
    (hfit : ∀ msg ∈ m.m_msg, msg.Text.length ≤ msg.Color.length) :
    ∃ m', m.setWidth w = some m' ∧ m'.m_msg = m.m_msg ∧ m'.m_w = w ∧
      m'.m_widemsg = (m.m_msg.map (fun msg => wideMessagesOf msg w)).flatten ∧
      (∀ msg ∈ m.m_msg, pushWideMessages msg (some []) w
        = some ((wideMessagesOf msg w).length, some (wideMessagesOf msg w))) ∧
      m'.m_dirtyness = incUnsigned m.m_dirtyness ∧
      (m.m_dirtyness < 4294967295 → m.m_dirtyness < m'.m_dirtyness) := by
  unfold lua.LuaConsoleModel.setWidth
  simp only
  rw [Nat.mod_eq_of_lt hw32, setWidthLoop_spec w m.m_msg [] hfit]
  refine ⟨_, rfl, rfl, rfl, by simp, ?_, rfl, ?_⟩
  · intro msg hmsg
    simpa using (pushWideMessages_of_fits msg w [] (hfit msg hmsg)).1
  · intro hd
    simp only [incUnsigned]
    omega

/-- Witness of C11: the message `ab\ncde`, wrapped at width 78 before, set to width 2. -/
theorem setWidth_full_rewrap_witness :
    1 ≤ 2 ∧ 2 < 4294967296 ∧
    (∀ msg ∈ lua.LuaConsoleModel.sampleState.m_msg, msg.Text.length ≤ msg.Color.length) ∧
    lua.LuaConsoleModel.sampleState.m_dirtyness < 4294967295 ∧
    ∃ m', lua.LuaConsoleModel.sampleState.setWidth 2 = some m' ∧
      m'.m_msg = lua.LuaConsoleModel.sampleState.m_msg ∧ m'.m_w = 2 ∧
      m'.m_widemsg = (lua.LuaConsoleModel.sampleState.m_msg.map
        (fun msg => wideMessagesOf msg 2)).flatten ∧
      (∀ msg ∈ lua.LuaConsoleModel.sampleState.m_msg, pushWideMessages msg (some []) 2
        = some ((wideMessagesOf msg 2).length, some (wideMessagesOf msg 2))) ∧
      m'.m_dirtyness = incUnsigned lua.LuaConsoleModel.sampleState.m_dirtyness ∧
      (lua.LuaConsoleModel.sampleState.m_dirtyness < 4294967295 →
        lua.LuaConsoleModel.sampleState.m_dirtyness < m'.m_dirtyness) :=
  ⟨(by decide), (by decide), (by decide), (by decide),
    setWidth_full_rewrap lua.LuaConsoleModel.sampleState 2 (by decide) (by decide) (by decide)⟩

/-! ## Scrolling -/

/-- The scroll offset and the dirty counter after `echoLine`, in a state with a
consistent scrollback. -/
theorem echoLine_scroll (k : Consts) (m : LuaConsoleModel) (str : List Char) (colors : List Nat)
    (h : LockStep m) :
    ∃ m', echoLine k str colors m = some m' ∧
      m'.m_firstmsg = min (max (wrapInt32 (m.m_firstmsg + k.kScrollLinesEnd))
        (21 - (m'.m_widemsg.length : Int))) 0 ∧
      m'.m_dirtyness = incUnsigned (incUnsigned m.m_dirtyness) := by
  obtain ⟨hfit, hwide, hcap⟩ := h
  have hl := resizeColorToFitText_fits
    ({ Text := if str.isEmpty then [' '] else str, Color := colors } : ColoredLine)
    (m.m_colors ECONSOLE_COLOR.ECC_ECHO)
  have hpush := (pushWideMessages_of_fits (echoedLine m str colors) m.m_w m.m_widemsg hl.2).1
  unfold echoLine
  simp only
  have e1 : ({ Text := if str.isEmpty then [' '] else str, Color := colors } :
      ColoredLine).resizeColorToFitText (m.m_colors ECONSOLE_COLOR.ECC_ECHO)
        = echoedLine m str colors := rfl
  rw [e1, hpush]
  simp only [List.length_append, List.length_singleton]
  by_cases hlt : m.m_msg.length < kMessagesKeptCount
  · rw [if_neg (by omega)]
    exact ⟨_, rfl, rfl, rfl⟩
  · have heq : m.m_msg.length = kMessagesKeptCount := by omega
    rw [if_pos (by omega)]
    cases hm : m.m_msg with
    | nil => rw [hm] at heq; simp [kMessagesKeptCount] at heq
    | cons first rest =>
      have hfirst : first.Text.length ≤ first.Color.length := hfit first (by simp [hm])
      have hcount := (pushWideMessages_of_fits first m.m_w [] hfirst).2
      have hwide' : m.m_widemsg = wideMessagesOf first m.m_w
          ++ (rest.map (fun msg => wideMessagesOf msg m.m_w)).flatten := by
        rw [hwide, hm]; simp
      simp only [List.cons_append, hcount]
      rw [if_pos (by rw [hwide']; simp; omega)]
      exact ⟨_, rfl, rfl, rfl⟩

theorem scrollClamp_scrollLines (m : LuaConsoleModel) (a : Int) :
    ScrollClamp (m.scrollLines a) := by
  unfold ScrollClamp scrollLines
  simp only
  omega

theorem scrollClamp_clearScreen (m : LuaConsoleModel) : ScrollClamp m.clearScreen := by
  unfold ScrollClamp clearScreen
  simp

theorem scrollClamp_echoLine (k : Consts) (m m' : LuaConsoleModel) (str : List Char)
    (colors : List Nat) (h : LockStep m) (he : echoLine k str colors m = some m') :
    ScrollClamp m' := by
  obtain ⟨m1, h1, hf, _⟩ := echoLine_scroll k m str colors h
  rw [h1] at he
  simp only [Option.some.injEq] at he
  subst he
  unfold ScrollClamp
  rw [hf]
  omega

theorem runViewOps_clamp (k : Consts) (ops : List ViewOp) :
    ∀ m0 : LuaConsoleModel, LockStep m0 → ScrollClamp m0 →
      ∃ m, runViewOps k ops m0 = some m ∧ LockStep m ∧ ScrollClamp m := by
  induction ops with
  | nil => intro m0 h0 hc; exact ⟨m0, rfl, h0, hc⟩
  | cons op ops ih =>
    intro m0 h0 hc
    cases op with
    | scrollLines a =>
      obtain ⟨m, hm, hl, hcl⟩ := ih (m0.scrollLines a) (lockStep_congr h0 rfl rfl rfl)
        (scrollClamp_scrollLines m0 a)
      exact ⟨m, by simp only [runViewOps, ViewOp.run]; exact hm, hl, hcl⟩
    | echoLine str colors =>
      obtain ⟨m1, h1, hl1, _⟩ := echoLine_spec k m0 str colors h0
      obtain ⟨m, hm, hl, hcl⟩ := ih m1 hl1 (scrollClamp_echoLine k m0 m1 str colors h0 h1)
      exact ⟨m, by simp only [runViewOps, ViewOp.run, h1]; exact hm, hl, hcl⟩
    | clearScreen =>
      obtain ⟨m, hm, hl, hcl⟩ := ih m0.clearScreen (lockStep_clearScreen m0)
        (scrollClamp_clearScreen m0)
      exact ⟨m, by simp only [runViewOps, ViewOp.run]; exact hm, hl, hcl⟩

/-- C12: with `n` the number of wide messages and a viewport of 21 rows: after
`scrollLines(a)`, for any state and any amount `a`, `min(0, 21 - n) <= m_firstmsg <= 0`;
the same holds in every state reached by `scrollLines`, `echoLine` and `clearScreen`
calls from a state that has it and a consistent scrollback (a freshly constructed
console is one), and there, when `n >= 21`, every viewport row `i` in `1..21` shows an
index `n + (i - 22) + m_firstmsg` inside `[0, n)`.  Every `echoLine` leaves
`m_firstmsg == 0`, provided the header constant `kScrollLinesEnd` is an `int` at least as
large as the distance scrolled back. -/
theorem scroll_clamp_invariant (k : Consts) :
    (∀ (m : LuaConsoleModel) (a : Int),
      min 0 (21 - ((m.scrollLines a).m_widemsg.length : Int)) ≤ (m.scrollLines a).m_firstmsg ∧
      (m.scrollLines a).m_firstmsg ≤ 0) ∧
    (∀ (m0 : LuaConsoleModel) (ops : List ViewOp), LockStep m0 → ScrollClamp m0 →
      ∃ m, runViewOps k ops m0 = some m ∧
        min 0 (21 - (m.m_widemsg.length : Int)) ≤ m.m_firstmsg ∧ m.m_firstmsg ≤ 0 ∧
        (21 ≤ m.m_widemsg.length → ∀ i : Int, 1 ≤ i → i ≤ 21 →
          0 ≤ (m.m_widemsg.length : Int) + (i - 22) + m.m_firstmsg ∧
          (m.m_widemsg.length : Int) + (i - 22) + m.m_firstmsg < (m.m_widemsg.length : Int))) ∧
    (∀ (m : LuaConsoleModel) (str : List Char) (colors : List Nat), LockStep m →
      m.m_firstmsg ≤ 0 → -k.kScrollLinesEnd ≤ m.m_firstmsg → k.kScrollLinesEnd < 2147483648 →
      ∃ m', echoLine k str colors m = some m' ∧ m'.m_firstmsg = 0) := by
  refine ⟨fun m a => scrollClamp_scrollLines m a, ?_, ?_⟩
  · intro m0 ops h0 hc
    obtain ⟨m, hm, _, hcl⟩ := runViewOps_clamp k ops m0 h0 hc
    unfold ScrollClamp at hcl
    refine ⟨m, hm, hcl.1, hcl.2, ?_⟩
    intro hn i hi1 hi2
    omega
  · intro m str colors hl h1 h2 h3
    obtain ⟨m', he, hf, _⟩ := echoLine_scroll k m str colors hl
    refine ⟨m', he, ?_⟩
    rw [hf, wrapInt32_of_range _ (by omega) (by omega)]
    omega

/-- Witness of C12: a fresh console, two messages echoed, then scrolled back by five. -/
theorem scroll_clamp_invariant_witness :
    LockStep (LuaConsoleModel.new sampleConsts 0 none) ∧
    ScrollClamp (LuaConsoleModel.new sampleConsts 0 none) ∧
    (LuaConsoleModel.new sampleConsts 0 none).m_firstmsg ≤ 0 ∧
    -sampleConsts.kScrollLinesEnd ≤ (LuaConsoleModel.new sampleConsts 0 none).m_firstmsg ∧
    sampleConsts.kScrollLinesEnd < 2147483648 ∧
    (∃ m, runViewOps sampleConsts
        [ViewOp.echoLine ['h', 'i'] [], ViewOp.echoLine ['y', 'o'] [], ViewOp.scrollLines (-5)]
        (LuaConsoleModel.new sampleConsts 0 none) = some m ∧
      min 0 (21 - (m.m_widemsg.length : Int)) ≤ m.m_firstmsg ∧ m.m_firstmsg ≤ 0 ∧
      (21 ≤ m.m_widemsg.length → ∀ i : Int, 1 ≤ i → i ≤ 21 →
        0 ≤ (m.m_widemsg.length : Int) + (i - 22) + m.m_firstmsg ∧
        (m.m_widemsg.length : Int) + (i - 22) + m.m_firstmsg < (m.m_widemsg.length : Int))) ∧
    ∃ m', echoLine sampleConsts ['h', 'i'] [] (LuaConsoleModel.new sampleConsts 0 none) = some m' ∧
      m'.m_firstmsg = 0 :=
  ⟨⟨(by intro msg hmsg; cases hmsg), rfl, (by decide)⟩, ⟨(by decide), (by decide)⟩,
    (by decide), (by decide), (by decide),
    (scroll_clamp_invariant sampleConsts).2.1 (LuaConsoleModel.new sampleConsts 0 none) _
      ⟨(by intro msg hmsg; cases hmsg), rfl, (by decide)⟩ ⟨(by decide), (by decide)⟩,
    (scroll_clamp_invariant sampleConsts).2.2 (LuaConsoleModel.new sampleConsts 0 none)
      ['h', 'i'] [] ⟨(by intro msg hmsg; cases hmsg), rfl, (by decide)⟩
      (by decide) (by decide) (by decide)⟩

/-! ## Reading the wide messages -/

/-- The index `getWideMsg` computes is the intended one, or falls outside the vector
when the intended one does. -/
theorem wideIndex_spec (n i s : Int) (hn0 : 0 ≤ n) (hn : n < 2147483648)
    (hi1 : -2147483648 ≤ i) (hi2 : i < 2147483648)
    (hs1 : -2147483648 ≤ s) (hs2 : s < 2147483648) :
    (0 ≤ (if i < 0 then n + i else i) + s → (if i < 0 then n + i else i) + s < n →
      wrapInt32 ((if i < 0 then wrapInt32 (n + i) else i) + s)
        = (if i < 0 then n + i else i) + s) ∧
    ((if i < 0 then n + i else i) + s < 0 ∨ n ≤ (if i < 0 then n + i else i) + s →
      wrapInt32 ((if i < 0 then wrapInt32 (n + i) else i) + s) < 0 ∨
      n ≤ wrapInt32 ((if i < 0 then wrapInt32 (n + i) else i) + s)) := by
  unfold wrapInt32
  split <;> constructor <;> intros <;> omega

/-- What `getWideMsg` and `getWideColor` return at the index `i`. -/
theorem getWideMsg_lookup (m : LuaConsoleModel) (i : Int)
    (hi : -2147483648 ≤ i ∧ i < 2147483648)
    (hs : -2147483648 ≤ m.m_firstmsg ∧ m.m_firstmsg < 2147483648)
    (hn : (m.m_widemsg.length : Int) < 2147483648)
    (hempty : m.m_empty = { Text := [], Color := [] }) :
    (0 ≤ (if i < 0 then (m.m_widemsg.length : Int) + i else i) + m.m_firstmsg →
      (if i < 0 then (m.m_widemsg.length : Int) + i else i) + m.m_firstmsg
        < (m.m_widemsg.length : Int) →
      ∃ f, m.m_widemsg[((if i < 0 then (m.m_widemsg.length : Int) + i else i)
              + m.m_firstmsg).toNat]? = some f ∧
        m.getWideMsg i = f.Text ∧ m.getWideColor i = f.Color) ∧
    ((if i < 0 then (m.m_widemsg.length : Int) + i else i) + m.m_firstmsg < 0 ∨
      (m.m_widemsg.length : Int)
        ≤ (if i < 0 then (m.m_widemsg.length : Int) + i else i) + m.m_firstmsg →
      m.getWideMsg i = [] ∧ m.getWideColor i = []) := by
  obtain ⟨hin, hout⟩ := wideIndex_spec (m.m_widemsg.length : Int) i m.m_firstmsg
    (by omega) hn hi.1 hi.2 hs.1 hs.2
  constructor
  · intro h0 h1
    have hw := hin h0 h1
    have hlt : ((if i < 0 then (m.m_widemsg.length : Int) + i else i) + m.m_firstmsg).toNat
        < m.m_widemsg.length := by omega
    refine ⟨m.m_widemsg[((if i < 0 then (m.m_widemsg.length : Int) + i else i)
      + m.m_firstmsg).toNat], List.getElem?_eq_getElem hlt, ?_, ?_⟩
    · unfold getWideMsg
      simp only [hw]
      rw [if_neg (by omega), List.getD_eq_getElem?_getD, List.getElem?_eq_getElem hlt]
      rfl
    · unfold getWideColor
      simp only [hw]
      rw [if_neg (by omega), List.getD_eq_getElem?_getD, List.getElem?_eq_getElem hlt]
      rfl
  · intro hp
    have hw := hout hp
    constructor
    · unfold getWideMsg
      simp only
      rw [if_pos hw, hempty]
    · unfold getWideColor
      simp only
      rw [if_pos hw, hempty]

/-- C13: for every `int` index `i` and every state with `n` wrapped fragments (`n`
fitting an `int`), scroll offset `s` and the empty sentinel `m_empty`: with
`p = (i < 0 ? n + i : i) + s`, `getWideMsg(i)` and `getWideColor(i)` return the text and
the colour of fragment number `p` when `0 <= p < n` and the empty text and colour
otherwise; both are total functions.  With `s == 0`, `getWideMsg(-1)` is the newest
fragment. -/
theorem getWideMsg_total (m : LuaConsoleModel) (i : Int)
    (hi : -2147483648 ≤ i ∧ i < 2147483648)
    (hs : -2147483648 ≤ m.m_firstmsg ∧ m.m_firstmsg < 2147483648)
    (hn : (m.m_widemsg.length : Int) < 2147483648)
    (hempty : m.m_empty = { Text := [], Color := [] }) :
    (0 ≤ (if i < 0 then (m.m_widemsg.length : Int) + i else i) + m.m_firstmsg →
      (if i < 0 then (m.m_widemsg.length : Int) + i else i) + m.m_firstmsg
        < (m.m_widemsg.length : Int) →
      ∃ f, m.m_widemsg[((if i < 0 then (m.m_widemsg.length : Int) + i else i)
              + m.m_firstmsg).toNat]? = some f ∧
        m.getWideMsg i = f.Text ∧ m.getWideColor i = f.Color) ∧
    ((if i < 0 then (m.m_widemsg.length : Int) + i else i) + m.m_firstmsg < 0 ∨
      (m.m_widemsg.length : Int)
        ≤ (if i < 0 then (m.m_widemsg.length : Int) + i else i) + m.m_firstmsg →
      m.getWideMsg i = [] ∧ m.getWideColor i = []) ∧
    (m.m_firstmsg = 0 → ∀ f, m.m_widemsg.getLast? = some f →
      m.getWideMsg (-1) = f.Text ∧ m.getWideColor (-1) = f.Color) := by
  refine ⟨(getWideMsg_lookup m i hi hs hn hempty).1, (getWideMsg_lookup m i hi hs hn hempty).2, ?_⟩
  intro hs0 f hf
  have hne : m.m_widemsg ≠ [] := by
    intro hnil; rw [hnil] at hf; simp at hf
  have hpos : 0 < m.m_widemsg.length := List.length_pos.2 hne
  obtain ⟨g, hg, h1, h2⟩ := (getWideMsg_lookup m (-1) (by omega) hs hn hempty).1
    (by simp only [hs0]; omega) (by simp only [hs0]; omega)
  have hidx : ((if (-1 : Int) < 0 then (m.m_widemsg.length : Int) + -1 else -1)
      + m.m_firstmsg).toNat = m.m_widemsg.length - 1 := by
    simp only [hs0]; omega
  rw [hidx] at hg
  rw [List.getLast?_eq_getElem?, hg] at hf
  simp only [Option.some.injEq] at hf
  subst hf
  exact ⟨h1, h2⟩

/-- Witness of C13: three fragments, scroll offset `-1`, index `-1`: the fragment `b`. -/
theorem getWideMsg_total_witness :
    (-2147483648 ≤ (-1 : Int) ∧ (-1 : Int) < 2147483648) ∧
    (-2147483648 ≤ sampleWideState.m_firstmsg ∧ sampleWideState.m_firstmsg < 2147483648) ∧
    (sampleWideState.m_widemsg.length : Int) < 2147483648 ∧
    sampleWideState.m_empty = { Text := [], Color := [] } ∧
    0 ≤ (if (-1 : Int) < 0 then (sampleWideState.m_widemsg.length : Int) + -1 else -1)
        + sampleWideState.m_firstmsg ∧
    (if (-1 : Int) < 0 then (sampleWideState.m_widemsg.length : Int) + -1 else -1)
        + sampleWideState.m_firstmsg < (sampleWideState.m_widemsg.length : Int) ∧
    ∃ f, sampleWideState.m_widemsg[((if (-1 : Int) < 0
            then (sampleWideState.m_widemsg.length : Int) + -1 else -1)
            + sampleWideState.m_firstmsg).toNat]? = some f ∧
      sampleWideState.getWideMsg (-1) = f.Text ∧ sampleWideState.getWideColor (-1) = f.Color :=
  ⟨(by decide), (by decide), (by decide), rfl, (by decide), (by decide),
    (getWideMsg_total sampleWideState (-1) (by decide) (by decide) (by decide) rfl).1
      (by decide) (by decide)⟩

/-! ## Moving by words -/

/-- What the scan to the left returns when it returns an index: a skip character,
with only non-skip characters between it and the first non-skip character met. -/
theorem findLoop_left_spec (line skips : List Char) :
    ∀ (fuel : Nat) (i : Int) (g : Bool), findLoop line skips (-1) fuel i g ≠ -1 →
      0 ≤ findLoop line skips (-1) fuel i g ∧ findLoop line skips (-1) fuel i g ≤ i ∧
      i < line.length ∧
      isSkipChar (line.getD (findLoop line skips (-1) fuel i g).toNat nul) skips = true ∧
      (g = true → ∀ j : Int, findLoop line skips (-1) fuel i g < j → j ≤ i →
        isSkipChar (line.getD j.toNat nul) skips = false) ∧
      (g = false → ∃ q : Int, findLoop line skips (-1) fuel i g < q ∧ q ≤ i ∧
        (∀ j : Int, findLoop line skips (-1) fuel i g < j → j ≤ q →
          isSkipChar (line.getD j.toNat nul) skips = false) ∧
        (∀ j : Int, q < j → j ≤ i → isSkipChar (line.getD j.toNat nul) skips = true)) := by
  intro fuel
  induction fuel with
  | zero => intro i g h; exact absurd rfl h
  | succ fuel ih =>
    intro i g
    rw [findLoop]
    split
    · rename_i hin
      cases g with
      | true =>
        simp only [if_true]
        split
        · rename_i hskip
          intro _
          refine ⟨hin.1, Int.le_refl _, hin.2, hskip, ?_, ?_⟩
          · intro _ j h1 h2; omega
          · intro hc; cases hc
        · rename_i hskip
          intro hne
          obtain ⟨h1, h2, h3, h4, h5, _⟩ := ih (i + -1) true hne
          refine ⟨h1, by omega, hin.2, h4, ?_, ?_⟩
          · intro _ j hj1 hj2
            by_cases hji : j = i
            · subst hji; simpa using hskip
            · exact h5 rfl j hj1 (by omega)
          · intro hc; cases hc
      | false =>
        simp only [Bool.false_eq_true, if_false]
        split
        · rename_i hskip
          intro hne
          obtain ⟨h1, h2, h3, h4, h5, _⟩ := ih (i + -1) true hne
          have hsk : isSkipChar (line.getD i.toNat nul) skips = false := by simpa using hskip
          refine ⟨h1, by omega, hin.2, h4, ?_, ?_⟩
          · intro hc; cases hc
          · intro _
            refine ⟨i, by omega, Int.le_refl _, ?_, ?_⟩
            · intro j hj1 hj2
              by_cases hji : j = i
              · subst hji; exact hsk
              · exact h5 rfl j hj1 (by omega)
            · intro j hj1 hj2; omega
        · rename_i hskip
          intro hne
          obtain ⟨h1, h2, h3, h4, _, h6⟩ := ih (i + -1) false hne
          obtain ⟨q, hq1, hq2, hq3, hq4⟩ := h6 rfl
          have hsk : isSkipChar (line.getD i.toNat nul) skips = true := by simpa using hskip
          refine ⟨h1, by omega, hin.2, h4, ?_, ?_⟩
          · intro hc; cases hc
          · intro _
            refine ⟨q, hq1, by omega, hq3, ?_⟩
            intro j hj1 hj2
            by_cases hji : j = i
            · subst hji; exact hsk
            · exact hq4 j hj1 (by omega)
    · intro h; exact absurd rfl h

theorem moveCursorOneWord_left_cur (k : Consts) (m : LuaConsoleModel) :
    (findFirstSkipCharAfterNonskip m.m_lastline m.m_skipchars (-1) (m.m_cur - 1) ≠ -1 →
      (m.moveCursorOneWord k EMOVE_DIRECTION.EMD_LEFT).m_cur
        = findFirstSkipCharAfterNonskip m.m_lastline m.m_skipchars (-1) (m.m_cur - 1) + 2) ∧
    (findFirstSkipCharAfterNonskip m.m_lastline m.m_skipchars (-1) (m.m_cur - 1) = -1 →
      (m.moveCursorOneWord k EMOVE_DIRECTION.EMD_LEFT).m_cur
        = min ((m.m_lastline.length : Int) + 1) (max (wrapInt32 (m.m_cur + k.kCursorHome)) 1)) ∧
    (m.moveCursorOneWord k EMOVE_DIRECTION.EMD_LEFT).m_lastline = m.m_lastline ∧
    (m.moveCursorOneWord k EMOVE_DIRECTION.EMD_LEFT).m_skipchars = m.m_skipchars := by
  unfold moveCursorOneWord
  simp only [if_true]
  by_cases h : findFirstSkipCharAfterNonskip m.m_lastline m.m_skipchars (-1) (m.m_cur - 1) = -1
  · rw [if_pos h]
    unfold moveCursor ensureCurInView
    simp only
    refine ⟨fun hc => absurd h hc, fun _ => ?_, ?_, ?_⟩ <;> split <;> rfl
  · rw [if_neg h]
    unfold ensureCurInView
    simp only
    refine ⟨fun _ => ?_, fun hc => absurd hc h, ?_, ?_⟩
    · split <;> (simp only; omega)
    · split <;> rfl
    · split <;> rfl

/-- C14: for every line, skip-character set and cursor: if `findFirstSkipCharAfterNonskip`
scanning left from `m_cur - 1` finds an index `r`, then `line[r]` is a skip character,
there is a first non-skip character `line[q]` met by the scan (all characters after it up
to the start of the scan are skip characters) and every character from `r + 1` to `q` is
a non-skip character, and `moveCursorOneWord(left)` sets the cursor to `r + 2`; if the
scan finds nothing the cursor goes to `1`, provided the header constant `kCursorHome`
carries the cursor to or below `1`.  With the line `foo bar baz`, the default skip
characters and the cursor at 12, the first call gives cursor 9 and the second cursor 5. -/
theorem word_move_left (k : Consts) :
    (∀ m : LuaConsoleModel,
      (findFirstSkipCharAfterNonskip m.m_lastline m.m_skipchars (-1) (m.m_cur - 1) ≠ -1 →
        0 ≤ findFirstSkipCharAfterNonskip m.m_lastline m.m_skipchars (-1) (m.m_cur - 1) ∧
        findFirstSkipCharAfterNonskip m.m_lastline m.m_skipchars (-1) (m.m_cur - 1)
          < m.m_lastline.length ∧
        isSkipChar (m.m_lastline.getD
          (findFirstSkipCharAfterNonskip m.m_lastline m.m_skipchars (-1) (m.m_cur - 1)).toNat nul)
          m.m_skipchars = true ∧
        (∃ q : Int,
          findFirstSkipCharAfterNonskip m.m_lastline m.m_skipchars (-1) (m.m_cur - 1) < q ∧
          q ≤ m.m_cur - 2 ∧ q < m.m_lastline.length ∧
          (∀ j : Int,
            findFirstSkipCharAfterNonskip m.m_lastline m.m_skipchars (-1) (m.m_cur - 1) < j →
            j ≤ q → isSkipChar (m.m_lastline.getD j.toNat nul) m.m_skipchars = false) ∧
          (∀ j : Int, q < j → j ≤ m.m_cur - 2 →
            isSkipChar (m.m_lastline.getD j.toNat nul) m.m_skipchars = true)) ∧
        (m.moveCursorOneWord k EMOVE_DIRECTION.EMD_LEFT).m_cur
          = findFirstSkipCharAfterNonskip m.m_lastline m.m_skipchars (-1) (m.m_cur - 1) + 2) ∧
      (findFirstSkipCharAfterNonskip m.m_lastline m.m_skipchars (-1) (m.m_cur - 1) = -1 →
        wrapInt32 (m.m_cur + k.kCursorHome) ≤ 1 →
        (m.moveCursorOneWord k EMOVE_DIRECTION.EMD_LEFT).m_cur = 1)) ∧
    (∀ m : LuaConsoleModel,
      m.m_lastline = ['f', 'o', 'o', ' ', 'b', 'a', 'r', ' ', 'b', 'a', 'z'] →
      m.m_skipchars = kDefaultSkipChars → m.m_cur = 12 →
      (m.moveCursorOneWord k EMOVE_DIRECTION.EMD_LEFT).m_cur = 9 ∧
      ((m.moveCursorOneWord k EMOVE_DIRECTION.EMD_LEFT).moveCursorOneWord k
        EMOVE_DIRECTION.EMD_LEFT).m_cur = 5) := by
  constructor
  · intro m
    obtain ⟨hfound, hhome, _, _⟩ := moveCursorOneWord_left_cur k m
    constructor
    · intro hne
      have hspec := findLoop_left_spec m.m_lastline m.m_skipchars m.m_lastline.length
        (m.m_cur - 1 + -1) false hne
      obtain ⟨h1, h2, h3, h4, _, h6⟩ := hspec
      obtain ⟨q, hq1, hq2, hq3, hq4⟩ := h6 rfl
      refine ⟨h1, ?_, h4, ⟨q, hq1, by omega, by omega, hq3, ?_⟩, hfound hne⟩
      · unfold findFirstSkipCharAfterNonskip; omega
      · intro j hj1 hj2; exact hq4 j hj1 (by omega)
    · intro hnone hk
      rw [hhome hnone]
      omega
  · intro m hline hskip hcur
    obtain ⟨hfound, _, hl1, hs1⟩ := moveCursorOneWord_left_cur k m
    have e1 : findFirstSkipCharAfterNonskip m.m_lastline m.m_skipchars (-1) (m.m_cur - 1) = 7 := by
      rw [hline, hskip, hcur]; decide
    have c1 : (m.moveCursorOneWord k EMOVE_DIRECTION.EMD_LEFT).m_cur = 9 := by
      rw [hfound (by rw [e1]; decide), e1]; rfl
    obtain ⟨hfound2, _, _, _⟩ :=
      moveCursorOneWord_left_cur k (m.moveCursorOneWord k EMOVE_DIRECTION.EMD_LEFT)
    have e2 : findFirstSkipCharAfterNonskip
        (m.moveCursorOneWord k EMOVE_DIRECTION.EMD_LEFT).m_lastline
        (m.moveCursorOneWord k EMOVE_DIRECTION.EMD_LEFT).m_skipchars (-1)
        ((m.moveCursorOneWord k EMOVE_DIRECTION.EMD_LEFT).m_cur - 1) = 3 := by
      rw [hl1, hs1, c1, hline, hskip]; decide
    refine ⟨c1, ?_⟩
    rw [hfound2 (by rw [e2]; decide), e2]; rfl

/-- Witness of C14: the line `foo bar baz` with the cursor at 12, and the line `x` with
the cursor at 2, where the scan finds nothing. -/
theorem word_move_left_witness :
    findFirstSkipCharAfterNonskip sampleWordState.m_lastline sampleWordState.m_skipchars (-1)
        (sampleWordState.m_cur - 1) ≠ -1 ∧
    sampleWordState.m_lastline = ['f', 'o', 'o', ' ', 'b', 'a', 'r', ' ', 'b', 'a', 'z'] ∧
    sampleWordState.m_skipchars = kDefaultSkipChars ∧ sampleWordState.m_cur = 12 ∧
    (sampleWordState.moveCursorOneWord sampleConsts EMOVE_DIRECTION.EMD_LEFT).m_cur
      = findFirstSkipCharAfterNonskip sampleWordState.m_lastline sampleWordState.m_skipchars (-1)
          (sampleWordState.m_cur - 1) + 2 ∧
    (sampleWordState.moveCursorOneWord sampleConsts EMOVE_DIRECTION.EMD_LEFT).m_cur = 9 ∧
    ((sampleWordState.moveCursorOneWord sampleConsts EMOVE_DIRECTION.EMD_LEFT).moveCursorOneWord
      sampleConsts EMOVE_DIRECTION.EMD_LEFT).m_cur = 5 ∧
    findFirstSkipCharAfterNonskip sampleBrowseState.m_lastline sampleBrowseState.m_skipchars (-1)
        (sampleBrowseState.m_cur - 1) = -1 ∧
    wrapInt32 (sampleBrowseState.m_cur + sampleConsts.kCursorHome) ≤ 1 ∧
    (sampleBrowseState.moveCursorOneWord sampleConsts EMOVE_DIRECTION.EMD_LEFT).m_cur = 1 :=
  ⟨(by decide), rfl, rfl, rfl,
    (((word_move_left sampleConsts).1 sampleWordState).1 (by decide)).2.2.2.2,
    ((word_move_left sampleConsts).2 sampleWordState rfl rfl rfl).1,
    ((word_move_left sampleConsts).2 sampleWordState rfl rfl rfl).2,
    (by decide), (by decide),
    ((word_move_left sampleConsts).1 sampleBrowseState).2 (by decide) (by decide)⟩

/-! ## Claims on single methods -/

/-- C16: for every state whose cursor `c` lies in `[1, len + 1]` and every character
`ch`: if `ch` is outside the printable range (code below 32 or at least 127, which
covers the negative values of a signed `char`), `addChar(ch)` leaves the whole state
unchanged; otherwise the new line is the old one with `ch` inserted at the 0-based
position `c - 1` (one character longer, the others in their order) and the new cursor
is `c + 1`. -/
theorem addChar_contract (m : LuaConsoleModel) (ch : Char) (h : CursorOk m) :
    (ch.toNat < 32 ∨ 127 ≤ ch.toNat → m.addChar ch = some m) ∧
    (32 ≤ ch.toNat → ch.toNat < 127 →
      ∃ m', m.addChar ch = some m' ∧
        m'.m_lastline = m.m_lastline.take (m.m_cur - 1).toNat
          ++ ch :: m.m_lastline.drop (m.m_cur - 1).toNat ∧
        m'.m_lastline.length = m.m_lastline.length + 1 ∧
        m'.m_lastline[(m.m_cur - 1).toNat]? = some ch ∧
        m'.m_lastline.eraseIdx (m.m_cur - 1).toNat = m.m_lastline ∧
        m'.m_cur = m.m_cur + 1) := by
  unfold CursorOk at h
  constructor
  · intro hout
    unfold addChar
    rw [if_pos (by omega)]
  · intro h1 h2
    have hi : insertAt m.m_lastline (m.m_cur - 1) ch
        = some (m.m_lastline.take (m.m_cur - 1).toNat
            ++ ch :: m.m_lastline.drop (m.m_cur - 1).toNat) := by
      unfold insertAt; rw [if_pos (by omega)]
    have hlen : (m.m_lastline.take (m.m_cur - 1).toNat).length = (m.m_cur - 1).toNat := by
      rw [List.length_take]; omega
    unfold addChar
    rw [if_neg (by omega), hi]
    refine ⟨_, rfl, ?_, ?_, ?_, ?_, ?_⟩
    · simp only [ensureCurInView_lastline]
    · simp only [ensureCurInView_lastline, List.length_append, List.length_cons,
        List.length_take, List.length_drop]
      omega
    · simp only [ensureCurInView_lastline]
      rw [List.getElem?_append_right (by omega), hlen]
      simp
    · simp only [ensureCurInView_lastline]
      rw [List.eraseIdx_append_of_length_le (by omega), hlen]
      simp
    · simp only [ensureCurInView_cur]

/-- Witness of C16: the letter `a` typed at the end of the line `x`. -/
theorem addChar_contract_witness :
    CursorOk sampleBrowseState ∧ 32 ≤ 'a'.toNat ∧ 'a'.toNat < 127 ∧
    ∃ m', sampleBrowseState.addChar 'a' = some m' ∧
      m'.m_lastline = sampleBrowseState.m_lastline.take (sampleBrowseState.m_cur - 1).toNat
        ++ 'a' :: sampleBrowseState.m_lastline.drop (sampleBrowseState.m_cur - 1).toNat ∧
      m'.m_lastline.length = sampleBrowseState.m_lastline.length + 1 ∧
      m'.m_lastline[(sampleBrowseState.m_cur - 1).toNat]? = some 'a' ∧
      m'.m_lastline.eraseIdx (sampleBrowseState.m_cur - 1).toNat = sampleBrowseState.m_lastline ∧
      m'.m_cur = sampleBrowseState.m_cur + 1 :=
  ⟨⟨(by decide), (by decide)⟩, (by decide), (by decide),
    (addChar_contract sampleBrowseState 'a' ⟨(by decide), (by decide)⟩).2 (by decide) (by decide)⟩

/-! ## The window of the line editor -/

theorem toUnsigned_of_range (x : Int) (h1 : 0 ≤ x) (h2 : x < 4294967296) :
    ((toUnsigned x : Nat) : Int) = x := by
  unfold toUnsigned
  rw [Int.emod_eq_of_lt h1 h2]
  exact Int.toNat_of_nonneg h1

/-- The offset the loop of `ensureCurInView` ends with, when the fuel covers the distance
between the right edge of the window and the cursor. -/
theorem ensureLoop_spec (cur : Nat) (hcur : cur < 2147483648) :
    ∀ (fuel off : Nat), off < cur → cur ≤ off + kInnerWidth + fuel →
      ensureLoop cur fuel off = max off (cur - kInnerWidth) := by
  intro fuel
  induction fuel with
  | zero =>
    intro off h1 h2
    rw [ensureLoop]
    unfold kInnerWidth at *
    omega
  | succ fuel ih =>
    intro off h1 h2
    rw [ensureLoop]
    split
    · rename_i hgt
      have hoff : (off + kInnerWidth) % 4294967296 = off + kInnerWidth := by
        unfold kInnerWidth; omega
      rw [hoff] at hgt
      have hinc : incUnsigned off = off + 1 := by unfold incUnsigned; omega
      rw [hinc, ih (off + 1) (by unfold kInnerWidth at hgt; omega) (by omega)]
      unfold kInnerWidth at *
      omega
    · rename_i hle
      have hoff : (off + kInnerWidth) % 4294967296 = off + kInnerWidth := by
        unfold kInnerWidth; omega
      rw [hoff] at hle
      unfold kInnerWidth at *
      omega

theorem ensureCurInView_frame (m : LuaConsoleModel) :
    m.ensureCurInView = { m with m_lastlineoffset := m.ensureCurInView.m_lastlineoffset } := by
  unfold ensureCurInView; simp only; split <;> rfl

/-- After `ensureCurInView` the cursor is inside the window, and a cursor that was
inside it leaves the state as it is. -/
theorem ensureCurInView_window (m : LuaConsoleModel) (h1 : 1 ≤ m.m_cur)
    (h2 : m.m_cur < 2147483648) :
    WindowOk m.ensureCurInView ∧ (WindowOk m → m.ensureCurInView = m) := by
  have hc : ((toUnsigned m.m_cur : Nat) : Int) = m.m_cur :=
    toUnsigned_of_range m.m_cur (by omega) (by omega)
  have hc1 : ((toUnsigned (m.m_cur - 1) : Nat) : Int) = m.m_cur - 1 :=
    toUnsigned_of_range (m.m_cur - 1) (by omega) (by omega)
  have hoff : m.ensureCurInView.m_lastlineoffset
      = max (if toUnsigned m.m_cur ≤ m.m_lastlineoffset then toUnsigned (m.m_cur - 1)
          else m.m_lastlineoffset) (toUnsigned m.m_cur - kInnerWidth) := by
    have key : ∀ off0, off0 < toUnsigned m.m_cur →
        ensureLoop (toUnsigned m.m_cur) (toUnsigned m.m_cur) off0
          = max off0 (toUnsigned m.m_cur - kInnerWidth) :=
      fun off0 h => ensureLoop_spec _ (by omega) _ _ h (by omega)
    unfold ensureCurInView
    simp only
    split
    · exact key (toUnsigned (m.m_cur - 1)) (by omega)
    · exact key _ (by omega)
  refine ⟨?_, ?_⟩
  · unfold WindowOk
    rw [hoff, ensureCurInView_cur]
    unfold kInnerWidth
    split <;> omega
  · intro hw
    unfold WindowOk kInnerWidth at hw
    rw [ensureCurInView_frame m, hoff]
    have e : max (if toUnsigned m.m_cur ≤ m.m_lastlineoffset then toUnsigned (m.m_cur - 1)
          else m.m_lastlineoffset) (toUnsigned m.m_cur - kInnerWidth) = m.m_lastlineoffset := by
      unfold kInnerWidth
      split <;> omega
    rw [e]

theorem editorOk_congr {m m' : LuaConsoleModel} (h : EditorOk m) (e1 : m'.m_msg = m.m_msg)
    (e2 : m'.m_widemsg = m.m_widemsg) (e3 : m'.m_w = m.m_w) (e4 : m'.m_cur = m.m_cur)
    (e5 : m'.m_lastline = m.m_lastline) (e6 : m'.m_lastlineoffset = m.m_lastlineoffset) :
    EditorOk m' := by
  obtain ⟨a, b, c, d⟩ := h
  refine ⟨lockStep_congr a e1 e2 e3, ?_, ?_, ?_⟩
  · unfold CursorOk at *; rw [e4, e5]; exact b
  · unfold WindowOk at *; rw [e4, e6]; exact c
  · unfold lineFits at *; rw [e5]; exact d

/-- A method that ends with `ensureCurInView` and the increment of the dirty counter
leaves the editor consistent, when the cursor is on the line it leaves. -/
theorem editorOk_of_form (m m' x : LuaConsoleModel) (d : Nat) (h : LockStep m)
    (e1 : x.m_msg = m.m_msg) (e2 : x.m_widemsg = m.m_widemsg) (e3 : x.m_w = m.m_w)
    (hm : m' = { x.ensureCurInView with m_dirtyness := d }) (hc : CursorOk m')
    (hfit : lineFits m' = true) : EditorOk m' := by
  have c1 : m'.m_cur = x.m_cur := by rw [hm]; exact ensureCurInView_cur x
  have c2 : m'.m_lastline = x.m_lastline := by rw [hm]; exact ensureCurInView_lastline x
  have c3 : m'.m_lastlineoffset = x.ensureCurInView.m_lastlineoffset := by rw [hm]
  have c4 : m'.m_msg = x.m_msg := by rw [hm, ensureCurInView_frame x]
  have c5 : m'.m_widemsg = x.m_widemsg := by rw [hm, ensureCurInView_frame x]
  have c6 : m'.m_w = x.m_w := by rw [hm, ensureCurInView_frame x]
  have hlen : m'.m_lastline.length + 1 < 2147483648 := of_decide_eq_true hfit
  have hc' := hc
  unfold CursorOk at hc'
  have hw := (ensureCurInView_window x (by rw [← c1]; exact hc'.1) (by rw [← c1]; omega)).1
  refine ⟨lockStep_congr h (c4.trans e1) (c5.trans e2) (c6.trans e3), hc, ?_, hfit⟩
  unfold WindowOk at *
  rw [c1, c3]
  rw [ensureCurInView_cur] at hw
  exact hw

theorem moveCursor_form (move : Int) (m : LuaConsoleModel) :
    ∃ (x : LuaConsoleModel) (d : Nat), x.m_msg = m.m_msg ∧ x.m_widemsg = m.m_widemsg ∧
      x.m_w = m.m_w ∧ m.moveCursor move = { x.ensureCurInView with m_dirtyness := d } :=
  ⟨{ m with m_cur := min ((m.m_lastline.length : Int) + 1) (max (wrapInt32 (m.m_cur + move)) 1) },
    _, rfl, rfl, rfl, rfl⟩

theorem form_of_moveCursor (m y : LuaConsoleModel) (move : Int) (d : Nat)
    (e1 : y.m_msg = m.m_msg) (e2 : y.m_widemsg = m.m_widemsg) (e3 : y.m_w = m.m_w) :
    ∃ (x : LuaConsoleModel) (d' : Nat), x.m_msg = m.m_msg ∧ x.m_widemsg = m.m_widemsg ∧
      x.m_w = m.m_w ∧
      ({ y.moveCursor move with m_dirtyness := d } : LuaConsoleModel)
        = { x.ensureCurInView with m_dirtyness := d' } :=
  ⟨{ y with m_cur := min ((y.m_lastline.length : Int) + 1) (max (wrapInt32 (y.m_cur + move)) 1) },
    d, e1, e2, e3, rfl⟩

theorem moveCursorOneWord_form (k : Consts) (move : EMOVE_DIRECTION) (m : LuaConsoleModel) :
    ∃ (x : LuaConsoleModel) (d : Nat), x.m_msg = m.m_msg ∧ x.m_widemsg = m.m_widemsg ∧
      x.m_w = m.m_w ∧ m.moveCursorOneWord k move = { x.ensureCurInView with m_dirtyness := d } := by
  cases move
  · unfold moveCursorOneWord
    simp only [if_true]
    split
    · exact moveCursor_form _ m
    · exact ⟨{ m with
        m_cur := findFirstSkipCharAfterNonskip m.m_lastline m.m_skipchars (-1) (m.m_cur - 1)
          + 1 + 1 }, _, rfl, rfl, rfl, rfl⟩
  · unfold moveCursorOneWord
    simp only [reduceCtorEq, if_false]
    split
    · exact moveCursor_form _ m
    · exact ⟨{ m with
        m_cur := findFirstSkipCharAfterNonskip m.m_lastline m.m_skipchars 1 (m.m_cur - 1)
          + 1 }, _, rfl, rfl, rfl, rfl⟩

theorem readHistory_form (k : Consts) (change : Int) (m : LuaConsoleModel) :
    ∃ (x : LuaConsoleModel) (d : Nat), x.m_msg = m.m_msg ∧ x.m_widemsg = m.m_widemsg ∧
      x.m_w = m.m_w ∧ m.readHistory k change = { x.ensureCurInView with m_dirtyness := d } := by
  unfold readHistory
  simp only
  split
  · split
    · exact form_of_moveCursor m _ _ _ rfl rfl rfl
    · exact form_of_moveCursor m _ _ _ rfl rfl rfl
  · split
    · exact form_of_moveCursor m _ _ _ rfl rfl rfl
    · exact form_of_moveCursor m _ _ _ rfl rfl rfl

theorem cursorOk_readHistory (k : Consts) (change : Int) (m : LuaConsoleModel) :
    CursorOk (m.readHistory k change) := by
  unfold readHistory
  simp only
  split
  · split
    · exact cursorOk_moveCursor k.kCursorEnd _
    · exact cursorOk_moveCursor k.kCursorEnd _
  · split
    · exact cursorOk_moveCursor k.kCursorEnd _
    · exact cursorOk_moveCursor k.kCursorEnd _

theorem editorOk_echoColored (k : Consts) (m m' : LuaConsoleModel) (str : List Char) (c : Nat)
    (h : EditorOk m) (hrun : echoColored k str c m = some m') : EditorOk m' := by
  obtain ⟨m'', h1, hl, hf, _⟩ := echoLine_spec k m str (List.replicate str.length c) h.1
  have e : m'' = m' := Option.some.inj (h1.symm.trans hrun)
  subst e
  obtain ⟨_, b, c, d⟩ := h
  refine ⟨hl, ?_, ?_, ?_⟩
  · unfold CursorOk at *; rw [hf]; exact b
  · unfold WindowOk at *; rw [hf]; exact c
  · unfold lineFits at *; rw [hf]; exact d

/-- Where `parseLastLine` leaves the editor. -/
theorem parseLastLine_final (k : Consts) (lua : LuaCalls) (m m' : LuaConsoleModel)
    (ret : ELINE_PARSE_RESULT) (h : parseLastLine k lua m = some (m', ret)) :
    m'.m_lastline = [] ∧ m'.m_cur = 1 ∧ m'.m_lastlineoffset = 0 := by
  unfold parseLastLine at h
  simp only at h
  split at h
  · cases h
  · split at h
    · cases h
    · split at h
      · cases h
      · simp only [Option.some.injEq, Prod.mk.injEq] at h
        obtain ⟨rfl, _⟩ := h
        exact ⟨rfl, rfl, rfl⟩

/-- What `tryComplete` does: it echoes, or extends the line and moves the cursor to its
end, or does nothing. -/
theorem tryComplete_cases (k : Consts) (hints : HintCalls) (m m' : LuaConsoleModel)
    (h : m.tryComplete k hints = some m') :
    (∃ str c, echoColored k str c m = some m') ∨
    (∃ ext, m' = moveCursor k.kCursorEnd
      { m with m_lastline := m.m_lastline ++ ext, m_dirtyness := incUnsigned m.m_dirtyness }) ∨
    m' = m := by
  unfold tryComplete at h
  cases hL : m.L with
  | none =>
    rw [hL] at h
    exact Or.inl ⟨_, _, h⟩
  | some u =>
    rw [hL] at h
    simp only at h
    generalize hposs : (if (!(hints.collectHints (hints.prepareHints m.m_lastline)).1) = true then
        (hints.collectHints (hints.prepareHints m.m_lastline)).2 ++
          hints.collectHintsGlobal (hints.prepareHints m.m_lastline)
      else (hints.collectHints (hints.prepareHints m.m_lastline)).2) = possible at h
    by_cases hp : possible.length > 1
    · rw [if_pos hp] at h
      split at h
      · exact Or.inl ⟨_, _, h⟩
      · split at h
        · cases h
        · rename_i ext _
          exact Or.inr (Or.inl ⟨ext, (Option.some.inj h).symm⟩)
    · rw [if_neg hp] at h
      split at h
      · split at h
        · cases h
        · rename_i ext _
          exact Or.inr (Or.inl ⟨ext, (Option.some.inj h).symm⟩)
      · exact Or.inr (Or.inr (Option.some.inj h).symm)

/-- One call keeps the editor consistent, when the line it leaves is short enough. -/
theorem editorOk_step (k : Consts) (op : ConsoleOp) (m m' : LuaConsoleModel) (h : EditorOk m)
    (hrun : op.run k m = some m') (hfit : lineFits m' = true) : EditorOk m' := by
  cases op with
  | addChar c =>
    have hrun' : m.addChar c = some m' := hrun
    obtain ⟨m'', h1, hc⟩ := cursorOk_addChar c m h.2.1
    have e : m'' = m' := Option.some.inj (h1.symm.trans hrun')
    subst e
    unfold addChar at hrun'
    split at hrun'
    · have e : m = m'' := Option.some.inj hrun'
      subst e
      exact h
    · split at hrun'
      · cases hrun'
      · rename_i line _
        exact editorOk_of_form m m'' { m with m_lastline := line, m_cur := m.m_cur + 1 } _ h.1
          rfl rfl rfl (Option.some.inj hrun').symm hc hfit
  | backspace =>
    have hrun' : m.backspace = some m' := hrun
    obtain ⟨m'', h1, hc⟩ := cursorOk_backspace m h.2.1
    have e : m'' = m' := Option.some.inj (h1.symm.trans hrun')
    subst e
    unfold backspace at hrun'
    split at hrun'
    · simp only at hrun'
      split at hrun'
      · cases hrun'
      · rename_i line _
        exact editorOk_of_form m m'' { m with m_cur := m.m_cur - 1, m_lastline := line } _ h.1
          rfl rfl rfl (Option.some.inj hrun').symm hc hfit
    · have e : m = m'' := Option.some.inj hrun'
      subst e
      exact h
  | del =>
    have hrun' : m.del = some m' := hrun
    obtain ⟨m'', h1, hc⟩ := cursorOk_del m h.2.1
    have e : m'' = m' := Option.some.inj (h1.symm.trans hrun')
    subst e
    unfold del at hrun'
    split at hrun'
    · cases hrun'
    · have e := Option.some.inj hrun'
      refine ⟨?_, hc, ?_, hfit⟩
      · rw [← e]; exact lockStep_congr h.1 rfl rfl rfl
      · have hw := h.2.2.1
        unfold WindowOk at *
        rw [← e]
        exact hw
  | moveCursor move =>
    have e : m.moveCursor move = m' := Option.some.inj hrun
    subst e
    obtain ⟨x, d, e1, e2, e3, hx⟩ := moveCursor_form move m
    exact editorOk_of_form m _ x d h.1 e1 e2 e3 hx (cursorOk_moveCursor move m) hfit
  | moveCursorOneWord move =>
    have e : m.moveCursorOneWord k move = m' := Option.some.inj hrun
    subst e
    obtain ⟨x, d, e1, e2, e3, hx⟩ := moveCursorOneWord_form k move m
    exact editorOk_of_form m _ x d h.1 e1 e2 e3 hx (cursorOk_moveCursorOneWord k move m) hfit
  | readHistory change =>
    have e : m.readHistory k change = m' := Option.some.inj hrun
    subst e
    obtain ⟨x, d, e1, e2, e3, hx⟩ := readHistory_form k change m
    exact editorOk_of_form m _ x d h.1 e1 e2 e3 hx (cursorOk_readHistory k change m) hfit
  | tryComplete hints =>
    have hrun' : m.tryComplete k hints = some m' := hrun
    rcases tryComplete_cases k hints m m' hrun' with ⟨str, c, he⟩ | ⟨ext, he⟩ | he
    · exact editorOk_echoColored k m m' str c h he
    · obtain ⟨x, d, e1, e2, e3, hx⟩ := moveCursor_form k.kCursorEnd
        { m with m_lastline := m.m_lastline ++ ext,
                 m_dirtyness := incUnsigned m.m_dirtyness }
      exact editorOk_of_form m m' x d h.1 e1 e2 e3 (he.trans hx)
        (he ▸ cursorOk_moveCursor k.kCursorEnd _) hfit
    · rw [he]; exact h
  | parseLastLine lua =>
    have hrun' : (match m.parseLastLine k lua with
      | none => none
      | some (m, _) => some m) = some m' := hrun
    cases hp : m.parseLastLine k lua with
    | none => rw [hp] at hrun'; cases hrun'
    | some r =>
      obtain ⟨m'', ret⟩ := r
      rw [hp] at hrun'
      have e : m'' = m' := Option.some.inj hrun'
      subst e
      obtain ⟨hl, _⟩ := parseLastLine_history_of_some k lua m m'' ret h.1 hp
      obtain ⟨f1, f2, f3⟩ := parseLastLine_final k lua m m'' ret hp
      refine ⟨hl, ?_, ?_, hfit⟩
      · unfold CursorOk
        rw [f1, f2]
        simp
      · unfold WindowOk kInnerWidth
        rw [f2, f3]
        simp

theorem editorOk_run (k : Consts) (ops : List ConsoleOp) :
    ∀ m m' : LuaConsoleModel, EditorOk m → runConsoleOps k ops m = some m' →
      linesFitAlong k ops m = true → EditorOk m' := by
  induction ops with
  | nil =>
    intro m m' h hrun _
    have e : m = m' := Option.some.inj hrun
    subst e
    exact h
  | cons op ops ih =>
    intro m m' h hrun hfit
    rw [runConsoleOps] at hrun
    rw [linesFitAlong] at hfit
    cases h1 : op.run k m with
    | none => rw [h1] at hrun; cases hrun
    | some m1 =>
      rw [h1] at hrun hfit
      simp only [Bool.and_eq_true] at hfit
      exact ih m1 m' (editorOk_step k op m m1 h h1 hfit.1) hrun hfit.2

theorem new_lastlineoffset (k : Consts) (options : Nat) (file : Option (List Char)) :
    (LuaConsoleModel.new k options file).m_lastlineoffset = 0 := by
  unfold LuaConsoleModel.new
  simp only
  split
  · unfold loadHistoryFromFile setHistorySize
    (simp only; split <;> [skip; (split <;> [skip; split])]) <;> simp
  · rfl

theorem editorOk_new (k : Consts) (options : Nat) (file : Option (List Char)) :
    EditorOk (LuaConsoleModel.new k options file) := by
  refine ⟨lockStep_new k options file, ?_, ?_, ?_⟩
  · unfold CursorOk
    rw [(new_lastline k options file).1, (new_lastline k options file).2]
    simp
  · unfold WindowOk kInnerWidth
    rw [new_lastlineoffset, (new_lastline k options file).2]
    simp
  · unfold lineFits
    rw [(new_lastline k options file).1]
    rfl

theorem getCurPos_of_window (m : LuaConsoleModel) (h : WindowOk m) (h2 : m.m_cur < 2147483648) :
    m.getCurPos = m.m_cur - (m.m_lastlineoffset : Int) := by
  unfold WindowOk kInnerWidth at h
  have hc : ((toUnsigned m.m_cur : Nat) : Int) = m.m_cur :=
    toUnsigned_of_range m.m_cur (by omega) (by omega)
  unfold getCurPos wrapInt32
  rw [hc]
  omega

/-- C15: in every state reached from the constructor by calls of `addChar`,
`backspace`, `del`, `moveCursor`, `moveCursorOneWord`, `readHistory`, `tryComplete` and
`parseLastLine` that are carried out and leave lines short enough for the cursor to be
an `int`, the horizontal scroll offset satisfies `offset < cursor <= offset + 78`, and
`getCurPos()` is `cursor - offset` and lies between 1 and 78; and `ensureCurInView`
leaves a state unchanged whose cursor, an `int`, is already inside the window. -/
theorem cursor_window_invariant (k : Consts) :
    (∀ (options : Nat) (file : Option (List Char)) (ops : List ConsoleOp) (m : LuaConsoleModel),
      runConsoleOps k ops (LuaConsoleModel.new k options file) = some m →
      linesFitAlong k ops (LuaConsoleModel.new k options file) = true →
      (m.m_lastlineoffset : Int) < m.m_cur ∧ m.m_cur ≤ (m.m_lastlineoffset : Int) + 78 ∧
      m.getCurPos = m.m_cur - (m.m_lastlineoffset : Int) ∧
      1 ≤ m.getCurPos ∧ m.getCurPos ≤ 78) ∧
    (∀ m : LuaConsoleModel, m.m_cur < 2147483648 →
      (m.m_lastlineoffset : Int) < m.m_cur → m.m_cur ≤ (m.m_lastlineoffset : Int) + 78 →
      m.ensureCurInView = m) := by
  refine ⟨?_, ?_⟩
  · intro options file ops m hrun hfit
    obtain ⟨_, hc, hw, hf⟩ := editorOk_run k ops _ m (editorOk_new k options file) hrun hfit
    have hlen : m.m_lastline.length + 1 < 2147483648 := of_decide_eq_true hf
    have hcur : m.m_cur < 2147483648 := by unfold CursorOk at hc; omega
    have hg := getCurPos_of_window m hw hcur
    unfold WindowOk kInnerWidth at hw
    refine ⟨hw.1, hw.2, hg, ?_, ?_⟩ <;> omega
  · intro m h1 h2 h3
    exact (ensureCurInView_window m (by omega) h1).2 ⟨h2, h3⟩

set_option maxRecDepth 100000 in
/-- Witness of C15: a run that scrolls the line, and a state whose cursor is inside the
window. -/
theorem cursor_window_invariant_witness :
    linesFitAlong sampleConsts sampleConsoleOps (LuaConsoleModel.new sampleConsts 0 none) = true ∧
    (runConsoleOps sampleConsts sampleConsoleOps (LuaConsoleModel.new sampleConsts 0 none)).map
      (fun m => (m.m_cur, m.m_lastlineoffset)) = some (80, 2) ∧
    (∃ m, runConsoleOps sampleConsts sampleConsoleOps (LuaConsoleModel.new sampleConsts 0 none)
        = some m ∧
      (m.m_lastlineoffset : Int) < m.m_cur ∧ m.m_cur ≤ (m.m_lastlineoffset : Int) + 78 ∧
      m.getCurPos = m.m_cur - (m.m_lastlineoffset : Int) ∧
      1 ≤ m.getCurPos ∧ m.getCurPos ≤ 78) ∧
    sampleWordState.m_cur < 2147483648 ∧
    (sampleWordState.m_lastlineoffset : Int) < sampleWordState.m_cur ∧
    sampleWordState.m_cur ≤ (sampleWordState.m_lastlineoffset : Int) + 78 ∧
    sampleWordState.ensureCurInView = sampleWordState :=
  ⟨(by decide), (by decide),
    (Option.isSome_iff_exists.mp (by decide :
      (runConsoleOps sampleConsts sampleConsoleOps
        (LuaConsoleModel.new sampleConsts 0 none)).isSome = true)).elim
      (fun m hm => ⟨m, hm,
        (cursor_window_invariant sampleConsts).1 0 none sampleConsoleOps m hm (by decide)⟩),
    (by decide), (by decide), (by decide),
    (cursor_window_invariant sampleConsts).2 sampleWordState (by decide) (by decide) (by decide)⟩

/-! ## Submission: the editor reset and the dirty counter -/

theorem countedStep_refl (m : LuaConsoleModel) (h : LockStep m) : CountedStep 0 m m :=
  ⟨⟨h, scrollbackFrame_refl m⟩, rfl⟩

theorem countedStep_trans {a b : Nat} {m1 m2 m3 : LuaConsoleModel} (h1 : CountedStep a m1 m2)
    (h2 : CountedStep b m2 m3) : CountedStep (a + b) m1 m3 := by
  obtain ⟨⟨_, f1⟩, d1⟩ := h1
  obtain ⟨⟨l2, f2⟩, d2⟩ := h2
  refine ⟨⟨l2, scrollbackFrame_trans f1 f2⟩, ?_⟩
  omega

theorem echoColored_counted (k : Consts) (m : LuaConsoleModel) (str : List Char) (c : Nat)
    (h : LockStep m) :
    ∃ m', echoColored k str c m = some m' ∧ CountedStep 2 m m' ∧
      m'.m_buffcmd = m.m_buffcmd := by
  obtain ⟨m', h1, h2, h3, _⟩ := echoLine_spec k m str (List.replicate str.length c) h
  obtain ⟨m'', h1', _, hd⟩ := echoLine_scroll k m str (List.replicate str.length c) h
  have e : m'' = m' := Option.some.inj (h1'.symm.trans h1)
  subst e
  refine ⟨m'', h1, ⟨⟨h2, ?_⟩, ?_⟩, ?_⟩
  · unfold ScrollbackFrame
    rw [h3]
  · rw [hd]; simp only [incUnsigned]; omega
  · rw [h3]

theorem echoHistoryLoop_counted (k : Consts) (n : Nat) :
    ∀ (i : Nat) (m : LuaConsoleModel), LockStep m →
      ∃ m', echoHistoryLoop k n i m = some m' ∧ CountedStep (2 * n) m m' ∧
        m'.m_buffcmd = m.m_buffcmd := by
  induction n with
  | zero => intro i m h; exact ⟨m, rfl, countedStep_refl m h, rfl⟩
  | succ n ih =>
    intro i m h
    obtain ⟨m1, h1, hc1, hb1⟩ := echoColored_counted k m (m.m_history.getD i [])
      (m.m_colors ECONSOLE_COLOR.ECC_HISTORY) h
    obtain ⟨m2, h2, hc2, hb2⟩ := ih (i + 1) m1 hc1.1.1
    refine ⟨m2, ?_, ?_, hb2.trans hb1⟩
    · simp only [echoHistoryLoop, h1]
      exact h2
    · have := countedStep_trans hc1 hc2
      rw [show 2 * (n + 1) = 2 + 2 * n by ring]
      exact this

theorem checkSpecialComments_counted (k : Consts) (m : LuaConsoleModel) (h : LockStep m) :
    ∃ m' e, checkSpecialComments k m = some m' ∧ e ≤ m.m_history.length ∧
      CountedStep (2 * e) m m' ∧ m'.m_buffcmd = m.m_buffcmd := by
  unfold checkSpecialComments
  simp only
  have hc : CountedStep 0 m m.clearScreen := ⟨⟨lockStep_clearScreen m, rfl⟩, rfl⟩
  split
  · split
    · obtain ⟨m2, h2, hc2, hb2⟩ := echoHistoryLoop_counted k m.clearScreen.m_history.length 0
        m.clearScreen hc.1.1
      refine ⟨m2, m.m_history.length, h2, le_refl _, ?_, hb2⟩
      have := countedStep_trans hc hc2
      rw [Nat.zero_add] at this
      exact this
    · exact ⟨_, 0, rfl, Nat.zero_le _, hc, rfl⟩
  · split
    · obtain ⟨m2, h2, hc2, hb2⟩ := echoHistoryLoop_counted k m.m_history.length 0 m h
      exact ⟨m2, m.m_history.length, h2, le_refl _, hc2, hb2⟩
    · exact ⟨m, 0, rfl, Nat.zero_le _, countedStep_refl m h, rfl⟩

/-- The result of `parseLastLine`, from the results of its three parts. -/
theorem parseLastLine_of_steps (k : Consts) (lua : LuaCalls) (m m1 m2 m3 : LuaConsoleModel)
    (ret : ELINE_PARSE_RESULT)
    (h1 : echoColored k (submittedLine m) (m.m_colors ECONSOLE_COLOR.ECC_CODE)
      { m with m_lastline := submittedLine m } = some m1)
    (h2 : evalBuffer k lua { m1 with
        m_history := (m1.m_history ++ [m1.m_lastline]).drop 1,
        m_hindex := (((m1.m_history ++ [m1.m_lastline]).drop 1).length : Int),
        m_buffcmd := m1.m_buffcmd ++ m1.m_lastline ++ [newline] } = some (m2, ret))
    (h3 : (if m1.m_buffcmd.isEmpty = true ∧ m2.m_commentcommands = true then
        checkSpecialComments k m2 else some m2) = some m3) :
    parseLastLine k lua m = some
      ({ m3 with m_lastline := [], m_cur := 1, m_lastlineoffset := 0,
                 m_dirtyness := incUnsigned m3.m_dirtyness }, ret) := by
  have hm0 : (if m.m_lastline.length = 0 ∧ m.m_emptyenterrepeat = true ∧ m.m_history ≠ []
      then { m with m_lastline := m.m_history.getLastD [] } else m)
      = { m with m_lastline := submittedLine m } := by
    unfold submittedLine
    split <;> rfl
  unfold parseLastLine
  simp only
  rw [hm0]
  have h1' : echoColored k ({ m with m_lastline := submittedLine m } : LuaConsoleModel).m_lastline
      (({ m with m_lastline := submittedLine m } : LuaConsoleModel).m_colors
        ECONSOLE_COLOR.ECC_CODE) { m with m_lastline := submittedLine m } = some m1 := h1
  rw [h1']
  simp only
  rw [h2]
  simp only
  rw [h3]

/-- The evaluation of a submit buffer that does not compile and whose error the
classifier reports as an incomplete chunk. -/
theorem evalBuffer_incomplete (k : Consts) (lua : LuaCalls) (m : LuaConsoleModel)
    (err : List Char) (hL : m.L = some ())
    (hload : lua.luaL_loadstring m.m_buffcmd = some err)
    (hret : m.m_addreturn = true →
      lua.luaL_loadstring (['r', 'e', 't', 'u', 'r', 'n', ' '] ++ m.m_buffcmd) ≠ none)
    (hinc : lua.incompleteChunkError (some err) = true) :
    evalBuffer k lua m = some (m, ELINE_PARSE_RESULT.ELPR_MORE) := by
  have hf : tryEval lua false m = (false, Loaded.error err) := by
    unfold tryEval
    simp only [Bool.false_eq_true, if_false]
    rw [hload]
  have hloaded : (if m.m_addreturn = true then
        (if (tryEval lua true m).1 = true then tryEval lua true m else tryEval lua false m)
      else tryEval lua false m) = (false, Loaded.error err) := by
    split
    · rename_i ha
      have ht : tryEval lua true m = (false, Loaded.nothing) := by
        unfold tryEval
        simp only [if_true]
        cases hr : lua.luaL_loadstring (['r', 'e', 't', 'u', 'r', 'n', ' '] ++ m.m_buffcmd) with
        | none => exact absurd hr (hret ha)
        | some e => rfl
      rw [ht]
      simp only [Bool.false_eq_true, if_false]
      exact hf
    · exact hf
  unfold evalBuffer
  rw [hL]
  simp only
  rw [hloaded]
  simp only
  unfold evalFailed
  rw [hinc]
  rfl

/-- C18: for every state with a consistent scrollback and an interpreter attached, if
the submit buffer `b` followed by the submitted line `l` and a newline does not compile
(with `m_addreturn`, neither does its `return ` form), the classifier reports the error
as an incomplete chunk, and `l` is not a comment command acting on a fresh buffer, then
`parseLastLine` returns `ELPR_MORE`, the submit buffer is `b ++ l ++ "\n"`, and the
messages are those left by the code echo of `l` alone: `l` in the code colour is
appended (the oldest message leaving when 3000 are retained) and nothing else. -/
theorem incomplete_chunk_retained (k : Consts) (lua : LuaCalls) (m : LuaConsoleModel)
    (err : List Char) (h : LockStep m) (hL : m.L = some ())
    (hload : lua.luaL_loadstring (m.m_buffcmd ++ submittedLine m ++ [newline]) = some err)
    (hret : m.m_addreturn = true → lua.luaL_loadstring
      (['r', 'e', 't', 'u', 'r', 'n', ' '] ++ (m.m_buffcmd ++ submittedLine m ++ [newline])) ≠ none)
    (hinc : lua.incompleteChunkError (some err) = true)
    (hcmd : m.m_buffcmd = [] → m.m_commentcommands = true →
      submittedLine m ≠ ['-', '-', 'c', 'l', 'e', 'a', 'r'] ∧
      submittedLine m ≠ ['-', '-', 'h', 'i', 's', 't', 'o', 'r', 'y']) :
    ∃ m1 m', echoColored k (submittedLine m) (m.m_colors ECONSOLE_COLOR.ECC_CODE)
        { m with m_lastline := submittedLine m } = some m1 ∧
      parseLastLine k lua m = some (m', ELINE_PARSE_RESULT.ELPR_MORE) ∧
      m'.m_buffcmd = m.m_buffcmd ++ submittedLine m ++ [newline] ∧
      m'.m_msg = m1.m_msg ∧ m'.m_widemsg = m1.m_widemsg ∧
      (m.m_msg.length < kMessagesKeptCount →
        m'.m_msg = m.m_msg ++ [echoedLine m (submittedLine m)
          (List.replicate (submittedLine m).length (m.m_colors ECONSOLE_COLOR.ECC_CODE))]) ∧
      (m.m_msg.length = kMessagesKeptCount →
        m'.m_msg = m.m_msg.drop 1 ++ [echoedLine m (submittedLine m)
          (List.replicate (submittedLine m).length (m.m_colors ECONSOLE_COLOR.ECC_CODE))]) := by
  have hl0 : LockStep { m with m_lastline := submittedLine m } := lockStep_congr h rfl rfl rfl
  obtain ⟨m1, h1, _, hf1, hlt, heq⟩ := echoLine_spec k { m with m_lastline := submittedLine m }
    (submittedLine m)
    (List.replicate (submittedLine m).length (m.m_colors ECONSOLE_COLOR.ECC_CODE)) hl0
  have e1L : m1.L = m.L := by rw [hf1]
  have e1b : m1.m_buffcmd = m.m_buffcmd := by rw [hf1]
  have e1l : m1.m_lastline = submittedLine m := by rw [hf1]
  have e1a : m1.m_addreturn = m.m_addreturn := by rw [hf1]
  have e1c : m1.m_commentcommands = m.m_commentcommands := by rw [hf1]
  have h2 := evalBuffer_incomplete k lua { m1 with
      m_history := (m1.m_history ++ [m1.m_lastline]).drop 1,
      m_hindex := (((m1.m_history ++ [m1.m_lastline]).drop 1).length : Int),
      m_buffcmd := m1.m_buffcmd ++ m1.m_lastline ++ [newline] } err (e1L.trans hL)
    (by show lua.luaL_loadstring (m1.m_buffcmd ++ m1.m_lastline ++ [newline]) = some err
        rw [e1b, e1l]; exact hload)
    (by intro ha
        show lua.luaL_loadstring (['r', 'e', 't', 'u', 'r', 'n', ' '] ++
          (m1.m_buffcmd ++ m1.m_lastline ++ [newline])) ≠ none
        rw [e1b, e1l]; exact hret (e1a.symm.trans ha))
    hinc
  have h3 : (if m1.m_buffcmd.isEmpty = true ∧ ({ m1 with
        m_history := (m1.m_history ++ [m1.m_lastline]).drop 1,
        m_hindex := (((m1.m_history ++ [m1.m_lastline]).drop 1).length : Int),
        m_buffcmd := m1.m_buffcmd ++ m1.m_lastline ++ [newline] } :
          LuaConsoleModel).m_commentcommands = true then
      checkSpecialComments k { m1 with
        m_history := (m1.m_history ++ [m1.m_lastline]).drop 1,
        m_hindex := (((m1.m_history ++ [m1.m_lastline]).drop 1).length : Int),
        m_buffcmd := m1.m_buffcmd ++ m1.m_lastline ++ [newline] }
      else some { m1 with
        m_history := (m1.m_history ++ [m1.m_lastline]).drop 1,
        m_hindex := (((m1.m_history ++ [m1.m_lastline]).drop 1).length : Int),
        m_buffcmd := m1.m_buffcmd ++ m1.m_lastline ++ [newline] }) = some { m1 with
        m_history := (m1.m_history ++ [m1.m_lastline]).drop 1,
        m_hindex := (((m1.m_history ++ [m1.m_lastline]).drop 1).length : Int),
        m_buffcmd := m1.m_buffcmd ++ m1.m_lastline ++ [newline] } := by
    split
    · rename_i hc
      have hb : m.m_buffcmd = [] := by
        have := hc.1
        rw [e1b] at this
        exact List.isEmpty_iff.mp this
      have hcc : m.m_commentcommands = true := e1c.symm.trans hc.2
      obtain ⟨n1, n2⟩ := hcmd hb hcc
      unfold checkSpecialComments
      simp only
      rw [e1l, if_neg n1, if_neg n2]
    · rfl
  have hp := parseLastLine_of_steps k lua m m1 _ _ _ h1 h2 h3
  have e0 : echoedLine { m with m_lastline := submittedLine m } (submittedLine m)
      (List.replicate (submittedLine m).length (m.m_colors ECONSOLE_COLOR.ECC_CODE))
      = echoedLine m (submittedLine m)
        (List.replicate (submittedLine m).length (m.m_colors ECONSOLE_COLOR.ECC_CODE)) := rfl
  refine ⟨m1, _, h1, hp, ?_, rfl, rfl, ?_, ?_⟩
  · show m1.m_buffcmd ++ m1.m_lastline ++ [newline] = _
    rw [e1b, e1l]
  · intro hlen
    show m1.m_msg = _
    rw [(hlt hlen).1, e0]
  · intro hlen
    show m1.m_msg = _
    obtain ⟨first, rest, hm, hm1, _⟩ := heq hlen
    have hm' : m.m_msg = first :: rest := hm
    rw [hm1, e0, hm']
    rfl

/-- Witness of C18: a fresh buffer and the line `if true then`. -/
theorem incomplete_chunk_retained_witness :
    LockStep sampleAttachedState ∧ sampleAttachedState.L = some () ∧
    sampleAttachedState.m_buffcmd = [] ∧
    submittedLine sampleAttachedState
      = ['i', 'f', ' ', 't', 'r', 'u', 'e', ' ', 't', 'h', 'e', 'n'] ∧
    ∃ m1 m', echoColored sampleConsts (submittedLine sampleAttachedState)
        (sampleAttachedState.m_colors ECONSOLE_COLOR.ECC_CODE)
        { sampleAttachedState with m_lastline := submittedLine sampleAttachedState } = some m1 ∧
      parseLastLine sampleConsts sampleEofLua sampleAttachedState
        = some (m', ELINE_PARSE_RESULT.ELPR_MORE) ∧
      m'.m_buffcmd = ['i', 'f', ' ', 't', 'r', 'u', 'e', ' ', 't', 'h', 'e', 'n', newline] ∧
      m'.m_msg = m1.m_msg ∧ m'.m_widemsg = m1.m_widemsg ∧
      (sampleAttachedState.m_msg.length < kMessagesKeptCount →
        m'.m_msg = sampleAttachedState.m_msg ++ [echoedLine sampleAttachedState
          (submittedLine sampleAttachedState)
          (List.replicate (submittedLine sampleAttachedState).length
            (sampleAttachedState.m_colors ECONSOLE_COLOR.ECC_CODE))]) ∧
      (sampleAttachedState.m_msg.length = kMessagesKeptCount →
        m'.m_msg = sampleAttachedState.m_msg.drop 1 ++ [echoedLine sampleAttachedState
          (submittedLine sampleAttachedState)
          (List.replicate (submittedLine sampleAttachedState).length
            (sampleAttachedState.m_colors ECONSOLE_COLOR.ECC_CODE))]) :=
  ⟨lockStep_congr (lockStep_new sampleConsts 0 none) rfl rfl rfl, rfl, rfl, (by decide),
    incomplete_chunk_retained sampleConsts sampleEofLua sampleAttachedState
      ['n', 'e', 'a', 'r', ' ', '<', 'e', 'o', 'f', '>']
      (lockStep_congr (lockStep_new sampleConsts 0 none) rfl rfl rfl) rfl (by decide)
      (by decide) (by decide) (by decide)⟩

/-! ## Submission: where the code departs from the description -/

/-- C19 (divergence): with an interpreter attached the line `error([[near <eof>]], 0)` is
submitted; the chunk compiles and running it fails with the message `near <eof>`, which
the classifier reports as an incomplete chunk.  `parseLastLine` returns `ELPR_MORE`, not
`ELPR_RUNTIME_ERROR`, keeps the chunk in the submit buffer, and the only message is the
code echo: the error text is not echoed. -/
theorem runtime_error_kept_as_incomplete :
    (sampleErrorLua.luaL_loadstring (['r', 'e', 't', 'u', 'r', 'n', ' '] ++
      (sampleRuntimeState.m_lastline ++ [newline])) = none) ∧
    (sampleErrorLua.lua_pcall (['r', 'e', 't', 'u', 'r', 'n', ' '] ++
      (sampleRuntimeState.m_lastline ++ [newline]))).result
      = Except.error (some ['n', 'e', 'a', 'r', ' ', '<', 'e', 'o', 'f', '>']) ∧
    (parseLastLine sampleConsts sampleErrorLua sampleRuntimeState).map
        (fun r => (r.2, r.1.m_buffcmd, r.1.m_msg.map (fun l => l.Text)))
      = some (ELINE_PARSE_RESULT.ELPR_MORE,
          ['e', 'r', 'r', 'o', 'r', '(', '[', '[', 'n', 'e', 'a', 'r', ' ', '<', 'e',
            'o', 'f', '>', ']', ']', ',', ' ', '0', ')', newline],
          [['e', 'r', 'r', 'o', 'r', '(', '[', '[', 'n', 'e', 'a', 'r', ' ', '<', 'e',
            'o', 'f', '>', ']', ']', ',', ' ', '0', ')']]) := by
  refine ⟨rfl, rfl, ?_⟩
  decide

/-- C20 (divergence): with no interpreter attached the line `x` is submitted.
`parseLastLine` returns `ELPR_NO_LUA` and leaves `x` and a newline in the submit buffer;
the line `--clear` submitted next is appended to that buffer and is not taken as a
comment command, the four messages stay, whereas on an empty submit buffer `--clear`
empties the scrollback. -/
theorem no_lua_submission_keeps_buffer :
    sampleBrowseState.L = none ∧ sampleBrowseState.m_buffcmd = [] ∧
    (parseLastLine sampleConsts sampleLua sampleBrowseState).map
        (fun r => (r.2, r.1.m_buffcmd))
      = some (ELINE_PARSE_RESULT.ELPR_NO_LUA, ['x', newline]) ∧
    (submitAll sampleConsts
        [(sampleLua, ['x']), (sampleLua, ['-', '-', 'c', 'l', 'e', 'a', 'r'])]
        sampleBrowseState).map (fun m => (m.m_buffcmd, m.m_msg.length))
      = some (['x', newline, '-', '-', 'c', 'l', 'e', 'a', 'r', newline], 4) ∧
    (submitAll sampleConsts [(sampleLua, ['-', '-', 'c', 'l', 'e', 'a', 'r'])]
        sampleBrowseState).map (fun m => m.m_msg.length) = some 0 := by
  refine ⟨rfl, rfl, ?_, ?_, ?_⟩
  · decide
  · decide
  · decide

/-! ## The history: where the code departs from the description -/

/-- C24 (divergence): with the history `[b, c, d]`, oldest first, `setHistorySize(2)`
leaves `[b, c]`: `resize` drops the newest entry `d`, while the last two entries
are `[c, d]`. -/
theorem setHistorySize_drops_newest :
    sampleBrowseState.m_history = [['b'], ['c'], ['d']] ∧
    (setHistorySize 2 sampleBrowseState).m_history = [['b'], ['c']] ∧
    (setHistorySize 2 sampleBrowseState).getHistorySize = 2 ∧
    lastN 2 sampleBrowseState.m_history = [['c'], ['d']] ∧
    (setHistorySize 2 sampleBrowseState).m_history ≠ lastN 2 sampleBrowseState.m_history := by
  decide

set_option maxRecDepth 100000 in
/-- C25 (divergence): a freshly constructed console has 100 history entries and the
browse index 100; `setHistorySize(3)` leaves the index at 100, above the new size 3.
At the fresh line with the history `[b, c, d]` and the typed line `x`,
`setHistorySize(2)` leaves the index at 3; `readHistory(-1)` then takes the console to
be coming back from the history: the index becomes 2, the size, and the typed line is
swapped for the empty saved line instead of the entry `c` being shown. -/
theorem setHistorySize_keeps_browse_index :
    (LuaConsoleModel.new sampleConsts 0 none).m_hindex = 100 ∧
    (LuaConsoleModel.new sampleConsts 0 none).getHistorySize = 100 ∧
    (setHistorySize 3 (LuaConsoleModel.new sampleConsts 0 none)).m_hindex = 100 ∧
    (setHistorySize 3 (LuaConsoleModel.new sampleConsts 0 none)).getHistorySize = 3 ∧
    sampleBrowseState.m_hindex = (sampleBrowseState.getHistorySize : Int) ∧
    sampleBrowseState.m_lastline = ['x'] ∧
    (setHistorySize 2 sampleBrowseState).m_hindex = 3 ∧
    (setHistorySize 2 sampleBrowseState).getHistorySize = 2 ∧
    ¬ (setHistorySize 2 sampleBrowseState).m_hindex
      ≤ ((setHistorySize 2 sampleBrowseState).getHistorySize : Int) ∧
    ((setHistorySize 2 sampleBrowseState).readHistory sampleConsts (-1)).m_hindex = 2 ∧
    ((setHistorySize 2 sampleBrowseState).readHistory sampleConsts (-1)).m_lastline = [] ∧
    ((setHistorySize 2 sampleBrowseState).readHistory sampleConsts (-1)).m_savedlastline
      = ['x'] := by
  decide

/-! ## Submission: relations kept by the echoes -/

theorem echoColored_rel (k : Consts) (R : LuaConsoleModel → LuaConsoleModel → Prop)
    (hR : EchoClosed k R) (m : LuaConsoleModel) (str : List Char) (c : Nat) (h : LockStep m) :
    ∃ m', echoColored k str c m = some m' ∧ EchoStep m m' ∧ R m m' := by
  obtain ⟨m', h1, hs⟩ := echoColored_step k m str c h
  exact ⟨m', h1, hs, hR.2.2.1 m m' str _ h h1⟩

theorem runEchoes_rel (k : Consts) (R : LuaConsoleModel → LuaConsoleModel → Prop)
    (hR : EchoClosed k R) (l : List (List Char)) :
    ∀ m : LuaConsoleModel, LockStep m →
      ∃ m', runEchoes k l m = some m' ∧ EchoStep m m' ∧ R m m' := by
  induction l with
  | nil => intro m h; exact ⟨m, rfl, ⟨h, scrollbackFrame_refl m⟩, hR.1 m⟩
  | cons s l ih =>
    intro m h
    obtain ⟨m1, h1, hs1, hr1⟩ := echoColored_rel k R hR m s (m.m_colors ECONSOLE_COLOR.ECC_ECHO) h
    obtain ⟨m2, h2, hs2, hr2⟩ := ih m1 hs1.1
    refine ⟨m2, ?_, ⟨hs2.1, scrollbackFrame_trans hs1.2 hs2.2⟩, hR.2.1 _ _ _ hr1 hr2⟩
    have h1' : echo k s m = some m1 := h1
    simp only [runEchoes, h1']
    exact h2

theorem echoHistoryLoop_rel (k : Consts) (R : LuaConsoleModel → LuaConsoleModel → Prop)
    (hR : EchoClosed k R) (n : Nat) :
    ∀ (i : Nat) (m : LuaConsoleModel), LockStep m →
      ∃ m', echoHistoryLoop k n i m = some m' ∧ EchoStep m m' ∧ R m m' := by
  induction n with
  | zero => intro i m h; exact ⟨m, rfl, ⟨h, scrollbackFrame_refl m⟩, hR.1 m⟩
  | succ n ih =>
    intro i m h
    obtain ⟨m1, h1, hs1, hr1⟩ := echoColored_rel k R hR m (m.m_history.getD i [])
      (m.m_colors ECONSOLE_COLOR.ECC_HISTORY) h
    obtain ⟨m2, h2, hs2, hr2⟩ := ih (i + 1) m1 hs1.1
    refine ⟨m2, ?_, ⟨hs2.1, scrollbackFrame_trans hs1.2 hs2.2⟩, hR.2.1 _ _ _ hr1 hr2⟩
    simp only [echoHistoryLoop, h1]
    exact h2

theorem evalFailed_rel (k : Consts) (R : LuaConsoleModel → LuaConsoleModel → Prop)
    (hR : EchoClosed k R) (lua : LuaCalls) (evalok : Bool) (err : Option (List Char))
    (m : LuaConsoleModel) (h : LockStep m)
    (hn : err = none → lua.incompleteChunkError none = true) :
    ∃ m' ret, evalFailed k lua evalok err m = some (m', ret) ∧ EchoStep m m' ∧ R m m' := by
  cases err with
  | none =>
    unfold evalFailed
    rw [hn rfl]
    exact ⟨m, _, rfl, ⟨h, scrollbackFrame_refl m⟩, hR.1 m⟩
  | some err =>
    unfold evalFailed
    split
    · have hb : EchoStep m { m with m_buffcmd := [] } := ⟨lockStep_congr h rfl rfl rfl, rfl⟩
      obtain ⟨m1, h1, hs1, hr1⟩ := echoColored_rel k R hR { m with m_buffcmd := [] } err
        (m.m_colors ECONSOLE_COLOR.ECC_ERROR) hb.1
      simp only
      rw [h1]
      exact ⟨_, _, rfl, ⟨hs1.1, scrollbackFrame_trans hb.2 hs1.2⟩,
        hR.2.1 _ _ _ (hR.2.2.2 m) hr1⟩
    · exact ⟨m, _, rfl, ⟨h, scrollbackFrame_refl m⟩, hR.1 m⟩

theorem evalChunk_rel (k : Consts) (R : LuaConsoleModel → LuaConsoleModel → Prop)
    (hR : EchoClosed k R) (lua : LuaCalls) (code : List Char) (m : LuaConsoleModel)
    (h : LockStep m)
    (hn : (lua.lua_pcall code).result = Except.error none →
      lua.incompleteChunkError none = true) :
    ∃ m' ret,
      (match runEchoes k (lua.lua_pcall code).echoed m with
        | none => none
        | some m =>
          match (lua.lua_pcall code).result with
          | Except.ok values =>
            if ({ m with m_buffcmd := [] } : LuaConsoleModel).m_printeval ∧ values ≠ [] then
              match printLuaStackInColor k values
                  (({ m with m_buffcmd := [] } : LuaConsoleModel).m_colors ECONSOLE_COLOR.ECC_EVAL)
                  { m with m_buffcmd := [] } with
              | none => none
              | some m => some (m, ELINE_PARSE_RESULT.ELPR_OK)
            else some ({ m with m_buffcmd := [] }, ELINE_PARSE_RESULT.ELPR_OK)
          | Except.error err => evalFailed k lua true err m) = some (m', ret) ∧
      EchoStep m m' ∧ R m m' := by
  obtain ⟨m1, h1, hs1, hr1⟩ := runEchoes_rel k R hR (lua.lua_pcall code).echoed m h
  rw [h1]
  simp only
  cases hr : (lua.lua_pcall code).result with
  | error err =>
    obtain ⟨m2, ret, h2, hs2, hr2⟩ := evalFailed_rel k R hR lua true err m1 hs1.1
      (fun he => hn (by rw [hr, he]))
    exact ⟨m2, ret, h2, ⟨hs2.1, scrollbackFrame_trans hs1.2 hs2.2⟩, hR.2.1 _ _ _ hr1 hr2⟩
  | ok values =>
    have hb : EchoStep m1 { m1 with m_buffcmd := [] } := ⟨lockStep_congr hs1.1 rfl rfl rfl, rfl⟩
    have hrb := hR.2.1 _ _ _ hr1 (hR.2.2.2 m1)
    simp only
    split
    · obtain ⟨m2, h2, hs2, hr2⟩ := echoColored_rel k R hR { m1 with m_buffcmd := [] }
        (values.foldl (fun ss v => ss ++ printValue v ++ [' ']) [])
        (m1.m_colors ECONSOLE_COLOR.ECC_EVAL) hb.1
      have h2' : printLuaStackInColor k values (m1.m_colors ECONSOLE_COLOR.ECC_EVAL)
          { m1 with m_buffcmd := [] } = some m2 := h2
      rw [h2']
      exact ⟨m2, _, rfl, ⟨hs2.1, scrollbackFrame_trans hs1.2 (scrollbackFrame_trans hb.2 hs2.2)⟩,
        hR.2.1 _ _ _ hrb hr2⟩
    · exact ⟨_, _, rfl, ⟨hb.1, scrollbackFrame_trans hs1.2 hb.2⟩, hrb⟩

/-- A relation kept by the echoes holds between the state in which the submit buffer is
evaluated and the state the evaluation leaves. -/
theorem evalBuffer_rel (k : Consts) (R : LuaConsoleModel → LuaConsoleModel → Prop)
    (hR : EchoClosed k R) (lua : LuaCalls) (m : LuaConsoleModel) (h : LockStep m)
    (hn : nullError lua m = false) :
    ∃ m' ret, evalBuffer k lua m = some (m', ret) ∧ EchoStep m m' ∧ R m m' := by
  unfold evalBuffer
  cases hL : m.L with
  | none =>
    simp only
    obtain ⟨m1, h1, hs1, hr1⟩ := echoColored_rel k R hR m
      ("Lua state pointer is NULL, commands have no effect".toList)
      (m.m_colors ECONSOLE_COLOR.ECC_ERROR) h
    rw [h1]
    exact ⟨_, _, rfl, hs1, hr1⟩
  | some l =>
    simp only
    have hloaded : (∃ code, (if m.m_addreturn = true then
          (if (tryEval lua true m).1 = true then tryEval lua true m else tryEval lua false m)
        else tryEval lua false m) = (true, Loaded.chunk code)) ∨
        (∃ err, (if m.m_addreturn = true then
          (if (tryEval lua true m).1 = true then tryEval lua true m else tryEval lua false m)
        else tryEval lua false m) = (false, Loaded.error err)) := by
      split
      · rcases tryEval_true_cases lua m with ⟨code, hc⟩ | hn
        · rw [hc]; exact Or.inl ⟨code, rfl⟩
        · rw [hn]; exact tryEval_false_cases lua m
      · exact tryEval_false_cases lua m
    rcases hloaded with ⟨code, hc⟩ | ⟨err, he⟩
    · rw [hc]
      exact evalChunk_rel k R hR lua code m h (nullError_chunk lua m code l hL hc hn)
    · rw [he]
      exact evalFailed_rel k R hR lua false (some err) m h (fun hc => nomatch hc)

/-- The submit buffer is kept or emptied along the echoes. -/
theorem echoClosed_buffcmd (k : Consts) :
    EchoClosed k (fun m m' => m'.m_buffcmd = [] ∨ m'.m_buffcmd = m.m_buffcmd) := by
  refine ⟨fun m => Or.inr rfl, ?_, ?_, fun m => Or.inl rfl⟩
  · intro a b c h1 h2
    rcases h2 with h2 | h2
    · exact Or.inl h2
    · rw [h2]; exact h1
  · intro m m' str colors hl he
    obtain ⟨m'', h1, _, hf, _⟩ := echoLine_spec k m str colors hl
    have e : m'' = m' := Option.some.inj (h1.symm.trans he)
    subst e
    right
    rw [hf]

/-- Messages once there are not all lost along the echoes. -/
theorem echoClosed_msg (k : Consts) :
    EchoClosed k (fun m m' => m.m_msg ≠ [] → m'.m_msg ≠ []) := by
  refine ⟨fun m hm => hm, fun a b c h1 h2 ha => h2 (h1 ha), ?_, fun m hm => hm⟩
  intro m m' str colors hl he _
  obtain ⟨m'', h1, _, _, hlt, heq⟩ := echoLine_spec k m str colors hl
  have e : m'' = m' := Option.some.inj (h1.symm.trans he)
  subst e
  rcases Nat.lt_or_ge m.m_msg.length kMessagesKeptCount with hc | hc
  · rw [(hlt hc).1]; simp
  · obtain ⟨first, rest, _, hm, _⟩ := heq (Nat.le_antisymm hl.2.2 hc)
    rw [hm]; simp

theorem runEchoes_keeps (k : Consts) (l : List (List Char)) :
    ∀ m : LuaConsoleModel, LockStep m →
      ∃ m', runEchoes k l m = some m' ∧ LockStep m' ∧ m'.m_buffcmd = m.m_buffcmd := by
  induction l with
  | nil => intro m h; exact ⟨m, rfl, h, rfl⟩
  | cons s l ih =>
    intro m h
    obtain ⟨m1, h1, hs1, hb1⟩ := echoColored_keeps k m s (m.m_colors ECONSOLE_COLOR.ECC_ECHO) h
    obtain ⟨m2, h2, hl2, hb2⟩ := ih m1 hs1.1
    refine ⟨m2, ?_, hl2, hb2.trans hb1⟩
    have h1' : echo k s m = some m1 := h1
    simp only [runEchoes, h1']
    exact h2

theorem evalFailed_ret (k : Consts) (lua : LuaCalls) (evalok : Bool)
    (err : Option (List Char)) (m : LuaConsoleModel) (h : LockStep m)
    (hn : err = none → lua.incompleteChunkError none = true) :
    ∃ m' ret, evalFailed k lua evalok err m = some (m', ret) ∧
      ((ret = ELINE_PARSE_RESULT.ELPR_MORE ∨ ret = ELINE_PARSE_RESULT.ELPR_NO_LUA) ∧
          m'.m_buffcmd = m.m_buffcmd ∨
        (ret ≠ ELINE_PARSE_RESULT.ELPR_MORE ∧ ret ≠ ELINE_PARSE_RESULT.ELPR_NO_LUA) ∧
          m'.m_buffcmd = []) := by
  cases err with
  | none =>
    unfold evalFailed
    rw [hn rfl]
    exact ⟨m, _, rfl, Or.inl ⟨Or.inl rfl, rfl⟩⟩
  | some err =>
    unfold evalFailed
    split
    · obtain ⟨m1, h1, _, hb1⟩ := echoColored_keeps k { m with m_buffcmd := [] } err
        (m.m_colors ECONSOLE_COLOR.ECC_ERROR) (lockStep_congr h rfl rfl rfl)
      simp only
      rw [h1]
      refine ⟨_, _, rfl, Or.inr ⟨⟨?_, ?_⟩, hb1⟩⟩
      · cases evalok <;> simp
      · cases evalok <;> simp
    · exact ⟨m, _, rfl, Or.inl ⟨Or.inl rfl, rfl⟩⟩

theorem evalChunk_ret (k : Consts) (lua : LuaCalls) (code : List Char) (m : LuaConsoleModel)
    (h : LockStep m)
    (hn : (lua.lua_pcall code).result = Except.error none →
      lua.incompleteChunkError none = true) :
    ∃ m' ret,
      (match runEchoes k (lua.lua_pcall code).echoed m with
        | none => none
        | some m =>
          match (lua.lua_pcall code).result with
          | Except.ok values =>
            if ({ m with m_buffcmd := [] } : LuaConsoleModel).m_printeval ∧ values ≠ [] then
              match printLuaStackInColor k values
                  (({ m with m_buffcmd := [] } : LuaConsoleModel).m_colors ECONSOLE_COLOR.ECC_EVAL)
                  { m with m_buffcmd := [] } with
              | none => none
              | some m => some (m, ELINE_PARSE_RESULT.ELPR_OK)
            else some ({ m with m_buffcmd := [] }, ELINE_PARSE_RESULT.ELPR_OK)
          | Except.error err => evalFailed k lua true err m) = some (m', ret) ∧
      ((ret = ELINE_PARSE_RESULT.ELPR_MORE ∨ ret = ELINE_PARSE_RESULT.ELPR_NO_LUA) ∧
          m'.m_buffcmd = m.m_buffcmd ∨
        (ret ≠ ELINE_PARSE_RESULT.ELPR_MORE ∧ ret ≠ ELINE_PARSE_RESULT.ELPR_NO_LUA) ∧
          m'.m_buffcmd = []) := by
  obtain ⟨m1, h1, hl1, hb1⟩ := runEchoes_keeps k (lua.lua_pcall code).echoed m h
  rw [h1]
  simp only
  cases hr : (lua.lua_pcall code).result with
  | error err =>
    obtain ⟨m2, ret, h2, hb2⟩ := evalFailed_ret k lua true err m1 hl1
      (fun he => hn (by rw [hr, he]))
    refine ⟨m2, ret, h2, ?_⟩
    rcases hb2 with ⟨hr2, hb2⟩ | hb2
    · exact Or.inl ⟨hr2, hb2.trans hb1⟩
    · exact Or.inr hb2
  | ok values =>
    simp only
    split
    · obtain ⟨m2, h2, _, hb2⟩ := echoColored_keeps k { m1 with m_buffcmd := [] }
        (values.foldl (fun ss v => ss ++ printValue v ++ [' ']) [])
        (m1.m_colors ECONSOLE_COLOR.ECC_EVAL) (lockStep_congr hl1 rfl rfl rfl)
      have h2' : printLuaStackInColor k values (m1.m_colors ECONSOLE_COLOR.ECC_EVAL)
          { m1 with m_buffcmd := [] } = some m2 := h2
      rw [h2']
      exact ⟨m2, _, rfl, Or.inr ⟨⟨by decide, by decide⟩, hb2⟩⟩
    · exact ⟨_, _, rfl, Or.inr ⟨⟨by decide, by decide⟩, rfl⟩⟩

/-- The submit buffer the evaluation leaves, by its result. -/
theorem evalBuffer_ret (k : Consts) (lua : LuaCalls) (m : LuaConsoleModel) (h : LockStep m)
    (hn : nullError lua m = false) :
    ∃ m' ret, evalBuffer k lua m = some (m', ret) ∧
      ((ret = ELINE_PARSE_RESULT.ELPR_MORE ∨ ret = ELINE_PARSE_RESULT.ELPR_NO_LUA) ∧
          m'.m_buffcmd = m.m_buffcmd ∨
        (ret ≠ ELINE_PARSE_RESULT.ELPR_MORE ∧ ret ≠ ELINE_PARSE_RESULT.ELPR_NO_LUA) ∧
          m'.m_buffcmd = []) := by
  unfold evalBuffer
  cases hL : m.L with
  | none =>
    simp only
    obtain ⟨m1, h1, _, hb1⟩ := echoColored_keeps k m
      ("Lua state pointer is NULL, commands have no effect".toList)
      (m.m_colors ECONSOLE_COLOR.ECC_ERROR) h
    rw [h1]
    exact ⟨_, _, rfl, Or.inl ⟨Or.inr rfl, hb1⟩⟩
  | some l =>
    simp only
    have hloaded : (∃ code, (if m.m_addreturn = true then
          (if (tryEval lua true m).1 = true then tryEval lua true m else tryEval lua false m)
        else tryEval lua false m) = (true, Loaded.chunk code)) ∨
        (∃ err, (if m.m_addreturn = true then
          (if (tryEval lua true m).1 = true then tryEval lua true m else tryEval lua false m)
        else tryEval lua false m) = (false, Loaded.error err)) := by
      split
      · rcases tryEval_true_cases lua m with ⟨code, hc⟩ | hn
        · rw [hc]; exact Or.inl ⟨code, rfl⟩
        · rw [hn]; exact tryEval_false_cases lua m
      · exact tryEval_false_cases lua m
    rcases hloaded with ⟨code, hc⟩ | ⟨err, he⟩
    · rw [hc]
      exact evalChunk_ret k lua code m h (nullError_chunk lua m code l hL hc hn)
    · rw [he]
      exact evalFailed_ret k lua false (some err) m h (fun hc => nomatch hc)

/-- The parts of `parseLastLine` in a state with a consistent scrollback: the code echo
leaves `m1`, the evaluation of the submit buffer leaves `m2`, and the call returns the
end state of what the comment commands leave. -/
theorem parseLastLine_parts (k : Consts) (lua : LuaCalls) (m : LuaConsoleModel)
    (R : LuaConsoleModel → LuaConsoleModel → Prop) (hR : EchoClosed k R) (h : LockStep m)
    (hn : nullError lua (submitted m) = false) :
    ∃ (m1 m2 : LuaConsoleModel) (ret : ELINE_PARSE_RESULT),
      echoColored k (submittedLine m) (m.m_colors ECONSOLE_COLOR.ECC_CODE)
        { m with m_lastline := submittedLine m } = some m1 ∧
      m1 = { m with m_lastline := submittedLine m, m_msg := m1.m_msg,
                    m_widemsg := m1.m_widemsg, m_firstmsg := m1.m_firstmsg,
                    m_dirtyness := m1.m_dirtyness } ∧
      LockStep m1 ∧ m1.m_msg ≠ [] ∧
      evalBuffer k lua (submitState m1) = some (m2, ret) ∧
      EchoStep (submitState m1) m2 ∧ R (submitState m1) m2 ∧
      (∀ m3, (if m.m_buffcmd.isEmpty = true ∧ m.m_commentcommands = true then
          checkSpecialComments k m2 else some m2) = some m3 →
        parseLastLine k lua m = some (submitEnd m3, ret)) := by
  have hl0 : LockStep { m with m_lastline := submittedLine m } := lockStep_congr h rfl rfl rfl
  obtain ⟨m1, h1, hl1, hf1, hlt, heq⟩ := echoLine_spec k { m with m_lastline := submittedLine m }
    (submittedLine m)
    (List.replicate (submittedLine m).length (m.m_colors ECONSOLE_COLOR.ECC_CODE)) hl0
  have e1b : m1.m_buffcmd = m.m_buffcmd := by rw [hf1]
  have e1c : m1.m_commentcommands = m.m_commentcommands := by rw [hf1]
  have hne : m1.m_msg ≠ [] := by
    rcases Nat.lt_or_ge m.m_msg.length kMessagesKeptCount with hc | hc
    · rw [(hlt hc).1]; simp
    · obtain ⟨first, rest, _, hm, _⟩ := heq (Nat.le_antisymm h.2.2 hc)
      rw [hm]; simp
  have hl2 : LockStep (submitState m1) := lockStep_congr hl1 rfl rfl rfl
  have hn2 : nullError lua (submitState m1) = false :=
    (nullError_submitState lua m m1 (by unfold ScrollbackFrame; rw [hf1]) e1b).trans hn
  obtain ⟨m2, ret, h2, hs2, hr2⟩ := evalBuffer_rel k R hR lua _ hl2 hn2
  have e2c : m2.m_commentcommands = m.m_commentcommands := by
    have a : m2.m_commentcommands = (submitState m1).m_commentcommands := by rw [hs2.2]
    rw [a]; exact e1c
  refine ⟨m1, m2, ret, h1, hf1, hl1, hne, h2, hs2, hr2, ?_⟩
  intro m3 h3
  refine parseLastLine_of_steps k lua m m1 m2 m3 ret h1 h2 ?_
  rw [e1b, e2c]
  exact h3

/-- The course of `parseLastLine` with the line it submits, in a state with a consistent
scrollback, when the run does not end in a null error. -/
theorem parseLastLine_course (k : Consts) (lua : LuaCalls) (m : LuaConsoleModel)
    (h : LockStep m) (hn : nullError lua (submitted m) = false) :
    SubmitCourse k lua m (submittedLine m) := by
  obtain ⟨m1, m2, ret, h1, hf1, hl1, _, h2, hs2, hr2, hp⟩ :=
    parseLastLine_parts k lua m _ (echoClosed_buffcmd k) h hn
  have hl0 : LockStep { m with m_lastline := submittedLine m } := lockStep_congr h rfl rfl rfl
  obtain ⟨m1', h1', _, _, hlt, heq⟩ := echoLine_spec k { m with m_lastline := submittedLine m }
    (submittedLine m)
    (List.replicate (submittedLine m).length (m.m_colors ECONSOLE_COLOR.ECC_CODE)) hl0
  have e : m1' = m1 := Option.some.inj (h1'.symm.trans h1)
  subst e
  have e1h : m1'.m_history = m.m_history := by rw [hf1]
  have e1l : m1'.m_lastline = submittedLine m := by rw [hf1]
  have e1b : m1'.m_buffcmd = m.m_buffcmd := by rw [hf1]
  have hf2 := hs2.2
  obtain ⟨m3, h3, hs3, hb3⟩ : ∃ m3,
      (if m.m_buffcmd.isEmpty = true ∧ m.m_commentcommands = true then
        checkSpecialComments k m2 else some m2) = some m3 ∧ EchoStep m2 m3 ∧
        m3.m_buffcmd = m2.m_buffcmd := by
    split
    · obtain ⟨m3, _, h3, _, hc3, hb3⟩ := checkSpecialComments_counted k m2 hs2.1
      exact ⟨m3, h3, hc3.1, hb3⟩
    · exact ⟨m2, rfl, ⟨hs2.1, scrollbackFrame_refl m2⟩, rfl⟩
  have hf3 := hs3.2
  have eh : m3.m_history = (m.m_history ++ [submittedLine m]).drop 1 := by
    have a : m3.m_history = m2.m_history := by rw [hf3]
    have b : m2.m_history = (m1'.m_history ++ [m1'.m_lastline]).drop 1 := by rw [hf2]; rfl
    rw [a, b, e1h, e1l]
  have e0 : echoedLine { m with m_lastline := submittedLine m } (submittedLine m)
      (List.replicate (submittedLine m).length (m.m_colors ECONSOLE_COLOR.ECC_CODE))
      = echoedLine m (submittedLine m)
        (List.replicate (submittedLine m).length (m.m_colors ECONSOLE_COLOR.ECC_CODE)) := rfl
  refine ⟨m1', m2, m3, ret, h1, ?_, ?_, ?_, ?_, h2, h3, hp m3 h3, eh, ?_, ?_⟩
  · intro hroom
    rw [(hlt hroom).1, e0]
  · intro hfull
    obtain ⟨first, rest, hm, hm1, _⟩ := heq hfull
    have hm' : m.m_msg = first :: rest := hm
    rw [hm1, e0, hm']
    rfl
  · show (m1'.m_history ++ [m1'.m_lastline]).drop 1 = _
    rw [e1h, e1l]
  · show m1'.m_buffcmd ++ m1'.m_lastline ++ [newline] = _
    rw [e1b, e1l]
  · intro hne
    show m3.m_history.getLast? = _
    rw [eh]
    cases hh : m.m_history with
    | nil => exact absurd hh hne
    | cons a t => simp
  · obtain ⟨m2', ret', h2', hbr⟩ := evalBuffer_ret k lua (submitState m1')
      (lockStep_congr hl1 rfl rfl rfl)
      ((nullError_submitState lua m m1' (by unfold ScrollbackFrame; rw [hf1]) e1b).trans hn)
    have e := h2'.symm.trans h2
    simp only [Option.some.injEq, Prod.mk.injEq] at e
    obtain ⟨rfl, rfl⟩ := e
    show _ ∧ m3.m_buffcmd = _ ∨ _ ∧ m3.m_buffcmd = _
    rw [hb3]
    rcases hbr with ⟨hr, hb⟩ | hb
    · left
      refine ⟨hr, ?_⟩
      rw [hb]
      show m1'.m_buffcmd ++ m1'.m_lastline ++ [newline] = _
      rw [e1b, e1l]
    · exact Or.inr hb

/-- C21: for every state with a consistent scrollback: if the line is empty, the
repeat-last flag is set and the history is not empty with newest entry `h`, then
`parseLastLine` does what it does when `h` is the line typed, and, when it returns, it
has echoed `h` in the code colour, recorded `h` as the newest history entry and
evaluated the submit buffer with `h` and a newline appended, the state returned being
the end of that course; if the flag is clear or the line is not empty it has done so with
the line as typed.  The call returns unless the run of the chunk ends in a null error. -/
theorem empty_enter_repeats_last (k : Consts) (lua : LuaCalls) (m : LuaConsoleModel)
    (h : LockStep m) :
    (∀ hl : List Char, m.m_lastline = [] → m.m_emptyenterrepeat = true →
      m.m_history.getLast? = some hl →
      parseLastLine k lua m = parseLastLine k lua { m with m_lastline := hl } ∧
      (nullError lua (submitted m) = false → SubmitCourse k lua m hl)) ∧
    (m.m_emptyenterrepeat = false ∨ m.m_lastline ≠ [] →
      nullError lua (submitted m) = false → SubmitCourse k lua m m.m_lastline) ∧
    (nullError lua (submitted m) = true → parseLastLine k lua m = none) := by
  refine ⟨?_, ?_, parseLastLine_null k lua m h⟩
  · intro hl h1 h2 h3
    have e : submittedLine m = hl := by
      unfold submittedLine
      have hne : m.m_history ≠ [] := by
        intro hnil; rw [hnil] at h3; simp at h3
      rw [if_pos ⟨by rw [h1]; rfl, h2, hne⟩]
      rw [List.getLast?_eq_getLast _ hne] at h3
      rw [List.getLastD_eq_getLast?, List.getLast?_eq_getLast _ hne]
      simpa using h3
    refine ⟨?_, fun hn => e ▸ parseLastLine_course k lua m h hn⟩
    have e' : submittedLine { m with m_lastline := hl } = hl := by
      unfold submittedLine
      split
      · rename_i hc
        show m.m_history.getLastD [] = hl
        have hne : m.m_history ≠ [] := hc.2.2
        rw [List.getLast?_eq_getLast _ hne] at h3
        rw [List.getLastD_eq_getLast?, List.getLast?_eq_getLast _ hne]
        simpa using h3
      · rfl
    unfold parseLastLine
    simp only
    rw [submittedLine_state m, submittedLine_state { m with m_lastline := hl }, e, e']
  · intro h1 hn
    have e : submittedLine m = m.m_lastline := by
      unfold submittedLine
      rw [if_neg]
      rintro ⟨a, b, _⟩
      rcases h1 with h1 | h1
      · rw [h1] at b; cases b
      · exact h1 (List.length_eq_zero.mp a)
    exact e ▸ parseLastLine_course k lua m h hn

set_option maxRecDepth 100000 in
/-- Witness of C21: with an interpreter attached, the empty line submitted with history
`[b, c, d]` echoes `d`, records it and runs it; and the line `x` is submitted as typed. -/
theorem empty_enter_repeats_last_witness :
    LockStep sampleRepeatAttached ∧ sampleRepeatAttached.m_lastline = [] ∧
    sampleRepeatAttached.m_emptyenterrepeat = true ∧
    sampleRepeatAttached.m_history.getLast? = some ['d'] ∧
    nullError sampleSumLua (submitted sampleRepeatAttached) = false ∧
    (parseLastLine sampleConsts sampleSumLua sampleRepeatAttached).map
        (fun r => (r.2, r.1.m_msg.map (fun l => l.Text), r.1.m_history, r.1.m_buffcmd))
      = some (ELINE_PARSE_RESULT.ELPR_OK, [['d'], ['2', ' ']], [['c'], ['d'], ['d']], []) ∧
    (parseLastLine sampleConsts sampleSumLua sampleRepeatAttached
        = parseLastLine sampleConsts sampleSumLua { sampleRepeatAttached with m_lastline := ['d'] } ∧
      (nullError sampleSumLua (submitted sampleRepeatAttached) = false →
        SubmitCourse sampleConsts sampleSumLua sampleRepeatAttached ['d'])) ∧
    LockStep sampleBrowseState ∧
    (sampleBrowseState.m_emptyenterrepeat = false ∨ sampleBrowseState.m_lastline ≠ []) ∧
    nullError sampleLua (submitted sampleBrowseState) = false ∧
    SubmitCourse sampleConsts sampleLua sampleBrowseState sampleBrowseState.m_lastline :=
  ⟨lockStep_congr (lockStep_new sampleConsts 0 none) rfl rfl rfl, rfl, rfl, rfl, (by decide),
    (by decide),
    (empty_enter_repeats_last sampleConsts sampleSumLua sampleRepeatAttached
      (lockStep_congr (lockStep_new sampleConsts 0 none) rfl rfl rfl)).1 ['d'] rfl rfl rfl,
    lockStep_congr (lockStep_new sampleConsts 0 none) rfl rfl rfl, Or.inr (by decide),
    (by decide),
    (empty_enter_repeats_last sampleConsts sampleLua sampleBrowseState
      (lockStep_congr (lockStep_new sampleConsts 0 none) rfl rfl rfl)).2.1 (Or.inr (by decide))
      (by decide)⟩

/-! ## Completion -/

theorem joinHints_eq : ∀ (rest : List (List Char)) (msg : List Char),
    joinHints rest msg = msg ++ (rest.map (fun p => ' ' :: p)).flatten := by
  intro rest
  induction rest with
  | nil => intro msg; simp [joinHints]
  | cons p rest ih => intro msg; rw [joinHints, ih]; simp

theorem intercalate_space : ∀ (a : List Char) (rest : List (List Char)),
    List.intercalate [' '] (a :: rest) = a ++ (rest.map (fun p => ' ' :: p)).flatten := by
  intro a rest
  induction rest generalizing a with
  | nil => simp [List.intercalate]
  | cons b rest ih =>
    have h := ih b
    simp only [List.intercalate, List.intersperse_cons_cons, List.flatten_cons] at h ⊢
    rw [h]
    simp

/-- The text `tryComplete` echoes for the candidates: they are joined by single spaces. -/
theorem joinHints_intercalate (cands : List (List Char)) (h : cands ≠ []) :
    joinHints (cands.drop 1) (cands.getD 0 []) = List.intercalate [' '] cands := by
  cases cands with
  | nil => exact absurd rfl h
  | cons a rest =>
    rw [intercalate_space, joinHints_eq]
    rfl

/-- The body of `tryComplete` with an interpreter attached. -/
theorem tryComplete_attached (k : Consts) (hints : HintCalls) (m : LuaConsoleModel)
    (hL : m.L = some ()) :
    m.tryComplete k hints =
      if (hints.candidates (hints.prepareHints m.m_lastline)).length > 1 then
        if (hints.commonPrefix (hints.candidates (hints.prepareHints m.m_lastline))).isEmpty ∨
            (hints.commonPrefix (hints.candidates (hints.prepareHints m.m_lastline))).length
              ≤ (hints.prepareHints m.m_lastline).length then
          echoColored k (joinHints ((hints.candidates (hints.prepareHints m.m_lastline)).drop 1)
            ((hints.candidates (hints.prepareHints m.m_lastline)).getD 0 []))
            (m.m_colors ECONSOLE_COLOR.ECC_HINT) m
        else
          match substrFrom (hints.commonPrefix (hints.candidates (hints.prepareHints m.m_lastline)))
              (hints.prepareHints m.m_lastline).length with
          | none => none
          | some ext =>
            some (moveCursor k.kCursorEnd
              { m with m_lastline := m.m_lastline ++ ext,
                       m_dirtyness := incUnsigned m.m_dirtyness })
      else if (hints.candidates (hints.prepareHints m.m_lastline)).length = 1 then
        match substrFrom ((hints.candidates (hints.prepareHints m.m_lastline)).getD 0 [])
            (hints.prepareHints m.m_lastline).length with
        | none => none
        | some ext =>
          some (moveCursor k.kCursorEnd
            { m with m_lastline := m.m_lastline ++ ext,
                     m_dirtyness := incUnsigned m.m_dirtyness })
      else some m := by
  unfold tryComplete
  rw [hL]
  rfl

/-- The line, the cursor and the scrollback after the line is extended by `ext`. -/
theorem moveCursor_end_spliced (k : Consts) (m : LuaConsoleModel) (ext : List Char) :
    (moveCursor k.kCursorEnd
      { m with m_lastline := m.m_lastline ++ ext,
               m_dirtyness := incUnsigned m.m_dirtyness }).m_lastline = m.m_lastline ++ ext ∧
    (((m.m_lastline ++ ext).length : Int) + 1 ≤ wrapInt32 (m.m_cur + k.kCursorEnd) →
      (moveCursor k.kCursorEnd
        { m with m_lastline := m.m_lastline ++ ext,
                 m_dirtyness := incUnsigned m.m_dirtyness }).m_cur
        = ((m.m_lastline ++ ext).length : Int) + 1) ∧
    (moveCursor k.kCursorEnd
      { m with m_lastline := m.m_lastline ++ ext,
               m_dirtyness := incUnsigned m.m_dirtyness }).m_msg = m.m_msg ∧
    (moveCursor k.kCursorEnd
      { m with m_lastline := m.m_lastline ++ ext,
               m_dirtyness := incUnsigned m.m_dirtyness }).m_widemsg = m.m_widemsg := by
  unfold moveCursor
  simp only [ensureCurInView_cur, ensureCurInView_lastline]
  refine ⟨trivial, ?_, ?_, ?_⟩
  · intro h; omega
  · rw [ensureCurInView_frame]
  · rw [ensureCurInView_frame]

/-- C22: `tryComplete` with an interpreter attached, in a state with a consistent
scrollback, with `t` the token of the line, `cands` the candidates collected and `p`
what `commonPrefix` makes of them.  With at least two candidates and `p` longer than
`t`, the line becomes `line ++ p.drop(len t)`, nothing is echoed, and the cursor is one
past the end of the new line, provided the header constant `kCursorEnd` carries it
there; with at least two candidates and `p` not longer than `t`, line and cursor are
unchanged and the one message echoed, in the hint colour, is the candidates joined by
single spaces.  With one candidate `c` at least as long as `t` the line becomes
`line ++ c.drop(len t)` with the cursor at its end; with no candidate nothing changes. -/
theorem tryComplete_policy (k : Consts) (hints : HintCalls) (m : LuaConsoleModel)
    (hL : m.L = some ()) (h : LockStep m) :
    (2 ≤ (hints.candidates (hints.prepareHints m.m_lastline)).length →
      (hints.prepareHints m.m_lastline).length
        < (hints.commonPrefix (hints.candidates (hints.prepareHints m.m_lastline))).length →
      ∃ m', m.tryComplete k hints = some m' ∧
        m'.m_lastline = m.m_lastline ++
          (hints.commonPrefix (hints.candidates (hints.prepareHints m.m_lastline))).drop
            (hints.prepareHints m.m_lastline).length ∧
        ((m'.m_lastline.length : Int) + 1 ≤ wrapInt32 (m.m_cur + k.kCursorEnd) →
          m'.m_cur = (m'.m_lastline.length : Int) + 1) ∧
        m'.m_msg = m.m_msg ∧ m'.m_widemsg = m.m_widemsg) ∧
    (2 ≤ (hints.candidates (hints.prepareHints m.m_lastline)).length →
      (hints.commonPrefix (hints.candidates (hints.prepareHints m.m_lastline))).length
        ≤ (hints.prepareHints m.m_lastline).length →
      ∃ m', m.tryComplete k hints = some m' ∧
        m'.m_lastline = m.m_lastline ∧ m'.m_cur = m.m_cur ∧
        echoColored k
          (List.intercalate [' '] (hints.candidates (hints.prepareHints m.m_lastline)))
          (m.m_colors ECONSOLE_COLOR.ECC_HINT) m = some m' ∧
        (m.m_msg.length < kMessagesKeptCount →
          m'.m_msg = m.m_msg ++ [echoedLine m
            (List.intercalate [' '] (hints.candidates (hints.prepareHints m.m_lastline)))
            (List.replicate
              (List.intercalate [' ']
                (hints.candidates (hints.prepareHints m.m_lastline))).length
              (m.m_colors ECONSOLE_COLOR.ECC_HINT))])) ∧
    (∀ c : List Char, hints.candidates (hints.prepareHints m.m_lastline) = [c] →
      (hints.prepareHints m.m_lastline).length ≤ c.length →
      ∃ m', m.tryComplete k hints = some m' ∧
        m'.m_lastline = m.m_lastline ++ c.drop (hints.prepareHints m.m_lastline).length ∧
        ((m'.m_lastline.length : Int) + 1 ≤ wrapInt32 (m.m_cur + k.kCursorEnd) →
          m'.m_cur = (m'.m_lastline.length : Int) + 1) ∧
        m'.m_msg = m.m_msg ∧ m'.m_widemsg = m.m_widemsg) ∧
    (hints.candidates (hints.prepareHints m.m_lastline) = [] →
      m.tryComplete k hints = some m) := by
  rw [tryComplete_attached k hints m hL]
  refine ⟨?_, ?_, ?_, ?_⟩
  · intro h2 hp
    rw [if_pos (by omega), if_neg]
    · have hs : substrFrom
          (hints.commonPrefix (hints.candidates (hints.prepareHints m.m_lastline)))
          (hints.prepareHints m.m_lastline).length
          = some ((hints.commonPrefix (hints.candidates (hints.prepareHints m.m_lastline))).drop
            (hints.prepareHints m.m_lastline).length) := by
        unfold substrFrom; rw [if_pos (by omega)]
      rw [hs]
      obtain ⟨a, b, c, d⟩ := moveCursor_end_spliced k m
        ((hints.commonPrefix (hints.candidates (hints.prepareHints m.m_lastline))).drop
          (hints.prepareHints m.m_lastline).length)
      refine ⟨_, rfl, a, ?_, c, d⟩
      intro hc
      rw [a] at hc ⊢
      exact b hc
    · rintro (he | he)
      · rw [List.isEmpty_iff] at he
        rw [he] at hp
        simp at hp
      · omega
  · intro h2 hp
    rw [if_pos (by omega), if_pos (Or.inr hp)]
    have hne : hints.candidates (hints.prepareHints m.m_lastline) ≠ [] := by
      intro hnil; rw [hnil] at h2; simp at h2
    rw [joinHints_intercalate _ hne]
    obtain ⟨m', h1, _, hf, hlt, _⟩ := echoLine_spec k m
      (List.intercalate [' '] (hints.candidates (hints.prepareHints m.m_lastline)))
      (List.replicate
        (List.intercalate [' '] (hints.candidates (hints.prepareHints m.m_lastline))).length
        (m.m_colors ECONSOLE_COLOR.ECC_HINT)) h
    have h1' : echoColored k
        (List.intercalate [' '] (hints.candidates (hints.prepareHints m.m_lastline)))
        (m.m_colors ECONSOLE_COLOR.ECC_HINT) m = some m' := h1
    refine ⟨m', h1', by rw [hf], by rw [hf], h1', fun hroom => (hlt hroom).1⟩
  · intro c hc hlen
    rw [hc]
    rw [if_neg (by simp), if_pos (by simp)]
    have hs : substrFrom (([c] : List (List Char)).getD 0 []) (hints.prepareHints m.m_lastline).length
        = some (c.drop (hints.prepareHints m.m_lastline).length) := by
      unfold substrFrom
      simp only [List.getD_cons_zero]
      rw [if_pos hlen]
    rw [hs]
    obtain ⟨a, b, c', d⟩ := moveCursor_end_spliced k m
      (c.drop (hints.prepareHints m.m_lastline).length)
    refine ⟨_, rfl, a, ?_, c', d⟩
    intro hcur
    rw [a] at hcur ⊢
    exact b hcur
  · intro hc
    rw [hc]
    rw [if_neg (by simp), if_neg (by simp)]

/-- Witness of C22: the token `pr` with the candidates `print`, `printf`; with `print`,
`pray`; with the single candidate `prbc`; with none. -/
theorem tryComplete_policy_witness :
    sampleTokenState.L = some () ∧ LockStep sampleTokenState ∧
    (2 ≤ (sampleHintsExtend.candidates
        (sampleHintsExtend.prepareHints sampleTokenState.m_lastline)).length ∧
      (sampleHintsExtend.prepareHints sampleTokenState.m_lastline).length
        < (sampleHintsExtend.commonPrefix (sampleHintsExtend.candidates
            (sampleHintsExtend.prepareHints sampleTokenState.m_lastline))).length ∧
      ∃ m', sampleTokenState.tryComplete sampleConsts sampleHintsExtend = some m' ∧
        m'.m_lastline = ['p', 'r', 'i', 'n', 't'] ∧ m'.m_cur = 6 ∧
        m'.m_msg = sampleTokenState.m_msg ∧ m'.m_widemsg = sampleTokenState.m_widemsg) ∧
    (2 ≤ (sampleHintsList.candidates
        (sampleHintsList.prepareHints sampleTokenState.m_lastline)).length ∧
      (sampleHintsList.commonPrefix (sampleHintsList.candidates
          (sampleHintsList.prepareHints sampleTokenState.m_lastline))).length
        ≤ (sampleHintsList.prepareHints sampleTokenState.m_lastline).length ∧
      sampleTokenState.m_msg.length < kMessagesKeptCount ∧
      ∃ m', sampleTokenState.tryComplete sampleConsts sampleHintsList = some m' ∧
        m'.m_lastline = sampleTokenState.m_lastline ∧ m'.m_cur = sampleTokenState.m_cur ∧
        m'.m_msg.map (fun l => l.Text)
          = [['p', 'r', 'i', 'n', 't', ' ', 'p', 'r', 'a', 'y']]) ∧
    (sampleHints.candidates (sampleHints.prepareHints sampleTokenState.m_lastline)
        = [['p', 'r', 'b', 'c']] ∧
      (sampleHints.prepareHints sampleTokenState.m_lastline).length
        ≤ (['p', 'r', 'b', 'c'] : List Char).length ∧
      ∃ m', sampleTokenState.tryComplete sampleConsts sampleHints = some m' ∧
        m'.m_lastline = ['p', 'r', 'b', 'c'] ∧ m'.m_cur = 5) ∧
    (sampleHintsNone.candidates (sampleHintsNone.prepareHints sampleTokenState.m_lastline) = [] ∧
      sampleTokenState.tryComplete sampleConsts sampleHintsNone = some sampleTokenState) :=
  ⟨rfl, lockStep_congr (lockStep_new sampleConsts 0 none) rfl rfl rfl,
    ⟨(by decide), (by decide),
      ((tryComplete_policy sampleConsts sampleHintsExtend sampleTokenState rfl
        (lockStep_congr (lockStep_new sampleConsts 0 none) rfl rfl rfl)).1
          (by decide) (by decide)).elim
        (fun m' hm => ⟨m', hm.1, hm.2.1,
          (hm.2.2.1 (by rw [hm.2.1]; decide)).trans (by rw [hm.2.1]; rfl),
          hm.2.2.2.1, hm.2.2.2.2⟩)⟩,
    ⟨(by decide), (by decide), (by decide),
      ((tryComplete_policy sampleConsts sampleHintsList sampleTokenState rfl
        (lockStep_congr (lockStep_new sampleConsts 0 none) rfl rfl rfl)).2.1
          (by decide) (by decide)).elim
        (fun m' hm => ⟨m', hm.1, hm.2.1, hm.2.2.1,
          (by rw [hm.2.2.2.2 (by decide)]; rfl)⟩)⟩,
    ⟨rfl, (by decide),
      ((tryComplete_policy sampleConsts sampleHints sampleTokenState rfl
        (lockStep_congr (lockStep_new sampleConsts 0 none) rfl rfl rfl)).2.2.1
          ['p', 'r', 'b', 'c'] rfl (by decide)).elim
        (fun m' hm => ⟨m', hm.1, hm.2.1,
          (hm.2.2.1 (by rw [hm.2.1]; decide)).trans (by rw [hm.2.1]; rfl)⟩)⟩,
    ⟨rfl, (tryComplete_policy sampleConsts sampleHintsNone sampleTokenState rfl
        (lockStep_congr (lockStep_new sampleConsts 0 none) rfl rfl rfl)).2.2.2 rfl⟩⟩

/-! ## Submission: comment commands and results -/

/-- C26: in a state with a consistent scrollback `parseLastLine` does not return when
the run of the chunk ends in a null error (an error object without a string form that the
classifier does not take for an incomplete chunk), and otherwise it calls
`checkSpecialComments`, after the evaluation, exactly when the submit buffer was empty
before the submission and comment commands are enabled.  If so and the submitted line is
`--clear`, the scrollback afterwards has no message, no wide message and scroll offset
0; if the buffer was not empty or comment commands are disabled, the scrollback is left
as the code echo and the evaluation made it, which holds a message at least. -/
theorem comment_commands_fresh_only (k : Consts) (lua : LuaCalls) (m : LuaConsoleModel)
    (h : LockStep m) :
    (nullError lua (submitted m) = true → parseLastLine k lua m = none) ∧
    (nullError lua (submitted m) = false →
    ∃ (m1 m2 : LuaConsoleModel) (ret : ELINE_PARSE_RESULT),
      echoColored k (submittedLine m) (m.m_colors ECONSOLE_COLOR.ECC_CODE)
        { m with m_lastline := submittedLine m } = some m1 ∧
      evalBuffer k lua (submitState m1) = some (m2, ret) ∧ m2.m_msg ≠ [] ∧
      (m.m_buffcmd = [] → m.m_commentcommands = true →
        ∃ m3, checkSpecialComments k m2 = some m3 ∧
          parseLastLine k lua m = some (submitEnd m3, ret) ∧
          (submittedLine m = ['-', '-', 'c', 'l', 'e', 'a', 'r'] →
            (submitEnd m3).m_msg = [] ∧ (submitEnd m3).m_widemsg = [] ∧
            (submitEnd m3).m_firstmsg = 0)) ∧
      (m.m_buffcmd ≠ [] ∨ m.m_commentcommands = false →
        parseLastLine k lua m = some (submitEnd m2, ret) ∧
        (submitEnd m2).m_msg = m2.m_msg ∧ (submitEnd m2).m_widemsg = m2.m_widemsg ∧
        (submitEnd m2).m_firstmsg = m2.m_firstmsg ∧ (submitEnd m2).m_msg ≠ [])) := by
  refine ⟨parseLastLine_null k lua m h, fun hn => ?_⟩
  obtain ⟨m1, m2, ret, h1, hf1, hl1, hne1, h2, hs2, hr2, hp⟩ :=
    parseLastLine_parts k lua m _ (echoClosed_msg k) h hn
  have hne2 : m2.m_msg ≠ [] := hr2 hne1
  have e2l : m2.m_lastline = submittedLine m := by
    have a : m2.m_lastline = (submitState m1).m_lastline := by rw [hs2.2]
    have b : (submitState m1).m_lastline = m1.m_lastline := rfl
    rw [a, b, hf1]
  refine ⟨m1, m2, ret, h1, h2, hne2, ?_, ?_⟩
  · intro hb hc
    obtain ⟨m3, h3, _⟩ := checkSpecialComments_step k m2 hs2.1
    refine ⟨m3, h3, ?_, ?_⟩
    · apply hp
      rw [if_pos ⟨by rw [hb]; rfl, hc⟩]
      exact h3
    · intro hline
      have e3 : m3 = m2.clearScreen := by
        unfold checkSpecialComments at h3
        simp only at h3
        rw [e2l, hline] at h3
        rw [if_pos rfl] at h3
        have hl : m2.clearScreen.m_lastline = ['-', '-', 'c', 'l', 'e', 'a', 'r'] := by
          show m2.m_lastline = _
          rw [e2l, hline]
        rw [hl, if_neg (by decide)] at h3
        exact (Option.some.inj h3).symm
      rw [e3]
      exact ⟨rfl, rfl, rfl⟩
  · intro hcond
    refine ⟨?_, rfl, rfl, rfl, hne2⟩
    apply hp
    rw [if_neg]
    rintro ⟨a, b⟩
    rcases hcond with hcond | hcond
    · exact hcond (List.isEmpty_iff.mp a)
    · rw [hcond] at b; cases b

theorem lockStep_sampleClearState : LockStep sampleClearState :=
  ⟨(by decide), (by decide), (by decide)⟩

/-- Witness of C26: the line `--clear` submitted on an empty submit buffer with one
message in the scrollback, with comment commands enabled and disabled. -/
theorem comment_commands_fresh_only_witness :
    LockStep sampleClearState ∧ sampleClearState.m_buffcmd = [] ∧
    sampleClearState.m_commentcommands = true ∧
    submittedLine sampleClearState = ['-', '-', 'c', 'l', 'e', 'a', 'r'] ∧
    nullError sampleLua (submitted sampleClearState) = false ∧
    nullError sampleLua
      (submitted { sampleClearState with m_commentcommands := false }) = false ∧
    (∃ m' ret, parseLastLine sampleConsts sampleLua sampleClearState = some (m', ret) ∧
      m'.m_msg = [] ∧ m'.m_widemsg = [] ∧ m'.m_firstmsg = 0) ∧
    LockStep { sampleClearState with m_commentcommands := false } ∧
    (({ sampleClearState with m_commentcommands := false } : LuaConsoleModel).m_buffcmd ≠ [] ∨
      ({ sampleClearState with m_commentcommands := false } : LuaConsoleModel).m_commentcommands
        = false) ∧
    (∃ m' ret, parseLastLine sampleConsts sampleLua
        { sampleClearState with m_commentcommands := false } = some (m', ret) ∧
      m'.m_msg ≠ []) := by
  refine ⟨lockStep_sampleClearState, rfl, rfl, (by decide), (by decide), (by decide), ?_,
    lockStep_congr lockStep_sampleClearState rfl rfl rfl, Or.inr rfl, ?_⟩
  · obtain ⟨m1, m2, ret, _, _, _, ha, _⟩ :=
      (comment_commands_fresh_only sampleConsts sampleLua sampleClearState
        lockStep_sampleClearState).2 (by decide)
    obtain ⟨m3, _, hp, hc⟩ := ha rfl rfl
    exact ⟨_, _, hp, hc (by decide)⟩
  · obtain ⟨m1, m2, ret, _, _, _, _, hb⟩ :=
      (comment_commands_fresh_only sampleConsts sampleLua
        { sampleClearState with m_commentcommands := false }
        (lockStep_congr lockStep_sampleClearState rfl rfl rfl)).2 (by decide)
    obtain ⟨hp, _, _, _, hne⟩ := hb (Or.inr rfl)
    exact ⟨_, _, hp, hne⟩

/-- The text of `printLuaStackInColor`: every value is followed by a space. -/
theorem printedStack_eq (values : List LuaValue) :
    printedStack values = (values.map (fun v => printValue v ++ [' '])).flatten := by
  have key : ∀ (vs : List LuaValue) (acc : List Char),
      vs.foldl (fun ss v => ss ++ printValue v ++ [' ']) acc
        = acc ++ (vs.map (fun v => printValue v ++ [' '])).flatten := by
    intro vs
    induction vs with
    | nil => intro acc; simp
    | cons v vs ih => intro acc; rw [List.foldl_cons, ih]; simp
  unfold printedStack
  rw [key]
  simp

/-- The evaluation of a submit buffer that compiles to `code`, runs without error and
leaves values that are printed. -/
theorem evalBuffer_success (k : Consts) (lua : LuaCalls) (m m2 m3 : LuaConsoleModel)
    (code : List Char) (values : List LuaValue) (hL : m.L = some ())
    (ha : m.m_addreturn = true)
    (hcode : (lua.luaL_loadstring (['r', 'e', 't', 'u', 'r', 'n', ' '] ++ m.m_buffcmd) = none ∧
        code = ['r', 'e', 't', 'u', 'r', 'n', ' '] ++ m.m_buffcmd) ∨
      (lua.luaL_loadstring (['r', 'e', 't', 'u', 'r', 'n', ' '] ++ m.m_buffcmd) ≠ none ∧
        lua.luaL_loadstring m.m_buffcmd = none ∧ code = m.m_buffcmd))
    (hrun : (lua.lua_pcall code).result = Except.ok values) (hv : values ≠ [])
    (h2 : runEchoes k (lua.lua_pcall code).echoed m = some m2)
    (hp : m2.m_printeval = true)
    (h3 : echoColored k (printedStack values) (m2.m_colors ECONSOLE_COLOR.ECC_EVAL)
      { m2 with m_buffcmd := [] } = some m3) :
    evalBuffer k lua m = some (m3, ELINE_PARSE_RESULT.ELPR_OK) := by
  have hloaded : (if m.m_addreturn = true then
        (if (tryEval lua true m).1 = true then tryEval lua true m else tryEval lua false m)
      else tryEval lua false m) = (true, Loaded.chunk code) := by
    rw [if_pos ha]
    rcases hcode with ⟨h1, hc⟩ | ⟨h1, h1', hc⟩
    · have ht : tryEval lua true m = (true, Loaded.chunk code) := by
        unfold tryEval
        simp only [if_true]
        rw [h1, hc]
      rw [ht]
      rfl
    · have ht : tryEval lua true m = (false, Loaded.nothing) := by
        unfold tryEval
        simp only [if_true]
        cases hr : lua.luaL_loadstring (['r', 'e', 't', 'u', 'r', 'n', ' '] ++ m.m_buffcmd) with
        | none => exact absurd hr h1
        | some e => rfl
      have hf : tryEval lua false m = (true, Loaded.chunk code) := by
        unfold tryEval
        simp only [Bool.false_eq_true, if_false]
        rw [h1', hc]
      rw [ht]
      simp only [Bool.false_eq_true, if_false]
      exact hf
  unfold evalBuffer
  rw [hL]
  simp only
  rw [hloaded]
  simp only
  rw [h2]
  simp only
  rw [hrun]
  simp only
  rw [if_pos ⟨hp, hv⟩]
  have h3' : printLuaStackInColor k values (m2.m_colors ECONSOLE_COLOR.ECC_EVAL)
      { m2 with m_buffcmd := [] } = some m3 := h3
  rw [h3']

/-- C27 (counterexample): the line `1+1` is submitted with an interpreter attached that
leaves the single number 2.  `parseLastLine` returns `ELPR_OK` with an empty submit
buffer, and the messages are the code echo `1+1` and the result echo, whose text is `2`
followed by a space: it is not the text `2`. -/
theorem result_echo_text_not_bare :
    (parseLastLine sampleConsts sampleSumLua sampleSumState).map
        (fun r => (r.2, r.1.m_buffcmd, r.1.m_msg.map (fun l => l.Text)))
      = some (ELINE_PARSE_RESULT.ELPR_OK, [], [['1', '+', '1'], ['2', ' ']]) ∧
    ¬ ((parseLastLine sampleConsts sampleSumLua sampleSumState).map
        (fun r => (r.1.m_msg.map (fun l => l.Text)).getLast?) = some (some ['2'])) := by
  constructor
  · decide
  · decide

/-- C27 (amended): in a state with a consistent scrollback, an interpreter attached,
implicit-return wrapping and result printing enabled: if the submit buffer with the
submitted line and a newline appended compiles to `code` (in its `return ` form, or in
its plain form when that one does not compile), running `code` succeeds and leaves the
values `values`, not none, and the line is not a comment command acting on a fresh
buffer, then `parseLastLine` returns `ELPR_OK` with an empty submit buffer, and after
the code echo and what the chunk itself echoes exactly one message is added: in the
eval colour, its text the printed forms of the values, each followed by one space; for
the single number printed `2` the text is `2` and a space. -/
theorem result_echo_on_success (k : Consts) (lua : LuaCalls) (m : LuaConsoleModel)
    (code : List Char) (values : List LuaValue) (h : LockStep m) (hL : m.L = some ())
    (ha : m.m_addreturn = true) (hp : m.m_printeval = true)
    (hcode : (lua.luaL_loadstring (['r', 'e', 't', 'u', 'r', 'n', ' '] ++
          (m.m_buffcmd ++ submittedLine m ++ [newline])) = none ∧
        code = ['r', 'e', 't', 'u', 'r', 'n', ' '] ++
          (m.m_buffcmd ++ submittedLine m ++ [newline])) ∨
      (lua.luaL_loadstring (['r', 'e', 't', 'u', 'r', 'n', ' '] ++
          (m.m_buffcmd ++ submittedLine m ++ [newline])) ≠ none ∧
        lua.luaL_loadstring (m.m_buffcmd ++ submittedLine m ++ [newline]) = none ∧
        code = m.m_buffcmd ++ submittedLine m ++ [newline]))
    (hrun : (lua.lua_pcall code).result = Except.ok values) (hv : values ≠ [])
    (hcmd : m.m_buffcmd = [] → m.m_commentcommands = true →
      submittedLine m ≠ ['-', '-', 'c', 'l', 'e', 'a', 'r'] ∧
      submittedLine m ≠ ['-', '-', 'h', 'i', 's', 't', 'o', 'r', 'y']) :
    ∃ m1 m2 m3 : LuaConsoleModel,
      echoColored k (submittedLine m) (m.m_colors ECONSOLE_COLOR.ECC_CODE)
        { m with m_lastline := submittedLine m } = some m1 ∧
      runEchoes k (lua.lua_pcall code).echoed (submitState m1) = some m2 ∧
      echoColored k (printedStack values) (m.m_colors ECONSOLE_COLOR.ECC_EVAL)
        { m2 with m_buffcmd := [] } = some m3 ∧
      parseLastLine k lua m = some (submitEnd m3, ELINE_PARSE_RESULT.ELPR_OK) ∧
      (submitEnd m3).m_buffcmd = [] ∧
      (m2.m_msg.length < kMessagesKeptCount →
        (submitEnd m3).m_msg = m2.m_msg ++ [echoedLine m (printedStack values)
          (List.replicate (printedStack values).length (m.m_colors ECONSOLE_COLOR.ECC_EVAL))]) ∧
      printedStack values = (values.map (fun v => printValue v ++ [' '])).flatten ∧
      (∀ t : List Char, values = [LuaValue.text t] → printedStack values = t ++ [' ']) := by
  have hl0 : LockStep { m with m_lastline := submittedLine m } := lockStep_congr h rfl rfl rfl
  obtain ⟨m1, h1, hl1, hf1, _, _⟩ := echoLine_spec k { m with m_lastline := submittedLine m }
    (submittedLine m)
    (List.replicate (submittedLine m).length (m.m_colors ECONSOLE_COLOR.ECC_CODE)) hl0
  have e1L : m1.L = m.L := by rw [hf1]
  have e1b : m1.m_buffcmd = m.m_buffcmd := by rw [hf1]
  have e1l : m1.m_lastline = submittedLine m := by rw [hf1]
  have e1a : m1.m_addreturn = m.m_addreturn := by rw [hf1]
  have e1c : m1.m_commentcommands = m.m_commentcommands := by rw [hf1]
  have e1p : m1.m_printeval = m.m_printeval := by rw [hf1]
  have e1col : m1.m_colors = m.m_colors := by rw [hf1]
  have hl2 : LockStep (submitState m1) := lockStep_congr hl1 rfl rfl rfl
  have eSb : (submitState m1).m_buffcmd = m.m_buffcmd ++ submittedLine m ++ [newline] := by
    show m1.m_buffcmd ++ m1.m_lastline ++ [newline] = _
    rw [e1b, e1l]
  obtain ⟨m2, h2, hls2, hf2⟩ := runEchoes_step k (lua.lua_pcall code).echoed _ hl2
  have e2p : m2.m_printeval = true := by
    have a : m2.m_printeval = (submitState m1).m_printeval := by rw [hf2]
    rw [a]; exact e1p.trans hp
  have e2col : m2.m_colors = m.m_colors := by
    have a : m2.m_colors = (submitState m1).m_colors := by rw [hf2]
    rw [a]; exact e1col
  have ecol : m2.m_colors ECONSOLE_COLOR.ECC_EVAL = m.m_colors ECONSOLE_COLOR.ECC_EVAL := by
    rw [e2col]
  have e2c : m2.m_commentcommands = m.m_commentcommands := by
    have a : m2.m_commentcommands = (submitState m1).m_commentcommands := by rw [hf2]
    rw [a]; exact e1c
  have e2l : m2.m_lastline = submittedLine m := by
    have a : m2.m_lastline = (submitState m1).m_lastline := by rw [hf2]
    rw [a]; exact e1l
  have hlb : LockStep { m2 with m_buffcmd := [] } := lockStep_congr hls2 rfl rfl rfl
  obtain ⟨m3, h3, _, hf3, hlt3, _⟩ := echoLine_spec k { m2 with m_buffcmd := [] }
    (printedStack values)
    (List.replicate (printedStack values).length (m.m_colors ECONSOLE_COLOR.ECC_EVAL)) hlb
  have h3' : echoColored k (printedStack values) (m.m_colors ECONSOLE_COLOR.ECC_EVAL)
      { m2 with m_buffcmd := [] } = some m3 := h3
  have e3c : m3.m_commentcommands = m.m_commentcommands := by rw [hf3]; exact e2c
  have e3l : m3.m_lastline = submittedLine m := by rw [hf3]; exact e2l
  have e3b : m3.m_buffcmd = [] := by rw [hf3]
  have hev := evalBuffer_success k lua (submitState m1) m2 m3 code values (e1L.trans hL)
    (e1a.trans ha) (by rw [eSb]; exact hcode) hrun hv h2 e2p (by rw [ecol]; exact h3')
  have hchk : (if m1.m_buffcmd.isEmpty = true ∧ m3.m_commentcommands = true then
      checkSpecialComments k m3 else some m3) = some m3 := by
    split
    · rename_i hc
      have hb : m.m_buffcmd = [] := by
        have := hc.1
        rw [e1b] at this
        exact List.isEmpty_iff.mp this
      obtain ⟨n1, n2⟩ := hcmd hb (e3c.symm.trans hc.2)
      unfold checkSpecialComments
      simp only
      rw [e3l, if_neg n1, e3l, if_neg n2]
    · rfl
  have hpl := parseLastLine_of_steps k lua m m1 m3 m3 _ h1 hev hchk
  refine ⟨m1, m2, m3, h1, h2, h3', hpl, e3b, ?_, printedStack_eq values, ?_⟩
  · intro hroom
    show m3.m_msg = _
    have := (hlt3 hroom).1
    rw [this]
    simp only [echoedLine, e2col]
  · intro t ht
    rw [printedStack_eq, ht]
    simp [printValue]

/-- Witness of C27: the line `1+1` with the single result 2. -/
theorem result_echo_on_success_witness :
    LockStep sampleSumState ∧ sampleSumState.L = some () ∧
    sampleSumState.m_addreturn = true ∧ sampleSumState.m_printeval = true ∧
    sampleSumLua.luaL_loadstring (['r', 'e', 't', 'u', 'r', 'n', ' '] ++
      (sampleSumState.m_buffcmd ++ submittedLine sampleSumState ++ [newline])) = none ∧
    (sampleSumLua.lua_pcall (['r', 'e', 't', 'u', 'r', 'n', ' '] ++
      (sampleSumState.m_buffcmd ++ submittedLine sampleSumState ++ [newline]))).result
        = Except.ok [LuaValue.text ['2']] ∧
    ([LuaValue.text ['2']] : List LuaValue) ≠ [] ∧
    (sampleSumState.m_buffcmd = [] → sampleSumState.m_commentcommands = true →
      submittedLine sampleSumState ≠ ['-', '-', 'c', 'l', 'e', 'a', 'r'] ∧
      submittedLine sampleSumState ≠ ['-', '-', 'h', 'i', 's', 't', 'o', 'r', 'y']) ∧
    ∃ m', parseLastLine sampleConsts sampleSumLua sampleSumState
        = some (m', ELINE_PARSE_RESULT.ELPR_OK) ∧
      m'.m_buffcmd = [] ∧ printedStack [LuaValue.text ['2']] = ['2', ' '] := by
  refine ⟨lockStep_congr (lockStep_new sampleConsts 0 none) rfl rfl rfl, rfl, rfl, rfl, rfl, rfl,
    (by decide), (by decide), ?_⟩
  obtain ⟨m1, m2, m3, _, _, _, hp, hb, _, _, ht⟩ :=
    result_echo_on_success sampleConsts sampleSumLua sampleSumState
      (['r', 'e', 't', 'u', 'r', 'n', ' '] ++
        (sampleSumState.m_buffcmd ++ submittedLine sampleSumState ++ [newline]))
      [LuaValue.text ['2']]
      (lockStep_congr (lockStep_new sampleConsts 0 none) rfl rfl rfl) rfl rfl rfl
      (Or.inl ⟨rfl, rfl⟩) rfl (by decide) (by decide)
  exact ⟨_, hp, hb, ht ['2'] rfl⟩

/-! ## Word moves make progress -/

/-- The scan to the right returns an index at or after its start, and after it when it
has yet to meet a non-skip character. -/
theorem findLoop_right_lower (line skips : List Char) :
    ∀ (fuel : Nat) (i : Int) (g : Bool), findLoop line skips 1 fuel i g ≠ -1 →
      i ≤ findLoop line skips 1 fuel i g ∧ (g = false → i < findLoop line skips 1 fuel i g) := by
  intro fuel
  induction fuel with
  | zero => intro i g h; exact absurd rfl h
  | succ fuel ih =>
    intro i g
    rw [findLoop]
    split
    · cases g with
      | true =>
        simp only [if_true]
        split
        · intro _
          exact ⟨Int.le_refl _, fun hg => by cases hg⟩
        · intro hne
          have := ih (i + 1) true hne
          exact ⟨by omega, fun hg => by cases hg⟩
      | false =>
        simp only [Bool.false_eq_true, if_false]
        split
        · intro hne
          have := ih (i + 1) true hne
          exact ⟨by omega, fun _ => by omega⟩
        · intro hne
          have := ih (i + 1) false hne
          exact ⟨by omega, fun _ => by omega⟩
    · intro h; exact absurd rfl h

theorem moveCursorOneWord_right_cur (k : Consts) (m : LuaConsoleModel) :
    (findFirstSkipCharAfterNonskip m.m_lastline m.m_skipchars 1 (m.m_cur - 1) ≠ -1 →
      (m.moveCursorOneWord k EMOVE_DIRECTION.EMD_RIGHT).m_cur
        = findFirstSkipCharAfterNonskip m.m_lastline m.m_skipchars 1 (m.m_cur - 1) + 1) ∧
    (findFirstSkipCharAfterNonskip m.m_lastline m.m_skipchars 1 (m.m_cur - 1) = -1 →
      (m.moveCursorOneWord k EMOVE_DIRECTION.EMD_RIGHT).m_cur
        = min ((m.m_lastline.length : Int) + 1) (max (wrapInt32 (m.m_cur + k.kCursorEnd)) 1)) ∧
    (m.moveCursorOneWord k EMOVE_DIRECTION.EMD_RIGHT).m_lastline = m.m_lastline ∧
    (m.moveCursorOneWord k EMOVE_DIRECTION.EMD_RIGHT).m_skipchars = m.m_skipchars := by
  unfold moveCursorOneWord
  simp only [reduceCtorEq, if_false]
  by_cases h : findFirstSkipCharAfterNonskip m.m_lastline m.m_skipchars 1 (m.m_cur - 1) = -1
  · rw [if_pos h]
    unfold moveCursor ensureCurInView
    simp only
    refine ⟨fun hc => absurd h hc, fun _ => ?_, ?_, ?_⟩ <;> split <;> rfl
  · rw [if_neg h]
    unfold ensureCurInView
    simp only
    refine ⟨fun _ => ?_, fun hc => absurd hc h, ?_, ?_⟩
    · split <;> rfl
    · split <;> rfl
    · split <;> rfl

/-- One word move to the left: the cursor gets smaller, or stays at 1. -/
theorem moveLeft_progress (k : Consts) (m : LuaConsoleModel) (hc : CursorOk m)
    (hhome : wrapInt32 (m.m_cur + k.kCursorHome) ≤ 1) :
    1 ≤ (m.moveCursorOneWord k EMOVE_DIRECTION.EMD_LEFT).m_cur ∧
    (m.m_cur ≠ 1 → (m.moveCursorOneWord k EMOVE_DIRECTION.EMD_LEFT).m_cur < m.m_cur) ∧
    (m.m_cur = 1 → (m.moveCursorOneWord k EMOVE_DIRECTION.EMD_LEFT).m_cur = 1) := by
  obtain ⟨hfound, hnone, _, _⟩ := moveCursorOneWord_left_cur k m
  unfold CursorOk at hc
  by_cases h : findFirstSkipCharAfterNonskip m.m_lastline m.m_skipchars (-1) (m.m_cur - 1) = -1
  · rw [hnone h]
    refine ⟨by omega, fun _ => by omega, fun _ => by omega⟩
  · rw [hfound h]
    have hs := findLoop_left_spec m.m_lastline m.m_skipchars m.m_lastline.length
      (m.m_cur - 1 + -1) false h
    obtain ⟨h0, _, _, _, _, hq⟩ := hs
    obtain ⟨q, hq1, hq2, _⟩ := hq rfl
    have h0' : 0 ≤ findFirstSkipCharAfterNonskip m.m_lastline m.m_skipchars (-1) (m.m_cur - 1) := h0
    have hq1' : findFirstSkipCharAfterNonskip m.m_lastline m.m_skipchars (-1) (m.m_cur - 1) < q :=
      hq1
    refine ⟨by omega, fun _ => by omega, fun h1 => by omega⟩

/-- One word move to the right: the cursor gets greater, or stays one past the end. -/
theorem moveRight_progress (k : Consts) (m : LuaConsoleModel) (hc : CursorOk m)
    (hend : (m.m_lastline.length : Int) + 1 ≤ wrapInt32 (m.m_cur + k.kCursorEnd)) :
    (m.moveCursorOneWord k EMOVE_DIRECTION.EMD_RIGHT).m_cur ≤ (m.m_lastline.length : Int) + 1 ∧
    (m.m_cur ≠ (m.m_lastline.length : Int) + 1 →
      m.m_cur < (m.moveCursorOneWord k EMOVE_DIRECTION.EMD_RIGHT).m_cur) ∧
    (m.m_cur = (m.m_lastline.length : Int) + 1 →
      (m.moveCursorOneWord k EMOVE_DIRECTION.EMD_RIGHT).m_cur = (m.m_lastline.length : Int) + 1) := by
  obtain ⟨hfound, hnone, _, _⟩ := moveCursorOneWord_right_cur k m
  unfold CursorOk at hc
  by_cases h : findFirstSkipCharAfterNonskip m.m_lastline m.m_skipchars 1 (m.m_cur - 1) = -1
  · rw [hnone h]
    refine ⟨by omega, fun _ => by omega, fun _ => by omega⟩
  · rw [hfound h]
    have hlow := findLoop_right_lower m.m_lastline m.m_skipchars m.m_lastline.length
      (m.m_cur - 1 + 1) false h
    have hr := findLoop_range m.m_lastline m.m_skipchars 1 m.m_lastline.length
      (m.m_cur - 1 + 1) false
    have hlow' : m.m_cur - 1 + 1
        < findFirstSkipCharAfterNonskip m.m_lastline m.m_skipchars 1 (m.m_cur - 1) := hlow.2 rfl
    have hr' : findFirstSkipCharAfterNonskip m.m_lastline m.m_skipchars 1 (m.m_cur - 1) = -1 ∨
        (0 ≤ findFirstSkipCharAfterNonskip m.m_lastline m.m_skipchars 1 (m.m_cur - 1) ∧
          findFirstSkipCharAfterNonskip m.m_lastline m.m_skipchars 1 (m.m_cur - 1)
            < m.m_lastline.length) := hr
    rcases hr' with hr' | hr'
    · exact absurd hr' h
    · refine ⟨by omega, fun _ => by omega, fun h1 => by omega⟩

theorem iterate_moveLeft (k : Consts) (m : LuaConsoleModel) (hc : CursorOk m)
    (hhome : ∀ c : Int, 1 ≤ c → c ≤ (m.m_lastline.length : Int) + 1 →
      wrapInt32 (c + k.kCursorHome) ≤ 1) :
    ∀ n : Nat,
      (Nat.iterate (fun s => s.moveCursorOneWord k EMOVE_DIRECTION.EMD_LEFT) n m).m_lastline
        = m.m_lastline ∧
      CursorOk (Nat.iterate (fun s => s.moveCursorOneWord k EMOVE_DIRECTION.EMD_LEFT) n m) ∧
      (Nat.iterate (fun s => s.moveCursorOneWord k EMOVE_DIRECTION.EMD_LEFT) n m).m_cur
        ≤ max 1 (m.m_cur - n) := by
  intro n
  induction n with
  | zero =>
    refine ⟨rfl, hc, ?_⟩
    simp only [Function.iterate_zero, id_eq, Nat.cast_zero, sub_zero]
    omega
  | succ n ih =>
    obtain ⟨hl, hcn, hle⟩ := ih
    rw [Function.iterate_succ_apply']
    have hcn' := hcn
    unfold CursorOk at hcn'
    rw [hl] at hcn'
    have hp := moveLeft_progress k _ hcn (hhome _ hcn'.1 hcn'.2)
    refine ⟨?_, cursorOk_moveCursorOneWord k _ _, ?_⟩
    · rw [(moveCursorOneWord_left_cur k _).2.2.1, hl]
    · obtain ⟨h1, h2, h3⟩ := hp
      push_cast
      by_cases he : (Nat.iterate (fun s => s.moveCursorOneWord k EMOVE_DIRECTION.EMD_LEFT)
          n m).m_cur = 1
      · rw [h3 he]; omega
      · have := h2 he
        omega

theorem iterate_moveRight (k : Consts) (m : LuaConsoleModel) (hc : CursorOk m)
    (hend : ∀ c : Int, 1 ≤ c → c ≤ (m.m_lastline.length : Int) + 1 →
      (m.m_lastline.length : Int) + 1 ≤ wrapInt32 (c + k.kCursorEnd)) :
    ∀ n : Nat,
      (Nat.iterate (fun s => s.moveCursorOneWord k EMOVE_DIRECTION.EMD_RIGHT) n m).m_lastline
        = m.m_lastline ∧
      CursorOk (Nat.iterate (fun s => s.moveCursorOneWord k EMOVE_DIRECTION.EMD_RIGHT) n m) ∧
      min ((m.m_lastline.length : Int) + 1) (m.m_cur + n)
        ≤ (Nat.iterate (fun s => s.moveCursorOneWord k EMOVE_DIRECTION.EMD_RIGHT) n m).m_cur := by
  intro n
  induction n with
  | zero =>
    refine ⟨rfl, hc, ?_⟩
    simp only [Function.iterate_zero, id_eq, Nat.cast_zero, add_zero]
    omega
  | succ n ih =>
    obtain ⟨hl, hcn, hle⟩ := ih
    rw [Function.iterate_succ_apply']
    have hcn' := hcn
    unfold CursorOk at hcn'
    rw [hl] at hcn'
    have hp := moveRight_progress k _ hcn (by rw [hl]; exact hend _ hcn'.1 hcn'.2)
    rw [hl] at hp
    refine ⟨?_, cursorOk_moveCursorOneWord k _ _, ?_⟩
    · rw [(moveCursorOneWord_right_cur k _).2.2.1, hl]
    · obtain ⟨h1, h2, h3⟩ := hp
      push_cast
      by_cases he : (Nat.iterate (fun s => s.moveCursorOneWord k EMOVE_DIRECTION.EMD_RIGHT)
          n m).m_cur = (m.m_lastline.length : Int) + 1
      · rw [h3 he]; omega
      · have := h2 he
        omega

/-- C29: for every state whose cursor `c` satisfies `1 <= c <= len + 1`, with header
constants `kCursorHome` and `kCursorEnd` that carry any such cursor to or below 1 and to
or beyond `len + 1`: `moveCursorOneWord(left)` gives a cursor smaller than `c`, unless
`c` is 1, when it stays 1; `moveCursorOneWord(right)` gives a cursor greater than `c`,
unless `c` is `len + 1`, when it stays `len + 1`; and `len` or more word moves to the
left end at 1, to the right at `len + 1`. -/
theorem word_moves_progress (k : Consts) (m : LuaConsoleModel) (hc : CursorOk m)
    (hhome : ∀ c : Int, 1 ≤ c → c ≤ (m.m_lastline.length : Int) + 1 →
      wrapInt32 (c + k.kCursorHome) ≤ 1)
    (hend : ∀ c : Int, 1 ≤ c → c ≤ (m.m_lastline.length : Int) + 1 →
      (m.m_lastline.length : Int) + 1 ≤ wrapInt32 (c + k.kCursorEnd)) :
    (m.m_cur ≠ 1 → (m.moveCursorOneWord k EMOVE_DIRECTION.EMD_LEFT).m_cur < m.m_cur) ∧
    (m.m_cur = 1 → (m.moveCursorOneWord k EMOVE_DIRECTION.EMD_LEFT).m_cur = 1) ∧
    1 ≤ (m.moveCursorOneWord k EMOVE_DIRECTION.EMD_LEFT).m_cur ∧
    (m.m_cur ≠ (m.m_lastline.length : Int) + 1 →
      m.m_cur < (m.moveCursorOneWord k EMOVE_DIRECTION.EMD_RIGHT).m_cur) ∧
    (m.m_cur = (m.m_lastline.length : Int) + 1 →
      (m.moveCursorOneWord k EMOVE_DIRECTION.EMD_RIGHT).m_cur = (m.m_lastline.length : Int) + 1) ∧
    (m.moveCursorOneWord k EMOVE_DIRECTION.EMD_RIGHT).m_cur ≤ (m.m_lastline.length : Int) + 1 ∧
    (∀ n : Nat, m.m_lastline.length ≤ n →
      (Nat.iterate (fun s => s.moveCursorOneWord k EMOVE_DIRECTION.EMD_LEFT) n m).m_cur = 1) ∧
    (∀ n : Nat, m.m_lastline.length ≤ n →
      (Nat.iterate (fun s => s.moveCursorOneWord k EMOVE_DIRECTION.EMD_RIGHT) n m).m_cur
        = (m.m_lastline.length : Int) + 1) := by
  have hc' := hc
  unfold CursorOk at hc'
  obtain ⟨l1, l2, l3⟩ := moveLeft_progress k m hc (hhome _ hc'.1 hc'.2)
  obtain ⟨r1, r2, r3⟩ := moveRight_progress k m hc (hend _ hc'.1 hc'.2)
  refine ⟨l2, l3, l1, r2, r3, r1, ?_, ?_⟩
  · intro n hn
    obtain ⟨hl, hcn, hle⟩ := iterate_moveLeft k m hc hhome n
    unfold CursorOk at hcn
    omega
  · intro n hn
    obtain ⟨hl, hcn, hle⟩ := iterate_moveRight k m hc hend n
    unfold CursorOk at hcn
    rw [hl] at hcn
    omega

/-- Witness of C29: the line `foo bar baz` with the cursor at 12. -/
theorem word_moves_progress_witness :
    CursorOk sampleWordState ∧
    (∀ c : Int, 1 ≤ c → c ≤ (sampleWordState.m_lastline.length : Int) + 1 →
      wrapInt32 (c + sampleConsts.kCursorHome) ≤ 1) ∧
    (∀ c : Int, 1 ≤ c → c ≤ (sampleWordState.m_lastline.length : Int) + 1 →
      (sampleWordState.m_lastline.length : Int) + 1 ≤ wrapInt32 (c + sampleConsts.kCursorEnd)) ∧
    sampleWordState.m_cur ≠ 1 ∧
    sampleWordState.m_cur = (sampleWordState.m_lastline.length : Int) + 1 ∧
    sampleWordState.m_lastline.length ≤ 11 ∧
    (sampleWordState.moveCursorOneWord sampleConsts EMOVE_DIRECTION.EMD_LEFT).m_cur
      < sampleWordState.m_cur ∧
    (sampleWordState.moveCursorOneWord sampleConsts EMOVE_DIRECTION.EMD_RIGHT).m_cur
      = (sampleWordState.m_lastline.length : Int) + 1 ∧
    (Nat.iterate (fun s => s.moveCursorOneWord sampleConsts EMOVE_DIRECTION.EMD_LEFT) 11
      sampleWordState).m_cur = 1 ∧
    (Nat.iterate (fun s => s.moveCursorOneWord sampleConsts EMOVE_DIRECTION.EMD_RIGHT) 11
      sampleWordState).m_cur = (sampleWordState.m_lastline.length : Int) + 1 := by
  have hc : CursorOk sampleWordState := ⟨(by decide), (by decide)⟩
  have hhome : ∀ c : Int, 1 ≤ c → c ≤ (sampleWordState.m_lastline.length : Int) + 1 →
      wrapInt32 (c + sampleConsts.kCursorHome) ≤ 1 := by
    intro c h1 h2
    have hlen : (sampleWordState.m_lastline.length : Int) = 11 := by decide
    have hk : sampleConsts.kCursorHome = -100000 := rfl
    unfold wrapInt32
    omega
  have hend : ∀ c : Int, 1 ≤ c → c ≤ (sampleWordState.m_lastline.length : Int) + 1 →
      (sampleWordState.m_lastline.length : Int) + 1
        ≤ wrapInt32 (c + sampleConsts.kCursorEnd) := by
    intro c h1 h2
    have hlen : (sampleWordState.m_lastline.length : Int) = 11 := by decide
    have hk : sampleConsts.kCursorEnd = 100000 := rfl
    unfold wrapInt32
    omega
  have hw := word_moves_progress sampleConsts sampleWordState hc hhome hend
  exact ⟨hc, hhome, hend, (by decide), (by decide), (by decide), hw.1 (by decide),
    hw.2.2.2.2.1 (by decide), hw.2.2.2.2.2.2.1 11 (by decide),
    hw.2.2.2.2.2.2.2 11 (by decide)⟩

/-! ## The screen grid: what `updateBuffer` writes -/

theorem setCellChar_apply (scr : Nat → ScreenCell) (idx ch j : Nat) :
    setCellChar scr idx ch j = if j = idx then { scr j with Char := ch } else scr j := rfl

theorem setCellColor_apply (scr : Nat → ScreenCell) (idx color j : Nat) :
    setCellColor scr idx color j = if j = idx then { scr j with Color := color } else scr j := rfl

theorem clearRow_apply (base color : Nat) (scr : Nat → ScreenCell) (j : Nat) :
    clearRow base color scr j
      = if base ≤ j ∧ j < base + kInnerWidth then { Char := 32, Color := color } else scr j := by
  have key : ∀ n : Nat,
      (List.range n).foldl
        (fun scr x => setCellColor (setCellChar scr (base + x) 32) (base + x) color) scr j
        = if base ≤ j ∧ j < base + n then { Char := 32, Color := color } else scr j := by
    intro n
    induction n with
    | zero =>
      rw [if_neg (by omega)]
      rfl
    | succ n ih =>
      rw [List.range_succ, List.foldl_append, List.foldl_cons, List.foldl_nil,
        setCellColor_apply, setCellChar_apply]
      by_cases hj : j = base + n
      · rw [if_pos hj, if_pos hj, if_pos (by omega)]
      · rw [if_neg hj, if_neg hj, ih]
        by_cases hin : base ≤ j ∧ j < base + n
        · rw [if_pos hin, if_pos (by omega)]
        · rw [if_neg hin, if_neg (by omega)]
  unfold clearRow
  exact key kInnerWidth

theorem copyLoop_spec (l : List Char) (c : List Nat) (base : Nat) :
    ∀ (n x : Nat) (scr : Nat → ScreenCell), x + n ≤ c.length → base + x + n ≤ 24 * 80 →
      ∃ scr', copyLoop l c base n x scr = some scr' ∧
        ∀ j, scr' j = if base + x ≤ j ∧ j < base + x + n then
            { Char := cellOfChar (l.getD (j - base) ' '), Color := c.getD (j - base) 0 }
          else scr j := by
  intro n
  induction n with
  | zero =>
    intro x scr _ _
    refine ⟨scr, rfl, fun j => ?_⟩
    rw [if_neg (by omega)]
  | succ n ih =>
    intro x scr h1 h2
    rw [copyLoop, if_pos ⟨by omega, by omega⟩]
    obtain ⟨scr', hs, hj⟩ := ih (x + 1) _ (by omega) (by omega)
    refine ⟨scr', hs, fun j => ?_⟩
    rw [hj j]
    by_cases hin : base + (x + 1) ≤ j ∧ j < base + (x + 1) + n
    · rw [if_pos hin, if_pos (by omega)]
    · rw [if_neg hin]
      rw [setCellColor_apply, setCellChar_apply]
      by_cases he : j = base + x
      · have hjb : j - base = x := by omega
        rw [if_pos he, if_pos he, if_pos (by omega), hjb]
      · rw [if_neg he, if_neg he, if_neg (by omega)]

/-- What the wide messages shown and their colours are like, when they fit. -/
theorem getWide_fit (m : LuaConsoleModel) (h : FragmentsFit m) (i : Int) :
    (m.getWideMsg i).length ≤ kInnerWidth ∧
    (m.getWideMsg i).length ≤ (m.getWideColor i).length := by
  obtain ⟨hf, he1, he2⟩ := h
  unfold getWideMsg getWideColor
  simp only
  generalize wrapInt32 ((if i < 0 then wrapInt32 ((m.m_widemsg.length : Int) + i) else i)
    + m.m_firstmsg) = idx
  by_cases hin : idx < 0 ∨ (m.m_widemsg.length : Int) ≤ idx
  · rw [if_pos hin, if_pos hin]
    exact ⟨he1, he2⟩
  · rw [if_neg hin, if_neg hin]
    have hlt : idx.toNat < m.m_widemsg.length := by omega
    rw [List.getD_eq_getElem _ _ hlt]
    exact hf _ (List.getElem_mem hlt)

theorem rowsLoop_succ (m : LuaConsoleModel) (n i : Nat) (scr : Nat → ScreenCell) :
    rowsLoop m (n + 1) i scr =
      match copyLoop (m.getWideMsg ((i : Int) - 22)) (m.getWideColor ((i : Int) - 22))
          (1 + 80 * i) (m.getWideMsg ((i : Int) - 22)).length 0
          (clearRow (1 + 80 * i) 0xffffffff scr) with
      | none => none
      | some scr => rowsLoop m n (i + 1) scr := rfl

/-- The rows loop of `updateBuffer`: it returns, and writes the inner cells of its rows
and no other cell. -/
theorem rowsLoop_spec (m : LuaConsoleModel) (h : FragmentsFit m) :
    ∀ (n i : Nat) (scr : Nat → ScreenCell), i + n ≤ 23 →
      ∃ scr', rowsLoop m n i scr = some scr' ∧
        ∀ j, scr' j = if i ≤ j / 80 ∧ j / 80 < i + n ∧ 1 ≤ j % 80 ∧ j % 80 ≤ 78 then
            rowCell (m.getWideMsg (((j / 80 : Nat) : Int) - 22))
              (m.getWideColor (((j / 80 : Nat) : Int) - 22)) (j % 80 - 1)
          else scr j := by
  intro n
  induction n with
  | zero =>
    intro i scr _
    refine ⟨scr, rfl, fun j => ?_⟩
    rw [if_neg (by omega)]
  | succ n ih =>
    intro i scr hi
    obtain ⟨hw, hc⟩ := getWide_fit m h ((i : Int) - 22)
    unfold kInnerWidth at hw
    rw [rowsLoop_succ]
    obtain ⟨scr1, h1, hj1⟩ := copyLoop_spec (m.getWideMsg ((i : Int) - 22))
      (m.getWideColor ((i : Int) - 22)) (1 + 80 * i) (m.getWideMsg ((i : Int) - 22)).length 0
      (clearRow (1 + 80 * i) 0xffffffff scr) (by omega) (by omega)
    rw [h1]
    simp only
    obtain ⟨scr2, h2, hj2⟩ := ih (i + 1) scr1 (by omega)
    refine ⟨scr2, h2, fun j => ?_⟩
    rw [hj2 j]
    by_cases hin : i + 1 ≤ j / 80 ∧ j / 80 < i + 1 + n ∧ 1 ≤ j % 80 ∧ j % 80 ≤ 78
    · rw [if_pos hin, if_pos (by omega)]
    · rw [if_neg hin]
      by_cases hrow : j / 80 = i ∧ 1 ≤ j % 80 ∧ j % 80 ≤ 78
      · have hji : ((j / 80 : Nat) : Int) = (i : Int) := by omega
        have hx : j - (1 + 80 * i) = j % 80 - 1 := by omega
        rw [if_pos (by omega), hji, hj1 j, clearRow_apply]
        unfold rowCell kInnerWidth
        by_cases hx2 : j % 80 - 1 < (m.getWideMsg ((i : Int) - 22)).length
        · rw [if_pos (by omega), if_pos hx2, hx]
        · rw [if_neg (by omega), if_neg hx2, if_pos (by omega)]
      · rw [if_neg (by omega), hj1 j, clearRow_apply]
        unfold kInnerWidth
        rw [if_neg (by omega), if_neg (by omega)]

theorem promptLoop_spec (m : LuaConsoleModel) (base : Nat) :
    ∀ (fuel x : Nat) (scr : Nat → ScreenCell), kInnerWidth ≤ x + fuel →
      ∀ j, promptLoop m base fuel x scr j
        = if base + x ≤ j ∧ j < base + kInnerWidth ∧
              m.m_lastlineoffset + (j - base) < m.m_lastline.length then
            { scr j with
              Char := cellOfChar (m.m_lastline.getD (m.m_lastlineoffset + (j - base)) ' ') }
          else scr j := by
  intro fuel
  induction fuel with
  | zero =>
    intro x scr hx j
    rw [promptLoop, if_neg (by omega)]
  | succ fuel ih =>
    intro x scr hx j
    rw [promptLoop]
    by_cases hc : x < kInnerWidth ∧ m.m_lastlineoffset + x < m.m_lastline.length
    · rw [if_pos hc, ih (x + 1) _ (by omega) j]
      by_cases hin : base + (x + 1) ≤ j ∧ j < base + kInnerWidth ∧
          m.m_lastlineoffset + (j - base) < m.m_lastline.length
      · rw [if_pos hin, if_pos (by omega)]
        rw [setCellChar_apply, if_neg (by omega)]
      · rw [if_neg hin, setCellChar_apply]
        by_cases he : j = base + x
        · have hjb : j - base = x := by omega
          rw [if_pos he, if_pos (by rw [hjb]; omega), hjb, he]
        · rw [if_neg he, if_neg (by omega)]
    · rw [if_neg hc, if_neg (by omega)]

/-- The wide messages of a state with a consistent scrollback fit the grid, when the
width is at most `kInnerWidth` and the empty line is empty. -/
theorem fragmentsFit_of_lockStep (m : LuaConsoleModel) (h : LockStep m) (hw1 : 1 ≤ m.m_w)
    (hw : m.m_w ≤ kInnerWidth) (he : m.m_empty = { Text := [], Color := [] }) :
    FragmentsFit m := by
  obtain ⟨hfit, hwide, _⟩ := h
  refine ⟨?_, by rw [he]; exact Nat.zero_le _, by rw [he]; exact Nat.le_refl _⟩
  intro f hf
  rw [hwide] at hf
  obtain ⟨frags, hfr, hff⟩ := List.mem_flatten.mp hf
  obtain ⟨msg, hmsg, rfl⟩ := List.mem_map.mp hfr
  obtain ⟨r, hr⟩ := pushWideMessages_isSome msg m.m_w [] (hfit msg hmsg)
  obtain ⟨new, rfl, _, hshape, hwid⟩ := pushWideMessages_spec msg m.m_w [] r hr
  have hwm : wideMessagesOf msg m.m_w = new := by
    unfold wideMessagesOf
    rw [hr]
    simp
  rw [hwm] at hff
  have h1 := hwid hw1 f hff
  have h2 := (hshape f hff).2 (hfit msg hmsg)
  exact ⟨by omega, by omega⟩

/-- What `updateBuffer` does when the grid is out of date. -/
theorem updateBuffer_spec (m : LuaConsoleModel) (hd : m.m_lastupdate ≠ m.m_dirtyness)
    (h : FragmentsFit m) :
    ∃ scr : Nat → ScreenCell,
      updateBuffer m = some { m with m_lastupdate := m.m_dirtyness, m_screen := scr } ∧
      ∀ j, scr j =
        if 1 ≤ j / 80 ∧ j / 80 ≤ 21 ∧ 1 ≤ j % 80 ∧ j % 80 ≤ 78 then
          rowCell (m.getWideMsg (((j / 80 : Nat) : Int) - 22))
            (m.getWideColor (((j / 80 : Nat) : Int) - 22)) (j % 80 - 1)
        else if j / 80 = 22 ∧ 1 ≤ j % 80 ∧ j % 80 ≤ 78 then promptCell m (j % 80 - 1)
        else drawFrame m m.m_screen j := by
  have h0 : FragmentsFit { m with m_lastupdate := m.m_dirtyness } := h
  obtain ⟨scr1, h1, hj1⟩ := rowsLoop_spec { m with m_lastupdate := m.m_dirtyness } h0 21 1
    (drawFrame { m with m_lastupdate := m.m_dirtyness } m.m_screen) (by omega)
  refine ⟨promptLoop { m with m_lastupdate := m.m_dirtyness } (1 + 80 * 22) kInnerWidth 0
    (clearRow (1 + 80 * 22) (m.m_colors ECONSOLE_COLOR.ECC_PROMPT) scr1), ?_, ?_⟩
  · unfold updateBuffer
    rw [if_neg hd]
    simp only
    rw [h1]
  · intro j
    rw [promptLoop_spec _ _ kInnerWidth 0 _ (by omega) j, clearRow_apply, hj1 j]
    dsimp only
    unfold kInnerWidth
    by_cases hrow : 1 ≤ j / 80 ∧ j / 80 ≤ 21 ∧ 1 ≤ j % 80 ∧ j % 80 ≤ 78
    · rw [if_pos hrow, if_neg (by omega), if_neg (by omega), if_pos (by omega)]
      rfl
    · rw [if_neg hrow]
      by_cases hp : j / 80 = 22 ∧ 1 ≤ j % 80 ∧ j % 80 ≤ 78
      · rw [if_pos hp]
        have hx : j - (1 + 80 * 22) = j % 80 - 1 := by omega
        unfold promptCell
        by_cases hlen : m.m_lastlineoffset + (j % 80 - 1) < m.m_lastline.length
        · rw [if_pos hlen, if_pos ⟨by omega, by omega, by rw [hx]; exact hlen⟩,
            if_pos (by omega), hx]
        · rw [if_neg hlen, if_neg (by rw [hx]; omega), if_pos (by omega)]
      · rw [if_neg hp, if_neg (by omega), if_neg (by omega), if_neg (by omega)]
        rfl

theorem cellOfChar_ascii (c : Char) (h : c.toNat < 128) : cellOfChar c = c.toNat := by
  unfold cellOfChar charValue toUnsigned
  rw [if_pos h]
  omega

theorem cellOfChar_high (c : Char) (h1 : 128 ≤ c.toNat) (h2 : c.toNat < 256) :
    cellOfChar c = c.toNat + 4294967040 := by
  unfold cellOfChar charValue toUnsigned
  rw [if_neg (by omega)]
  omega

/-- C28: when the grid is out of date and the wide messages fit it, `getScreenBuffer`
recomputes the grid and changes nothing but the grid and `m_lastupdate`.  For every row
`i` in 1..21 and column `x` in 0..77 the cell at `(x + 1, i)` holds character `x` of
`getWideMsg(i - 22)` with colour `x` of `getWideColor(i - 22)`, or a white space when
`x` is beyond the length of the message; the cell at `(x + 1, 22)` holds
`line[offset + x]` when `offset + x < len(line)` and a space otherwise, in the prompt
colour; every cell outside the inner 78 columns of the rows 1..22 is as the frame and
title loops left it; and a second call, the dirty counter being unchanged, returns the
same state and grid.  A cell holds a character as the assignment of a `char` to its
`unsigned` member leaves it: the code of an ASCII character, and the code plus
`2 ^ 32 - 256` of a byte from 128 to 255, which is a negative `char`. -/
theorem grid_projection (m : LuaConsoleModel) (hd : m.m_lastupdate ≠ m.m_dirtyness)
    (h : FragmentsFit m) :
    ∃ m', getScreenBuffer m = some (m', m'.m_screen) ∧
      m' = { m with m_lastupdate := m.m_dirtyness, m_screen := m'.m_screen } ∧
      (∀ i x : Nat, 1 ≤ i → i ≤ 21 → x < 78 →
        m'.m_screen (x + 1 + 80 * i)
          = rowCell (m.getWideMsg ((i : Int) - 22)) (m.getWideColor ((i : Int) - 22)) x) ∧
      (∀ x : Nat, x < 78 → m'.m_screen (x + 1 + 80 * 22) = promptCell m x) ∧
      (∀ j : Nat, ¬ (1 ≤ j / 80 ∧ j / 80 ≤ 22 ∧ 1 ≤ j % 80 ∧ j % 80 ≤ 78) →
        m'.m_screen j = drawFrame m m.m_screen j) ∧
      m'.m_lastupdate = m'.m_dirtyness ∧
      getScreenBuffer m' = some (m', m'.m_screen) ∧
      (∀ (l : List Char) (c : List Nat) (x : Nat), x < l.length →
        rowCell l c x = { Char := cellOfChar (l.getD x ' '), Color := c.getD x 0 }) ∧
      (∀ (l : List Char) (c : List Nat) (x : Nat), l.length ≤ x →
        rowCell l c x = { Char := 32, Color := 0xffffffff }) ∧
      (∀ x : Nat, m.m_lastlineoffset + x < m.m_lastline.length →
        promptCell m x = { Char := cellOfChar (m.m_lastline.getD (m.m_lastlineoffset + x) ' '),
                           Color := m.m_colors ECONSOLE_COLOR.ECC_PROMPT }) ∧
      (∀ x : Nat, m.m_lastline.length ≤ m.m_lastlineoffset + x →
        promptCell m x = { Char := 32, Color := m.m_colors ECONSOLE_COLOR.ECC_PROMPT }) ∧
      (∀ c : Char, c.toNat < 128 → cellOfChar c = c.toNat) ∧
      (∀ c : Char, 128 ≤ c.toNat → c.toNat < 256 → cellOfChar c = c.toNat + 4294967040) := by
  obtain ⟨scr, hu, hj⟩ := updateBuffer_spec m hd h
  refine ⟨{ m with m_lastupdate := m.m_dirtyness, m_screen := scr }, ?_, rfl, ?_, ?_, ?_, rfl, ?_,
    ?_, ?_, ?_, ?_, cellOfChar_ascii, cellOfChar_high⟩
  · unfold getScreenBuffer
    rw [hu]
  · intro i x h1 h2 hx
    show scr (x + 1 + 80 * i) = _
    rw [hj]
    have e1 : (x + 1 + 80 * i) / 80 = i := by omega
    have e2 : (x + 1 + 80 * i) % 80 - 1 = x := by omega
    rw [if_pos (by omega), e1, e2]
  · intro x hx
    show scr (x + 1 + 80 * 22) = _
    rw [hj]
    have e2 : (x + 1 + 80 * 22) % 80 - 1 = x := by omega
    rw [if_neg (by omega), if_pos (by omega), e2]
  · intro j hout
    show scr j = _
    rw [hj, if_neg (by omega), if_neg (by omega)]
  · unfold getScreenBuffer updateBuffer
    rw [if_pos rfl]
  · intro l c x hx
    unfold rowCell
    rw [if_pos hx]
  · intro l c x hx
    unfold rowCell
    rw [if_neg (by omega)]
  · intro x hx
    unfold promptCell
    rw [if_pos hx]
  · intro x hx
    unfold promptCell
    rw [if_neg (by omega)]

set_option maxRecDepth 100000 in
/-- Witness of C28: a console showing the message `hi` and the line `--clear`; and a
console showing the byte `0xE9` as message and as line, which the cells hold
sign-extended. -/
theorem grid_projection_witness :
    sampleClearState.m_lastupdate ≠ sampleClearState.m_dirtyness ∧
    FragmentsFit sampleClearState ∧
    (∃ m', getScreenBuffer sampleClearState = some (m', m'.m_screen) ∧
      m'.m_screen (0 + 1 + 80 * 21) = { Char := 104, Color := 1 } ∧
      m'.m_screen (1 + 1 + 80 * 21) = { Char := 105, Color := 1 } ∧
      m'.m_screen (2 + 1 + 80 * 21) = { Char := 32, Color := 0xffffffff } ∧
      m'.m_screen (0 + 1 + 80 * 20) = { Char := 32, Color := 0xffffffff } ∧
      m'.m_screen (0 + 1 + 80 * 22) = { Char := 45, Color := 0xffffffff } ∧
      m'.m_screen (7 + 1 + 80 * 22) = { Char := 32, Color := 0xffffffff } ∧
      getScreenBuffer m' = some (m', m'.m_screen)) ∧
    sampleLatinState.m_lastupdate ≠ sampleLatinState.m_dirtyness ∧
    FragmentsFit sampleLatinState ∧
    (∃ m', getScreenBuffer sampleLatinState = some (m', m'.m_screen) ∧
      m'.m_screen (0 + 1 + 80 * 21) = { Char := 4294967273, Color := 1 } ∧
      m'.m_screen (0 + 1 + 80 * 22) = { Char := 4294967273, Color := 0xffffffff }) := by
  have hfit : FragmentsFit sampleClearState :=
    fragmentsFit_of_lockStep sampleClearState lockStep_sampleClearState (by decide) (by decide) rfl
  have hfit2 : FragmentsFit sampleLatinState :=
    fragmentsFit_of_lockStep sampleLatinState ⟨(by decide), (by decide), (by decide)⟩
      (by decide) (by decide) rfl
  refine ⟨(by decide), hfit, ?_, (by decide), hfit2, ?_⟩
  · obtain ⟨m', h1, _, hrow, hprompt, _, _, h2, _⟩ :=
      grid_projection sampleClearState (by decide) hfit
    refine ⟨m', h1, ?_, ?_, ?_, ?_, ?_, ?_, h2⟩
    · rw [hrow 21 0 (by decide) (by decide) (by decide)]; decide
    · rw [hrow 21 1 (by decide) (by decide) (by decide)]; decide
    · rw [hrow 21 2 (by decide) (by decide) (by decide)]; decide
    · rw [hrow 20 0 (by decide) (by decide) (by decide)]; decide
    · rw [hprompt 0 (by decide)]; decide
    · rw [hprompt 7 (by decide)]; decide
  · obtain ⟨m', h1, _, hrow, hprompt, _⟩ :=
      grid_projection sampleLatinState (by decide) hfit2
    refine ⟨m', h1, ?_, ?_⟩
    · rw [hrow 21 0 (by decide) (by decide) (by decide)]; decide
    · rw [hprompt 0 (by decide)]; decide

/-! ## The dirty counter: where the code departs from the description -/

set_option maxRecDepth 100000 in
/-- C23 (divergence): the scrollback holds the message `hi` and the grid has been read.
`clearScreen()` empties the wide messages and leaves the dirty counter as it was, so the
next `getScreenBuffer` does not recompute the grid: the cell at column 1 of row 21 still
holds `h`, while `getWideMsg(-1)` is empty. -/
theorem clearScreen_keeps_dirty_counter :
    sampleClearState.m_widemsg = [{ Text := ['h', 'i'], Color := [1, 1] }] ∧
    sampleClearState.clearScreen.m_widemsg = [] ∧
    sampleClearState.clearScreen.m_dirtyness = sampleClearState.m_dirtyness ∧
    (getScreenBuffer sampleClearState).map
        (fun r => (r.1.m_dirtyness, r.1.clearScreen.m_dirtyness, r.2 (1 + 80 * 21)))
      = some (1, 1, { Char := 104, Color := 1 }) ∧
    ((getScreenBuffer sampleClearState).bind (fun r => getScreenBuffer r.1.clearScreen)).map
        (fun r => (r.1.m_widemsg, r.1.getWideMsg (-1), r.2 (1 + 80 * 21)))
      = some ([], [], { Char := 104, Color := 1 }) := by
  refine ⟨rfl, rfl, rfl, ?_, ?_⟩
  · decide
  · decide

end blua
